import Mathlib

/-!
Hessian 2 codec: the int32 codec and the top-level dispatch.

A shallow embedding of the Go package `hessian` (files `int.go`, `decode.go`,
`encode.go`, `object.go`) together with machine-checked statements about it.

Conventions of the embedding

* a Go `byte` is a `Fin 256`; byte arithmetic (`tag - BC_INT_ZERO`) is the
  wrapping arithmetic of `Fin 256`;
* Go `int8`/`int16`/`int32`/`int64` values are mathematical integers; the
  conversions `int8(x)`, `int16(x)`, `int32(x)`, `byte(x)` are written out with
  explicit remainders;
* the `*bufio.Reader` of a decoder is the list of bytes that are still unread;
* a Go function returning `(T, error)` and mutating its receiver returns an
  `Except Err T` paired with the receiver after the call; the zero value Go
  returns next to a non-nil error is not represented;
* functions this package calls and whose sources are not at hand are either
  parameters of the function that calls them or, where the wire table fixes
  them, definitions whose comment says so.
-/

namespace Hessian

/-! ## Machine integers -/

/-- A Go `byte`. -/
abbrev Byte := Fin 256

/-- Go conversion `byte(x)` of a signed integer: its low eight bits. -/
def byte (x : Int) : Byte := ⟨(x % 256).toNat, by omega⟩

/-- Go conversion `int8(x)`: reinterpret the low eight bits as two's complement. -/
def int8 (x : Int) : Int := (x + 128) % 256 - 128

/-- Go conversion `int16(x)`. -/
def int16 (x : Int) : Int := (x + 32768) % 65536 - 32768

/-- Go conversion `int32(x)`. -/
def int32 (x : Int) : Int := (x + 2147483648) % 4294967296 - 2147483648

/-- Go conversion `int64(x)`. -/
def int64 (x : Int) : Int :=
  (x + 9223372036854775808) % 18446744073709551616 - 9223372036854775808

/-- Go `v >> k` on a signed integer (arithmetic shift). -/
def sar (v : Int) (k : Nat) : Int := v >>> k

/-- The values of the Go type `int32`. -/
def IsInt32 (v : Int) : Prop := -2147483648 ≤ v ∧ v ≤ 2147483647

instance (v : Int) : Decidable (IsInt32 v) := inferInstanceAs (Decidable (_ ∧ _))

/-- Go `binary.BigEndian.Uint16`. -/
def beUint16 (b1 b0 : Byte) : Int := (b1.val : Int) * 256 + b0.val

/-- Go `binary.BigEndian.Uint32`. -/
def beUint32 (b3 b2 b1 b0 : Byte) : Int :=
  (b3.val : Int) * 16777216 + (b2.val : Int) * 65536 + (b1.val : Int) * 256 + b0.val

/-! ## Wire constants

The file declaring the constants is not part of the sources at hand; their
values are those of the wire table. -/

/-- Modelled from the spec: the constant `TAG_READ`, declared outside the
sources at hand; it is the flag that tells a codec to read its own tag, the
int32 `-1`, which no tag byte converts to. -/
def TAG_READ : Int := -1

/-- Modelled from the spec: the constant `BC_INT` is declared outside the
sources at hand; `INT (full) 0x49`. -/
def BC_INT : Byte := 0x49
/-- Modelled from the spec: the constant `BC_INT_ZERO` is declared outside the
sources at hand; `INT direct 0x80-0xbf, value = tag - 0x90`. -/
def BC_INT_ZERO : Byte := 0x90
/-- Modelled from the spec: the constant `BC_INT_BYTE_ZERO` is declared outside the
sources at hand; `INT byte 0xc0-0xcf, value = ((tag - 0xc8) << 8) | b0`. -/
def BC_INT_BYTE_ZERO : Byte := 0xc8
/-- Modelled from the spec: the constant `BC_INT_SHORT_ZERO` is declared outside the
sources at hand; `INT short 0xd0-0xd7, value = ((tag - 0xd4) << 16) | b1 b0`. -/
def BC_INT_SHORT_ZERO : Byte := 0xd4
/-- Modelled from the spec: the constant `INT_DIRECT_MIN` is declared outside the
sources at hand; the direct int32 range is -16..47. -/
def INT_DIRECT_MIN : Int := -0x10
/-- Modelled from the spec: the constant `INT_DIRECT_MAX` is declared outside the
sources at hand; the direct int32 range is -16..47. -/
def INT_DIRECT_MAX : Int := 0x2f
/-- Modelled from the spec: the constant `INT_BYTE_MIN` is declared outside the
sources at hand; the one-byte int32 range is -2048..2047. -/
def INT_BYTE_MIN : Int := -0x800
/-- Modelled from the spec: the constant `INT_BYTE_MAX` is declared outside the
sources at hand; the one-byte int32 range is -2048..2047. -/
def INT_BYTE_MAX : Int := 0x7ff
/-- Modelled from the spec: the constant `INT_SHORT_MIN` is declared outside the
sources at hand; the two-byte int32 range is -262144..262143. -/
def INT_SHORT_MIN : Int := -0x40000
/-- Modelled from the spec: the constant `INT_SHORT_MAX` is declared outside the
sources at hand; the two-byte int32 range is -262144..262143. -/
def INT_SHORT_MAX : Int := 0x3ffff

/-- Modelled from the spec: the constant `BC_END` is declared outside the
sources at hand; `END 0x5a`. -/
def BC_END : Byte := 0x5a
/-- Modelled from the spec: the constant `BC_NULL` is declared outside the
sources at hand; `NULL 0x4e`. -/
def BC_NULL : Byte := 0x4e
/-- Modelled from the spec: the constant `BC_TRUE` is declared outside the
sources at hand; `TRUE 0x54`. -/
def BC_TRUE : Byte := 0x54
/-- Modelled from the spec: the constant `BC_FALSE` is declared outside the
sources at hand; `FALSE 0x46`. -/
def BC_FALSE : Byte := 0x46
/-- Modelled from the spec: the constant `BC_REF` is declared outside the
sources at hand; `REF 0x51`. -/
def BC_REF : Byte := 0x51
/-- Modelled from the spec: the constant `BC_LONG` is declared outside the
sources at hand; `LONG (full) 0x4c`. -/
def BC_LONG : Byte := 0x4c
/-- Modelled from the spec: the constant `BC_LONG_INT` is declared outside the
sources at hand; `LONG as int32 0x59`. -/
def BC_LONG_INT : Byte := 0x59
/-- Modelled from the spec: the constant `BC_LONG_ZERO` is declared outside the
sources at hand; `LONG direct 0xd8-0xef, value = tag - 0xe0`. -/
def BC_LONG_ZERO : Byte := 0xe0
/-- Modelled from the spec: the constant `BC_LONG_BYTE_ZERO` is declared outside the
sources at hand; `LONG byte 0xf0-0xff`, centred like the int32 form. -/
def BC_LONG_BYTE_ZERO : Byte := 0xf8
/-- Modelled from the spec: the constant `BC_LONG_SHORT_ZERO` is declared outside the
sources at hand; `LONG short 0x38-0x3f`, centred like the int32 form. -/
def BC_LONG_SHORT_ZERO : Byte := 0x3c
/-- Modelled from the spec: the constant `LONG_DIRECT_MIN` is declared outside the
sources at hand; the direct int64 range `0xd8-0xef` is -8..15. -/
def LONG_DIRECT_MIN : Int := -0x08
/-- Modelled from the spec: the constant `LONG_DIRECT_MAX` is declared outside the
sources at hand; the direct int64 range `0xd8-0xef` is -8..15. -/
def LONG_DIRECT_MAX : Int := 0x0f
/-- Modelled from the spec: the constant `LONG_BYTE_MIN` is declared outside the
sources at hand; the one-byte int64 range. -/
def LONG_BYTE_MIN : Int := -0x800
/-- Modelled from the spec: the constant `LONG_BYTE_MAX` is declared outside the
sources at hand; the one-byte int64 range. -/
def LONG_BYTE_MAX : Int := 0x7ff
/-- Modelled from the spec: the constant `LONG_SHORT_MIN` is declared outside the
sources at hand; the two-byte int64 range. -/
def LONG_SHORT_MIN : Int := -0x40000
/-- Modelled from the spec: the constant `LONG_SHORT_MAX` is declared outside the
sources at hand; the two-byte int64 range. -/
def LONG_SHORT_MAX : Int := 0x3ffff
/-- Modelled from the spec: the constant `BC_DATE` is declared outside the
sources at hand; `DATE (ms) 0x4a`. -/
def BC_DATE : Byte := 0x4a
/-- Modelled from the spec: the constant `BC_DATE_MINUTE` is declared outside the
sources at hand; `DATE (min) 0x4b`. -/
def BC_DATE_MINUTE : Byte := 0x4b
/-- Modelled from the spec: the constant `BC_DOUBLE` is declared outside the
sources at hand; `DOUBLE (full) 0x44`. -/
def BC_DOUBLE : Byte := 0x44
/-- Modelled from the spec: the constant `BC_DOUBLE_ZERO` is declared outside the
sources at hand; `DOUBLE 0 0x5b`. -/
def BC_DOUBLE_ZERO : Byte := 0x5b
/-- Modelled from the spec: the constant `BC_DOUBLE_ONE` is declared outside the
sources at hand; `DOUBLE 1 0x5c`. -/
def BC_DOUBLE_ONE : Byte := 0x5c
/-- Modelled from the spec: the constant `BC_DOUBLE_BYTE` is declared outside the
sources at hand; `DOUBLE byte 0x5d`. -/
def BC_DOUBLE_BYTE : Byte := 0x5d
/-- Modelled from the spec: the constant `BC_DOUBLE_SHORT` is declared outside the
sources at hand; `DOUBLE short 0x5e`. -/
def BC_DOUBLE_SHORT : Byte := 0x5e
/-- Modelled from the spec: the constant `BC_DOUBLE_MILL` is declared outside the
sources at hand; `DOUBLE mill 0x5f`. -/
def BC_DOUBLE_MILL : Byte := 0x5f
/-- Modelled from the spec: the constant `BC_STRING` is declared outside the
sources at hand; `STRING (full) 0x53`. -/
def BC_STRING : Byte := 0x53
/-- Modelled from the spec: the constant `BC_STRING_CHUNK` is declared outside the
sources at hand; `STRING chunk 0x52`. -/
def BC_STRING_CHUNK : Byte := 0x52
/-- Modelled from the spec: the constant `BC_STRING_DIRECT` is declared outside the
sources at hand; `STRING short 0x00-0x1f`. -/
def BC_STRING_DIRECT : Byte := 0x00
/-- Modelled from the spec: the constant `STRING_DIRECT_MAX` is declared outside the
sources at hand; `STRING short 0x00-0x1f`. -/
def STRING_DIRECT_MAX : Byte := 0x1f
/-- Modelled from the spec: the constant `BC_BINARY` is declared outside the
sources at hand; `BINARY (full) 0x42`. -/
def BC_BINARY : Byte := 0x42
/-- Modelled from the spec: the constant `BC_BINARY_CHUNK` is declared outside the
sources at hand; `BINARY chunk 0x41`. -/
def BC_BINARY_CHUNK : Byte := 0x41
/-- Modelled from the spec: the constant `BC_BINARY_SHORT` is declared outside the
sources at hand; `BINARY medium 0x34-0x37`. -/
def BC_BINARY_SHORT : Byte := 0x34
/-- Modelled from the spec: the constant `BC_LIST_VARIABLE` is declared outside the
sources at hand; `LIST typed variable 0x55`. -/
def BC_LIST_VARIABLE : Byte := 0x55
/-- Modelled from the spec: the constant `BC_LIST_FIXED` is declared outside the
sources at hand; `LIST typed fixed 0x56`. -/
def BC_LIST_FIXED : Byte := 0x56
/-- Modelled from the spec: the constant `BC_LIST_VARIABLE_UNTYPED` is declared outside the
sources at hand; `LIST untyped variable 0x57`. -/
def BC_LIST_VARIABLE_UNTYPED : Byte := 0x57
/-- Modelled from the spec: the constant `BC_LIST_FIXED_UNTYPED` is declared outside the
sources at hand; `LIST untyped fixed 0x58`. -/
def BC_LIST_FIXED_UNTYPED : Byte := 0x58
/-- Modelled from the spec: the constant `BC_LIST_DIRECT` is declared outside the
sources at hand; `LIST typed direct 0x70-0x77`. -/
def BC_LIST_DIRECT : Byte := 0x70
/-- Modelled from the spec: the constant `BC_LIST_DIRECT_UNTYPED` is declared outside the
sources at hand; `LIST untyped direct 0x78-0x7f`. -/
def BC_LIST_DIRECT_UNTYPED : Byte := 0x78
/-- Modelled from the spec: the constant `BC_MAP` is declared outside the
sources at hand; `MAP typed 0x4d`. -/
def BC_MAP : Byte := 0x4d
/-- Modelled from the spec: the constant `BC_MAP_UNTYPED` is declared outside the
sources at hand; `MAP untyped 0x48`. -/
def BC_MAP_UNTYPED : Byte := 0x48
/-- Modelled from the spec: the constant `BC_OBJECT` is declared outside the
sources at hand; `OBJECT 0x4f`. -/
def BC_OBJECT : Byte := 0x4f
/-- Modelled from the spec: the constant `BC_OBJECT_DEF` is declared outside the
sources at hand; `CLASS-DEF 0x43`. -/
def BC_OBJECT_DEF : Byte := 0x43
/-- Modelled from the spec: the constant `BC_OBJECT_DIRECT` is declared outside the
sources at hand; `OBJECT direct 0x60-0x6f`. -/
def BC_OBJECT_DIRECT : Byte := 0x60
/-- Modelled from the spec: the constant `OBJECT_DIRECT_MAX` is declared outside the
sources at hand; `OBJECT direct` packs the indices 0..15. -/
def OBJECT_DIRECT_MAX : Byte := 0x0f

/-! ## Errors and values -/

/-- Go `reflect.Kind`. -/
inductive Kind where
  | invalid | bool | int | int8 | int16 | int32 | int64
  | uint | uint8 | uint16 | uint32 | uint64 | uintptr
  | float32 | float64 | complex64 | complex128
  | array | chan | func | interface | map | ptr | slice | string | struct
  | unsafePointer
deriving DecidableEq

/-- The errors the codec returns. `traced` is `jerrors.Trace`, which wraps an
error with the call site, and `annotated` is `jerrors.Annotate`. The last two
are no error values, see `Err.isAbort`. -/
inductive Err where
  | eof
  | unexpectedEOF
  | traced (e : Err)
  | wrongTag (tag : Byte)
  | invalidType (tag : Byte)
  | structNotSupported (typeName : String)
  | typeNotSupported (kind : Kind)
  | other (msg : String)
  | annotated (msg : String) (e : Err)
  | illegalClassIndex (idx : Int)
  | notInRegistry (goTypeName : String)
  | illegalObjectTag (tag : Byte)
  | failedToFindField (name : String)
  | canNotFindField (name : String)
  | canSetFalse (name : String)
  | unknownMemberType (kind : Kind)
  | wrongTypeExpectStruct (typeName : String)
  | panic (msg : String)
  | outOfFuel
deriving DecidableEq

/-- The two results that are no Go error value: `panic` says that the call
aborted with a run-time panic and returned nothing, `outOfFuel` that the
recursion bound of a run of this model was used up. A caller never handles
them; it ends with the same result. -/
def Err.isAbort : Err → Bool
  | Err.panic _ => true
  | Err.outOfFuel => true
  | _ => false

/-- What a caller returns that wraps the error of a callee with `f`
(`jerrors.Trace`, `jerrors.Annotate`): an abort is passed on as it is. -/
def Err.onReturn (f : Err → Err) (e : Err) : Err :=
  if e.isAbort then e else f e

/-- The dynamic values `Decode` hands back as `interface{}`; `null` is Go's
`nil`. A `record` is a pointer to a host record, shown as the name of its type
and the current content of its fields (`null` for a field not assigned yet, an
integer field as the `int32` or `int64` it holds). -/
inductive Value where
  | null
  | bool (b : Bool)
  | int32 (v : Int)
  | int64 (v : Int)
  | double (bits : Nat)
  | date (ms : Int)
  | string (s : String)
  | binary (bs : List Byte)
  | list (xs : List Value)
  | map (kvs : List (Value × Value))
  | pointer (addr : Nat)
  | javaEnum (ordinal : Int)
  | record (typeName : String) (fields : List Value)

/-- Modelled from the spec: the struct `classInfo` is declared outside the
sources at hand; a class definition is a foreign class name and the ordered
field names, and `object.go` also reads its pre-encoded bytes (`buffer`). -/
structure classInfo where
  javaName : String
  fieldNameList : List String
  buffer : List Byte
deriving DecidableEq

/-! ## Encoding of int32 (`int.go`) -/

/-- Modelled from the spec: the helper `encByte(b, t...)` is not part of the
sources at hand; the writer appends the given bytes to the buffer. -/
def encByte (b : List Byte) (t : List Byte) : List Byte := b ++ t

/-- The Go function `encInt32`. In Go `>>` binds tighter than `+`. -/
def encInt32 (b : List Byte) (v : Int) : List Byte :=
  if INT_DIRECT_MIN ≤ v ∧ v ≤ INT_DIRECT_MAX then
    encByte b [byte (int32 (v + (BC_INT_ZERO.val : Int)))]
  else if INT_BYTE_MIN ≤ v ∧ v ≤ INT_BYTE_MAX then
    encByte b [byte (int32 ((BC_INT_BYTE_ZERO.val : Int) + sar v 8)), byte v]
  else if INT_SHORT_MIN ≤ v ∧ v ≤ INT_SHORT_MAX then
    encByte b [byte (int32 (sar v 16 + (BC_INT_SHORT_ZERO.val : Int))), byte (sar v 8), byte v]
  else
    encByte b [BC_INT, byte (sar v 24), byte (sar v 16), byte (sar v 8), byte v]

/-! ## The decoder and its reader (`decode.go`) -/

/-- The Go struct `Decoder`. Its `*bufio.Reader` is the pair of `reader`, the
bytes not read yet, and `lastByte`, the byte `UnreadByte` would put back
(`none` is bufio's `-1`): a read that yields bytes sets it to the last of them,
a read at the end of the input leaves it as it was, and `Peek` clears it. -/
structure Decoder where
  reader : List Byte
  lastByte : Option Byte
  refs : List Value
  classInfoList : List classInfo

/-- The Go function `NewDecoder`. -/
def NewDecoder (b : List Byte) : Decoder :=
  { reader := b, lastByte := none, refs := [], classInfoList := [] }

/-- The Go method `Decoder.readByte` (`bufio.Reader.ReadByte`): at the end of
the input it returns the zero byte together with `io.EOF`. -/
def Decoder.readByte (d : Decoder) : (Byte × Option Err) × Decoder :=
  match d.reader with
  | [] => ((0, some Err.eof), d)
  | b :: rest => ((b, none), { d with reader := rest, lastByte := some b })

/-- The Go call `io.ReadFull(d.reader, buf)` with `len(buf) = n`: either all
`n` bytes, or whatever was left together with `io.EOF` (nothing was left) or
`io.ErrUnexpectedEOF`; the bytes read are consumed in both cases. -/
def Decoder.readFull (d : Decoder) (n : Nat) : (List Byte × Option Err) × Decoder :=
  if n ≤ d.reader.length then
    ((d.reader.take n, none),
      { d with reader := d.reader.drop n,
               lastByte := (d.reader.take n).getLast? <|> d.lastByte })
  else
    ((d.reader, some (if d.reader.isEmpty then Err.eof else Err.unexpectedEOF)),
      { d with reader := [], lastByte := d.reader.getLast? <|> d.lastByte })

/-- The Go method `Decoder.unreadByte` (`bufio.Reader.UnreadByte`): the byte
read last becomes unread again and cannot be unread twice; without such a byte
the call fails, which the callers of `unreadByte` do not check. -/
def Decoder.unreadByte (d : Decoder) : Decoder :=
  match d.lastByte with
  | none => d
  | some b => { d with reader := b :: d.reader, lastByte := none }

/-! ## Decoding of int32 (`int.go`) -/

/-- The Go method `Decoder.decInt32`. A payload buffer that `io.ReadFull`
filled is read back by position, as the Go code indexes `buf`. -/
def decInt32 (d : Decoder) (flag : Int) : Except Err Int × Decoder :=
  let (tag, d) : Byte × Decoder :=
    if flag ≠ TAG_READ then (byte flag, d)
    else let r := d.readByte; (r.1.1, r.2)
  if 0x80 ≤ tag ∧ tag ≤ 0xbf then
    let i8 := int8 ((tag - BC_INT_ZERO).val)
    (Except.ok (int32 i8), d)
  else if 0xc0 ≤ tag ∧ tag ≤ 0xcf then
    let buf0 : Byte := tag - BC_INT_BYTE_ZERO
    match d.readFull 1 with
    | ((_, some err), d1) => (Except.error (Err.traced err), d1)
    | ((p, none), d1) =>
      let u16 := beUint16 buf0 (p.getD 0 0)
      let i16 := int16 u16
      (Except.ok (int32 i16), d1)
  else if 0xd0 ≤ tag ∧ tag ≤ 0xd7 then
    -- Use int32 to represent int24.
    let buf1 : Byte := tag - BC_INT_SHORT_ZERO
    let buf0 : Byte := if buf1 &&& 0x80 ≠ 0 then 0xff else 0
    match d.readFull 2 with
    | ((_, some err), d1) => (Except.error (Err.traced err), d1)
    | ((p, none), d1) =>
      let u32 := beUint32 buf0 buf1 (p.getD 0 0) (p.getD 1 0)
      (Except.ok (int32 u32), d1)
  else if tag = BC_INT then
    match d.readFull 4 with
    | ((_, some err), d1) => (Except.error (Err.traced err), d1)
    | ((p, none), d1) =>
      (Except.ok (int32 (beUint32 (p.getD 0 0) (p.getD 1 0) (p.getD 2 0) (p.getD 3 0))), d1)
  else
    (Except.error (Err.wrongTag tag), d)

/-! ## Top-level decoding (`decode.go`) -/

/-- The codecs `Decode` hands a tag to and whose sources are not at hand
(`decRef`, `decInt64`, `decDate`, `decDouble`, `decString`, `decBinary`,
`decList`, `decMap`), and `decObject`, which calls `Decode` back; `Decode` is
stated for every behaviour of them. Each takes the decoder and the tag. -/
structure Codecs where
  decRef : Decoder → Int → Except Err Value × Decoder
  decInt64 : Decoder → Int → Except Err Value × Decoder
  decDate : Decoder → Int → Except Err Value × Decoder
  decDouble : Decoder → Int → Except Err Value × Decoder
  decString : Decoder → Int → Except Err Value × Decoder
  decBinary : Decoder → Int → Except Err Value × Decoder
  decList : Decoder → Int → Except Err Value × Decoder
  decMap : Decoder → Int → Except Err Value × Decoder
  decObject : Decoder → Int → Except Err Value × Decoder

/-- The cases of the `switch` of `Decoder.Decode`, in source order. -/
inductive Branch where
  | endOfStream | null | true | false | ref | int32 | int64 | date | double
  | string | binary | list | map | object | invalid
deriving DecidableEq

/-- The `switch` of `Decoder.Decode`: the first case whose condition holds. -/
def dispatch (tag : Byte) : Branch :=
  if tag = BC_END then Branch.endOfStream
  else if tag = BC_NULL then Branch.null
  else if tag = BC_TRUE then Branch.true
  else if tag = BC_FALSE then Branch.false
  else if tag = BC_REF then Branch.ref
  else if (0x80 ≤ tag ∧ tag ≤ 0xbf) ∨ (0xc0 ≤ tag ∧ tag ≤ 0xcf) ∨
      (0xd0 ≤ tag ∧ tag ≤ 0xd7) ∨ tag = BC_INT then Branch.int32
  else if (tag ≥ 0xd8 ∧ tag ≤ 0xef) ∨ (tag ≥ 0xf0 ∧ tag ≤ 0xff) ∨
      (tag ≥ 0x38 ∧ tag ≤ 0x3f) ∨ tag = BC_LONG_INT ∨ tag = BC_LONG then Branch.int64
  else if tag = BC_DATE_MINUTE ∨ tag = BC_DATE then Branch.date
  else if tag = BC_DOUBLE_ZERO ∨ tag = BC_DOUBLE_ONE ∨ tag = BC_DOUBLE_BYTE ∨
      tag = BC_DOUBLE_SHORT ∨ tag = BC_DOUBLE_MILL ∨ tag = BC_DOUBLE then Branch.double
  else if (tag = BC_STRING_CHUNK ∨ tag = BC_STRING) ∨
      (tag ≥ BC_STRING_DIRECT ∧ tag ≤ STRING_DIRECT_MAX) ∨
      (tag ≥ 0x30 ∧ tag ≤ 0x33) then Branch.string
  else if tag = BC_BINARY ∨ tag = BC_BINARY_CHUNK ∨ (tag ≥ 0x20 ∧ tag ≤ 0x2f) ∨
      (tag ≥ BC_BINARY_SHORT ∧ tag ≤ 0x3f) then Branch.binary
  else if (tag ≥ BC_LIST_DIRECT ∧ tag ≤ 0x77) ∨
      (tag = BC_LIST_FIXED ∨ tag = BC_LIST_VARIABLE) ∨
      (tag ≥ BC_LIST_DIRECT_UNTYPED ∧ tag ≤ 0x7f) ∨
      (tag = BC_LIST_FIXED_UNTYPED ∨ tag = BC_LIST_VARIABLE_UNTYPED) then Branch.list
  else if tag = BC_MAP ∨ tag = BC_MAP_UNTYPED then Branch.map
  else if tag = BC_OBJECT_DEF ∨ tag = BC_OBJECT ∨
      (BC_OBJECT_DIRECT ≤ tag ∧ tag ≤ BC_OBJECT_DIRECT + OBJECT_DIRECT_MAX) then Branch.object
  else Branch.invalid

/-- The Go method `Decoder.Decode`: read one tag byte, then act on the case
`dispatch` selects. The text of the invalid-type error also dumps the buffered
unread bytes, obtained by `Peek`, which consumes nothing and clears the byte
to unread; the dump is left out of `Err.invalidType`. -/
def Decode (c : Codecs) (d : Decoder) : Except Err Value × Decoder :=
  let r := d.readByte
  let tag := r.1.1
  let d := r.2
  if r.1.2 = some Err.eof then (Except.error Err.eof, d)
  else
    match dispatch tag with
    | Branch.endOfStream => (Except.error Err.eof, d)
    | Branch.null => (Except.ok Value.null, d)
    | Branch.true => (Except.ok (Value.bool Bool.true), d)
    | Branch.false => (Except.ok (Value.bool Bool.false), d)
    | Branch.ref => c.decRef d tag.val
    | Branch.int32 =>
      let r := decInt32 d tag.val
      (r.1.map Value.int32, r.2)
    | Branch.int64 => c.decInt64 d tag.val
    | Branch.date => c.decDate d tag.val
    | Branch.double => c.decDouble d tag.val
    | Branch.string => c.decString d tag.val
    | Branch.binary => c.decBinary d tag.val
    | Branch.list => c.decList d tag.val
    | Branch.map => c.decMap d tag.val
    | Branch.object => c.decObject d tag.val
    | Branch.invalid => (Except.error (Err.invalidType tag), { d with lastByte := none })

/-! ## Encoding of the remaining scalars -/

/-- Modelled from the spec: the helper `encNull` is not part of the sources at
hand; `null` is written as the tag `0x4e`. -/
def encNull (b : List Byte) : List Byte := encByte b [BC_NULL]

/-- Modelled from the spec: the helper `encBool` is not part of the sources at
hand; `true` is written as the tag `0x54` and `false` as `0x46`. -/
def encBool (b : List Byte) (v : Bool) : List Byte :=
  if v then encByte b [BC_TRUE] else encByte b [BC_FALSE]

/-- Modelled from the spec: the helper `encInt64` is not part of the sources at
hand. The int64 forms are the compact ranges analogous to those of int32
(direct `0xd8-0xef` with value `tag - 0xe0`, one byte after `0xf0-0xff`, two
bytes after `0x38-0x3f`), the four-byte form `0x59` and the eight-byte form
`0x4c`; the encoder picks the smallest form that covers the value. -/
def encInt64 (b : List Byte) (v : Int) : List Byte :=
  if LONG_DIRECT_MIN ≤ v ∧ v ≤ LONG_DIRECT_MAX then
    encByte b [byte (v + (BC_LONG_ZERO.val : Int))]
  else if LONG_BYTE_MIN ≤ v ∧ v ≤ LONG_BYTE_MAX then
    encByte b [byte ((BC_LONG_BYTE_ZERO.val : Int) + sar v 8), byte v]
  else if LONG_SHORT_MIN ≤ v ∧ v ≤ LONG_SHORT_MAX then
    encByte b [byte ((BC_LONG_SHORT_ZERO.val : Int) + sar v 16), byte (sar v 8), byte v]
  else if -0x80000000 ≤ v ∧ v ≤ 0x7fffffff then
    encByte b [BC_LONG_INT, byte (sar v 24), byte (sar v 16), byte (sar v 8), byte v]
  else
    encByte b [BC_LONG, byte (sar v 56), byte (sar v 48), byte (sar v 40), byte (sar v 32),
      byte (sar v 24), byte (sar v 16), byte (sar v 8), byte v]

/-! ## Top-level encoding (`encode.go`) -/

/-- What `Encode` asks of a value that none of the typed cases of its type
switch matches: the kind and the name of its pointer-unpacked type
(`UnpackPtrType(reflect.TypeOf(v))`) and whether the assertions `v.(POJO)` and
`v.(POJOEnum)` succeed. -/
structure Reflected where
  kind : Kind
  typeName : String
  isPOJO : Bool
  isPOJOEnum : Bool
deriving DecidableEq

/-- The dynamic values handed to `Encode` as `interface{}`, by dynamic type:
one constructor per typed case of the type switch, and `other` for every other
dynamic type (named types, pointers, structs, slices, ...). A `time` is a
`time.Time` and the floats are carried as their bit patterns. -/
inductive GoValue where
  | nil
  | bool (b : Bool)
  | int8 (v : Int)
  | int16 (v : Int)
  | int32 (v : Int)
  | int (v : Int)
  | int64 (v : Int)
  | time (ms : Int)
  | float32 (bits : Nat)
  | float64 (bits : Nat)
  | string (s : String)
  | bytes (bs : List Byte)
  | ifaceMap (kvs : List (GoValue × GoValue))
  | other (r : Reflected)

/-- The Go type assertion `v.(int32)`: it yields the value when the dynamic
type of `v` is `int32` and aborts the program (`none`) for every other dynamic
type. -/
def GoValue.assertInt32 : GoValue → Option Int
  | GoValue.int32 x => some x
  | _ => none

/-- Modelled from the spec: the struct `_refElem` is declared outside the
sources at hand; the reference map records the index allotted to a value. -/
structure _refElem where
  index : Int
deriving DecidableEq

/-- The Go struct `Encoder`; `refMap`, a Go map keyed by the address of a
value, is the list of its entries. -/
structure Encoder where
  classInfoList : List classInfo
  buffer : List Byte
  refMap : List (Nat × _refElem)
deriving DecidableEq

/-- The Go function `NewEncoder`. -/
def NewEncoder : Encoder :=
  { classInfoList := [], buffer := [], refMap := [] }

/-- The Go method `Encoder.Buffer`. -/
def Encoder.Buffer (e : Encoder) : List Byte := e.buffer

/-- The Go method `Encoder.Append`. -/
def Encoder.Append (e : Encoder) (buf : List Byte) : Encoder :=
  { e with buffer := e.buffer ++ buf }

/-- How a call of `Encode` ends: it returns an error value (`none` is Go's
`nil`) and leaves the encoder in some state, or it aborts with a run-time
panic. -/
inductive EncOutcome where
  | returned (err : Option Err) (e : Encoder)
  | panicked
deriving DecidableEq

/-- The encoders `Encode` calls and whose sources are not at hand
(`encDateInMs`, `encFloat`, `encString`, `encBinary`, `encUntypedMap`,
`encUntypedList`, `encMap`), the conversion `float64(float32)`, and
`encObject`, which calls `Encode` back; `Encode` is stated for every behaviour
of them. -/
structure Encoders where
  encDateInMs : List Byte → Int → List Byte
  encFloat : List Byte → Nat → List Byte
  float64OfFloat32 : Nat → Nat
  encString : List Byte → String → List Byte
  encBinary : List Byte → List Byte → List Byte
  encUntypedMap : Encoder → List (GoValue × GoValue) → EncOutcome
  encUntypedList : Encoder → GoValue → EncOutcome
  encMap : Encoder → GoValue → EncOutcome
  encObject : Encoder → GoValue → EncOutcome

/-- The Go method `Encoder.Encode`. The cases `int8` and `int16` assert
`v.(int32)`, as the source does. -/
def Encode (h : Encoders) (e : Encoder) (v : GoValue) : EncOutcome :=
  match v with
  | GoValue.nil => EncOutcome.returned none { e with buffer := encNull e.buffer }
  | GoValue.bool b => EncOutcome.returned none { e with buffer := encBool e.buffer b }
  | GoValue.int8 _ =>
    match v.assertInt32 with
    | some x => EncOutcome.returned none { e with buffer := encInt32 e.buffer x }
    | none => EncOutcome.panicked
  | GoValue.int16 _ =>
    match v.assertInt32 with
    | some x => EncOutcome.returned none { e with buffer := encInt32 e.buffer x }
    | none => EncOutcome.panicked
  | GoValue.int32 _ =>
    match v.assertInt32 with
    | some x => EncOutcome.returned none { e with buffer := encInt32 e.buffer x }
    | none => EncOutcome.panicked
  | GoValue.int x => EncOutcome.returned none { e with buffer := encInt64 e.buffer (int64 x) }
  | GoValue.int64 x => EncOutcome.returned none { e with buffer := encInt64 e.buffer x }
  | GoValue.time t => EncOutcome.returned none { e with buffer := h.encDateInMs e.buffer t }
  | GoValue.float32 x =>
    EncOutcome.returned none { e with buffer := h.encFloat e.buffer (h.float64OfFloat32 x) }
  | GoValue.float64 x => EncOutcome.returned none { e with buffer := h.encFloat e.buffer x }
  | GoValue.string x => EncOutcome.returned none { e with buffer := h.encString e.buffer x }
  | GoValue.bytes x => EncOutcome.returned none { e with buffer := h.encBinary e.buffer x }
  | GoValue.ifaceMap kvs => h.encUntypedMap e kvs
  | GoValue.other t =>
    match t.kind with
    | Kind.struct =>
      if t.isPOJO then h.encObject e v
      else EncOutcome.returned (some (Err.structNotSupported t.typeName)) e
    | Kind.slice => h.encUntypedList e v
    | Kind.array => h.encUntypedList e v
    | Kind.map => h.encMap e v
    | _ =>
      if t.isPOJOEnum then h.encObject e v
      else EncOutcome.returned (some (Err.typeNotSupported t.kind)) e

/-! ## Host types and the class registry (`object.go`) -/

/-- What `decInstance` asks of a field of a freshly allocated record through
`reflect`: its name (`typ.Field(i).Name`), whether it can be assigned
(`field.CanSet()`), the kind of its pointer-unpacked type
(`UnpackPtrType(field.Type()).Kind()`), whether that type implements the
enum interface (`fldTyp.Implements(javaEnumType)`), and of the unpacked value
`UnpackPtrValue(field)`: whether it is a valid value (a nil pointer unpacks to
the zero `reflect.Value`, on which every method panics), the name of its type
and whether it implements the enum interface. -/
structure StructField where
  Name : String
  CanSet : Bool
  kind : Kind
  typImplementsEnum : Bool
  rawValid : Bool
  rawTypeName : String
  rawImplementsEnum : Bool
deriving DecidableEq

/-- Go `reflect.Type` as the decoder uses it: `Kind()`, `String()`, the
fields of a struct type and `Implements(javaEnumType)`. -/
structure GoType where
  kind : Kind
  name : String
  fields : List StructField
  implementsEnum : Bool
deriving DecidableEq

/-- Modelled from the spec: the struct `structInfo` is declared outside the
sources at hand; a record descriptor of the registry holds the host type and a
prototype instance, of which `decEnum` calls `inst.(POJOEnum).EnumValue`
(`none` when the prototype does not implement `POJOEnum`). -/
structure structInfo where
  typ : GoType
  EnumValue : Option (String → Int)

/-- A codec that works on the reader alone: from the unread bytes, the byte to
unread and the tag flag to a result and the reader after the call. -/
abbrev ReaderCodec (α : Type) : Type :=
  List Byte → Option Byte → Int → Except Err α × List Byte × Option Byte

/-- What the decoding of objects calls and whose sources are not at hand;
`decObject`, `decInstance`, `decClassDef`, `decEnum`, `decType` and `findField`
are stated for every behaviour of them. The primitive codecs `decString` and
`decInt64` work on the reader alone; `getStructInfo` looks a class name up in
the process-wide registry; `ToLower` is Go `strings.ToLower`; `decMapByValue`
decodes a map into a field and `SetSlice`, `SetValue` convert a decoded value
for a field, each yielding the new content of the field (`SetValue` returns
nothing in Go: `none` is a panic); `toFloat32` is the rounding of
`reflect.Value.SetFloat` on a `float32` field. -/
structure DecEnv where
  ToLower : String → String
  getStructInfo : String → Option structInfo
  decString : ReaderCodec String
  decInt64 : ReaderCodec Int
  decMapByValue : Decoder → StructField → Except Err Value × Decoder
  SetSlice : StructField → Value → Except Err Value
  SetValue : StructField → Value → Option Value
  toFloat32 : Nat → Nat

/-- A codec of the reader run on a decoder. -/
def Decoder.onReader {α : Type} (d : Decoder) (f : ReaderCodec α) (flag : Int) :
    Except Err α × Decoder :=
  let r := f d.reader d.lastByte flag
  (r.1, { d with reader := r.2.1, lastByte := r.2.2 })

/-- Modelled from the spec: the method `Decoder.appendRefs` is not part of the
sources at hand; a composite value is appended to the reference table. -/
def Decoder.appendRefs (d : Decoder) (v : Value) : Decoder :=
  { d with refs := d.refs ++ [v] }

/-- The Go method `Decoder.appendClsDef`. -/
def Decoder.appendClsDef (d : Decoder) (cd : classInfo) : Decoder :=
  { d with classInfoList := d.classInfoList ++ [cd] }

/-- The loop of `findField` from field `i` on: the first field whose name, or
whose lowercased name, is the wire name. -/
def findFieldFrom (env : DecEnv) (name : String) : List StructField → Nat → Option Nat
  | [], _ => none
  | f :: fs, i =>
    if f.Name = name then some i
    else if env.ToLower f.Name = name then some i
    else findFieldFrom env name fs (i + 1)

/-- The Go function `findField`; `typ.NumField()` panics when `typ` is no
struct type. -/
def findField (env : DecEnv) (name : String) (typ : GoType) : Except Err Nat :=
  if typ.kind ≠ Kind.struct then Except.error (Err.panic "reflect: NumField of non-struct type")
  else
    match findFieldFrom env name typ.fields 0 with
    | some i => Except.ok i
    | none => Except.error (Err.failedToFindField name)

/-- The Go method `Decoder.getStructDefByIndex`. The name in the message of the
registry error is a variable that is never assigned. -/
def Decoder.getStructDefByIndex (env : DecEnv) (d : Decoder) (idx : Int) :
    Except Err (GoType × classInfo) :=
  if (d.classInfoList.length : Int) ≤ idx ∨ idx < 0 then Except.error (Err.illegalClassIndex idx)
  else
    match d.classInfoList.get? idx.toNat with
    | none => Except.error (Err.illegalClassIndex idx)
    | some cls =>
      match env.getStructInfo cls.javaName with
      | none => Except.error (Err.notInRegistry "")
      | some s => Except.ok (s.typ, cls)

/-- The loop of `decClassDef`: `n` more field names are read, each by
`decString(TAG_READ)`, and stored in wire order. -/
def decFieldNames (env : DecEnv) : Nat → List String → Decoder →
    Except Err (List String) × Decoder
  | 0, acc, d => (Except.ok acc, d)
  | n + 1, acc, d =>
    match d.onReader env.decString TAG_READ with
    | (Except.error e, d1) =>
      (Except.error (e.onReturn (Err.annotated "decClassDef->decString")), d1)
    | (Except.ok fieldName, d1) => decFieldNames env n (acc ++ [fieldName]) d1

/-- The Go method `Decoder.decClassDef`; `make([]string, fieldNum)` panics for
a negative `fieldNum`. The class definition it builds has no `buffer`. -/
def decClassDef (env : DecEnv) (d : Decoder) : Except Err classInfo × Decoder :=
  match d.onReader env.decString TAG_READ with
  | (Except.error e, d1) => (Except.error (e.onReturn Err.traced), d1)
  | (Except.ok clsName, d1) =>
    match decInt32 d1 TAG_READ with
    | (Except.error e, d2) => (Except.error (e.onReturn Err.traced), d2)
    | (Except.ok fieldNum, d2) =>
      if fieldNum < 0 then (Except.error (Err.panic "makeslice: len out of range"), d2)
      else
        match decFieldNames env fieldNum.toNat [] d2 with
        | (Except.error e, d3) => (Except.error e, d3)
        | (Except.ok fieldList, d3) =>
          (Except.ok { javaName := clsName, fieldNameList := fieldList, buffer := [] }, d3)

/-- The Go method `Decoder.decEnum`. -/
def decEnum (env : DecEnv) (d : Decoder) (javaName : String) (_flag : Int) :
    Except Err Value × Decoder :=
  match d.onReader env.decString TAG_READ with
  | (Except.error e, d1) =>
    (Except.error (e.onReturn (Err.annotated "decString for decJavaEnum")), d1)
  | (Except.ok enumName, d1) =>
    match env.getStructInfo javaName with
    | none => (Except.error (Err.other "getStructInfo(javaName) = false"), d1)
    | some info =>
      match info.EnumValue with
      | none => (Except.error (Err.panic "interface conversion: not a POJOEnum"), d1)
      | some enumValueOf =>
        let enumValue := Value.javaEnum (enumValueOf enumName)
        (Except.ok enumValue, d1.appendRefs enumValue)

/-- A field of the record at index `r` of the reference table is assigned:
the record is reached through a pointer, so the table entry shows the new
content. -/
def assignField (typ : GoType) (r : Nat) (index : Nat) (v : Value) (slots : List Value)
    (d : Decoder) : Except Err (List Value) × Decoder :=
  (Except.ok (slots.set index v),
    { d with refs := d.refs.set r (Value.record typ.name (slots.set index v)) })

/-- A method of `fldRawValue` that assigns (`SetString`, `SetInt`, ...): it
panics on the zero `reflect.Value`. -/
def setRaw (field : StructField) (typ : GoType) (r : Nat) (index : Nat) (v : Value)
    (slots : List Value) (d : Decoder) : Except Err (List Value) × Decoder :=
  if field.rawValid then assignField typ r index v slots d
  else (Except.error (Err.panic "reflect: call of a Set method on zero Value"), d)

/-- The Go assertion `enumValue, _ := s.(JavaEnum)`: the zero value when `s` is
no `JavaEnum`. -/
def asJavaEnum : Value → Int
  | Value.javaEnum x => x
  | _ => 0

/-- One round of the loop of `decInstance`: the field named `fieldName` on the
wire is looked up, decoded by the kind of the host field and assigned. `slots`
is the content of the record so far and `r` its index in the reference table.
In the case of a slice, `break` leaves the `switch`, so that the loop goes on
with the next field. -/
def decField (env : DecEnv) (c : Codecs) (typ : GoType) (r : Nat) (fieldName : String)
    (slots : List Value) (d : Decoder) : Except Err (List Value) × Decoder :=
  match findField env fieldName typ with
  | Except.error e => (Except.error (e.onReturn (fun _ => Err.canNotFindField fieldName)), d)
  | Except.ok index =>
    match typ.fields.get? index with
    | none => (Except.error (Err.panic "reflect: Field index out of range"), d)
    | some field =>
      if field.CanSet = false then (Except.error (Err.canSetFalse fieldName), d)
      else
        match field.kind with
        | Kind.string =>
          match d.onReader env.decString TAG_READ with
          | (Except.error e, d1) =>
            (Except.error (e.onReturn (Err.annotated "decInstance->ReadString")), d1)
          | (Except.ok str, d1) => setRaw field typ r index (Value.string str) slots d1
        | Kind.int32 | Kind.int16 =>
          match decInt32 d TAG_READ with
          | (Except.ok num, d1) =>
            setRaw field typ r index
              (Value.int32 (if field.kind = Kind.int16 then int16 num else num)) slots d1
          | (Except.error e, d1) =>
            -- java enum
            if field.rawValid = false then
              (Except.error (Err.panic "reflect: call of Type on zero Value"), d1)
            else if field.rawImplementsEnum then
              match Decode c d1.unreadByte with
              | (Except.error e2, d2) =>
                (Except.error (e2.onReturn (Err.annotated "decInstance->decObject")), d2)
              | (Except.ok s, d2) =>
                setRaw field typ r index
                  (Value.int32
                    (if field.kind = Kind.int16 then int16 (int32 (asJavaEnum s))
                     else int32 (asJavaEnum s)))
                  slots d2
            else (Except.error (e.onReturn (Err.annotated "decInstance->ParseInt")), d1)
        | Kind.int | Kind.int64 | Kind.uint64 =>
          match d.onReader env.decInt64 TAG_READ with
          | (Except.ok num, d1) =>
            if field.kind = Kind.uint64 then
              (Except.error (Err.panic "reflect: call of SetInt on uint64 Value"), d1)
            else setRaw field typ r index (Value.int64 num) slots d1
          | (Except.error e, d1) =>
            if e.isAbort then (Except.error e, d1)
            else if field.typImplementsEnum then
              match Decode c d1.unreadByte with
              | (Except.error e2, d2) =>
                (Except.error (e2.onReturn (Err.annotated "decInstance->decObject")), d2)
              | (Except.ok s, d2) =>
                if field.kind = Kind.uint64 then
                  (Except.error (Err.panic "reflect: call of SetInt on uint64 Value"), d2)
                else setRaw field typ r index (Value.int64 (int64 (asJavaEnum s))) slots d2
            else (Except.error (Err.annotated "decInstance->decInt64" e), d1)
        | Kind.bool =>
          match Decode c d with
          | (Except.error e, d1) =>
            (Except.error (e.onReturn (Err.annotated "decInstance->Decode")), d1)
          | (Except.ok (Value.bool b), d1) => setRaw field typ r index (Value.bool b) slots d1
          | (Except.ok _, d1) =>
            (Except.error (Err.panic "interface conversion: interface {} is not bool"), d1)
        | Kind.float32 | Kind.float64 =>
          match c.decDouble d TAG_READ with
          | (Except.error e, d1) =>
            (Except.error (e.onReturn (Err.annotated "decInstance->decDouble")), d1)
          | (Except.ok (Value.double x), d1) =>
            setRaw field typ r index
              (Value.double (if field.kind = Kind.float32 then env.toFloat32 x else x)) slots d1
          | (Except.ok _, d1) =>
            (Except.error (Err.panic "interface conversion: interface {} is not float64"), d1)
        | Kind.map =>
          -- decode map should use the original field value for correct value setting
          match env.decMapByValue d field with
          | (Except.error e, d1) =>
            (Except.error (e.onReturn (Err.annotated "decInstance->decMapByValue")), d1)
          | (Except.ok m, d1) => assignField typ r index m slots d1
        | Kind.slice | Kind.array =>
          match c.decList d TAG_READ with
          | (Except.error e, d1) =>
            if e = Err.eof then (Except.ok slots, d1)
            else (Except.error (e.onReturn Err.traced), d1)
          | (Except.ok m, d1) =>
            -- set slice separately
            match env.SetSlice field m with
            | Except.error e => (Except.error e, d1)
            | Except.ok v => assignField typ r index v slots d1
        | Kind.struct =>
          if field.rawValid = false then
            (Except.error (Err.panic "reflect: call of Type on zero Value"), d)
          else if field.rawTypeName = "time.Time" then
            match c.decDate d TAG_READ with
            | (Except.error e, d1) => (Except.error (e.onReturn Err.traced), d1)
            | (Except.ok (Value.date ms), d1) =>
              assignField typ r index (Value.date ms) slots d1
            | (Except.ok _, d1) =>
              (Except.error (Err.panic "reflect.Set: value is not assignable to time.Time"), d1)
          else
            match c.decObject d TAG_READ with
            | (Except.error e, d1) => (Except.error (e.onReturn Err.traced), d1)
            | (Except.ok Value.null, d1) => (Except.ok slots, d1)
            | (Except.ok s, d1) =>
              -- set value which accepting pointers
              match env.SetValue field s with
              | none => (Except.error (Err.panic "SetValue"), d1)
              | some v => assignField typ r index v slots d1
        | _ => (Except.error (Err.unknownMemberType field.kind), d)

/-- The loop of `decInstance` over the field names of the class definition. -/
def decFields (env : DecEnv) (c : Codecs) (typ : GoType) (r : Nat) :
    List String → List Value → Decoder → Except Err (List Value) × Decoder
  | [], slots, d => (Except.ok slots, d)
  | fieldName :: more, slots, d =>
    match decField env c typ r fieldName slots d with
    | (Except.error e, d1) => (Except.error e, d1)
    | (Except.ok slots1, d1) => decFields env c typ r more slots1 d1

/-- The Go method `Decoder.decInstance`: the record is allocated with every
field zero and enters the reference table, then the fields are decoded. -/
def decInstance (env : DecEnv) (c : Codecs) (typ : GoType) (cls : classInfo) (d : Decoder) :
    Except Err Value × Decoder :=
  if typ.kind ≠ Kind.struct then (Except.error (Err.wrongTypeExpectStruct typ.name), d)
  else
    let zero : List Value := typ.fields.map (fun _ => Value.null)
    -- add pointer ref so that ref the same object
    match decFields env c typ d.refs.length cls.fieldNameList zero
        (d.appendRefs (Value.record typ.name zero)) with
    | (Except.error e, d1) => (Except.error e, d1)
    | (Except.ok slots, d1) => (Except.ok (Value.record typ.name slots), d1)

/-- The Go method `Decoder.decObject`. -/
def decObject (env : DecEnv) (c : Codecs) (d : Decoder) (flag : Int) :
    Except Err Value × Decoder :=
  let (tag, d) : Byte × Decoder :=
    if flag ≠ TAG_READ then (byte flag, d)
    else let r := d.readByte; (r.1.1, r.2)
  if tag = BC_NULL then (Except.ok Value.null, d)
  else if tag = BC_REF then c.decRef d tag.val
  else if tag = BC_OBJECT_DEF then
    match decClassDef env d with
    | (Except.error e, d1) =>
      (Except.error (e.onReturn (Err.annotated "decObject->decClassDef byte double")), d1)
    | (Except.ok cls, d1) =>
      -- add to slice
      Decode c (d1.appendClsDef cls)
  else if tag = BC_OBJECT then
    match decInt32 d TAG_READ with
    | (Except.error e, d1) => (Except.error e, d1)
    | (Except.ok idx, d1) =>
      match d1.getStructDefByIndex env idx with
      | Except.error e => (Except.error e, d1)
      | Except.ok (typ, cls) =>
        if typ.implementsEnum then decEnum env d1 cls.javaName TAG_READ
        else decInstance env c typ cls d1
  else if BC_OBJECT_DIRECT ≤ tag ∧ tag ≤ BC_OBJECT_DIRECT + OBJECT_DIRECT_MAX then
    match d.getStructDefByIndex env ((tag - BC_OBJECT_DIRECT).val : Int) with
    | Except.error e => (Except.error e, d)
    | Except.ok (typ, cls) =>
      if typ.implementsEnum then decEnum env d cls.javaName TAG_READ
      else decInstance env c typ cls d
  else (Except.error (Err.illegalObjectTag tag), d)

/-- The Go method `Decoder.decType`. -/
def decType (env : DecEnv) (d : Decoder) : Except Err String × Decoder :=
  match d.readFull 1 with
  | ((_, some err), d1) => (Except.error (Err.traced err), d1)
  | ((buf, none), d1) =>
    let tag : Byte := buf.getD 0 0
    if (tag ≥ BC_STRING_DIRECT ∧ tag ≤ STRING_DIRECT_MAX) ∨ (tag ≥ 0x30 ∧ tag ≤ 0x33) ∨
        tag = BC_STRING ∨ tag = BC_STRING_CHUNK then
      d1.onReader env.decString tag.val
    else
      match decInt32 d1 TAG_READ with
      | (Except.error e, d2) => (Except.error (e.onReturn Err.traced), d2)
      | (Except.ok idx, d2) =>
        match d2.getStructDefByIndex env idx with
        | Except.ok (typ, _) => (Except.ok typ.name, d2)
        | Except.error e => (Except.error e, d2)

/-- The codecs of `Decode` that are not `decObject` and work on the whole
decoder (`decRef`, `decDate`, `decDouble`, `decBinary`, `decList`, `decMap`);
their sources are not at hand. -/
structure DecComposite where
  decRef : Decoder → Int → Except Err Value × Decoder
  decDate : Decoder → Int → Except Err Value × Decoder
  decDouble : Decoder → Int → Except Err Value × Decoder
  decBinary : Decoder → Int → Except Err Value × Decoder
  decList : Decoder → Int → Except Err Value × Decoder
  decMap : Decoder → Int → Except Err Value × Decoder

/-- The codecs of a run of the decoder that may nest objects `n` deep:
`decObject` calls `Decode` back with the codecs one level down, and below the
last level the run is out of fuel. -/
def codecsAt (env : DecEnv) (m : DecComposite) : Nat → Codecs
  | 0 =>
    { decRef := m.decRef, decDate := m.decDate, decDouble := m.decDouble
      decBinary := m.decBinary, decList := m.decList, decMap := m.decMap
      decInt64 := fun d flag =>
        ((d.onReader env.decInt64 flag).1.map Value.int64, (d.onReader env.decInt64 flag).2)
      decString := fun d flag =>
        ((d.onReader env.decString flag).1.map Value.string, (d.onReader env.decString flag).2)
      decObject := fun d _ => (Except.error Err.outOfFuel, d) }
  | n + 1 =>
    { decRef := m.decRef, decDate := m.decDate, decDouble := m.decDouble
      decBinary := m.decBinary, decList := m.decList, decMap := m.decMap
      decInt64 := fun d flag =>
        ((d.onReader env.decInt64 flag).1.map Value.int64, (d.onReader env.decInt64 flag).2)
      decString := fun d flag =>
        ((d.onReader env.decString flag).1.map Value.string, (d.onReader env.decString flag).2)
      decObject := decObject env (codecsAt env m n) }

/-! ## Encoding of objects (`object.go`) -/

/-- What `encObject` asks of the value and of the process-wide registry, and
the helpers it calls whose sources are not at hand; `encObject` is stated for
every behaviour of them. `checkRefMap` looks the value up in the reference map
and may record it there (`some n`: already written as reference `n`);
`isNilPointer` is `!UnpackPtr(vv).IsValid()`; `JavaClassName`, `typeof`,
`implementsEnum` (`reflect.TypeOf(v).Implements(javaEnumType)`) and
`enumString` (`v.(POJOEnum).String()`) describe the value;
`checkPOJORegistry`, `RegisterJavaEnum`, `RegisterPOJO` and
`getStructDefByIndex` are the registry, which is no part of the encoder;
`fields` are the fields of the unpacked value, each with the name of its type
and its value (`none` for a field that is not exported, of which
`Interface()` panics), or `none` when the value is no struct, of which
`NumField()` panics. -/
structure EncEnv where
  checkRefMap : List (Nat × _refElem) → GoValue → Option Int × List (Nat × _refElem)
  encRef : List Byte → Int → List Byte
  isNilPointer : GoValue → Bool
  JavaClassName : GoValue → String
  typeof : GoValue → String
  implementsEnum : GoValue → Bool
  enumString : GoValue → String
  checkPOJORegistry : String → Option Int
  RegisterJavaEnum : GoValue → Int
  RegisterPOJO : GoValue → Int
  getStructDefByIndex : Int → classInfo
  fields : GoValue → Option (List (String × Option GoValue))

/-- The search loop of `encObject`: the index, counted from `i`, of the first
class definition with the given Java class name. -/
def classIndexFrom (name : String) : List classInfo → Nat → Option Nat
  | [], _ => none
  | ci :: more, i => if name = ci.javaName then some i else classIndexFrom name more (i + 1)

/-- The block `write object instance` of `encObject`: the instance header for
the class-def index `idx`, a Go `int`. -/
def encObjectHeader (b : List Byte) (idx : Int) : List Byte :=
  if byte idx ≤ OBJECT_DIRECT_MAX then encByte b [byte idx + BC_OBJECT_DIRECT]
  else encInt32 (encByte b [BC_OBJECT]) (int32 idx)

/-- The field loop of `encObject`: every field is handed to `Encode`. -/
def encFields (h : Encoders) : List (String × Option GoValue) → Encoder → EncOutcome
  | [], e => EncOutcome.returned none e
  | (_, none) :: _, _ => EncOutcome.panicked
  | (_, some f) :: more, e =>
    match Encode h e f with
    | EncOutcome.returned none e1 => encFields h more e1
    | EncOutcome.returned (some err) e1 =>
      EncOutcome.returned (some (Err.annotated "failed to encode field" err)) e1
    | EncOutcome.panicked => EncOutcome.panicked

/-- The class definition `encObject` takes from the registry for a value whose
class is not in the table of the encoder yet: the host type is looked up,
registered first when it is absent, and its definition fetched by index. -/
def registryClsDef (env : EncEnv) (v : GoValue) : classInfo :=
  let idx : Int :=
    match env.checkPOJORegistry (env.typeof v) with
    | some i => i
    | none => if env.implementsEnum v then env.RegisterJavaEnum v else env.RegisterPOJO v
  env.getStructDefByIndex idx

/-- The end of `encObject`, after the instance header: the name of an enum
value, or else the fields one after the other. -/
def encObjectValues (env : EncEnv) (h : Encoders) (e : Encoder) (v : GoValue) : EncOutcome :=
  if env.implementsEnum v then
    EncOutcome.returned none { e with buffer := h.encString e.buffer (env.enumString v) }
  else
    match env.fields v with
    | none => EncOutcome.panicked
    | some fs => encFields h fs e

/-- The Go method `Encoder.encObject`. -/
def encObject (env : EncEnv) (h : Encoders) (e : Encoder) (v : GoValue) : EncOutcome :=
  -- check ref
  match env.checkRefMap e.refMap v with
  | (some n, refMap) =>
    EncOutcome.returned none { e with refMap := refMap, buffer := env.encRef e.buffer n }
  | (none, refMap) =>
    let e : Encoder := { e with refMap := refMap }
    -- check nil pointer
    if env.isNilPointer v then EncOutcome.returned none { e with buffer := encNull e.buffer }
    else
      -- write object definition
      let (idx, e) : Nat × Encoder :=
        match classIndexFrom (env.JavaClassName v) e.classInfoList 0 with
        | some i => (i, e)
        | none =>
          let clsDef := registryClsDef env v
          (e.classInfoList.length,
            { e with classInfoList := e.classInfoList ++ [clsDef],
                     buffer := e.buffer ++ clsDef.buffer })
      -- write object instance
      encObjectValues env h { e with buffer := encObjectHeader e.buffer idx } v

/-- The wording of a claim about class definitions: the input at the first
decoder holds the given strings one after the other, so that
`decString(TAG_READ)` reads them in this order and ends at the last decoder. -/
inductive ReadsStrings (env : DecEnv) : Decoder → List String → Decoder → Prop where
  | nil (d : Decoder) : ReadsStrings env d [] d
  | cons (d d1 d2 : Decoder) (s : String) (ss : List String) :
      d.onReader env.decString TAG_READ = (Except.ok s, d1) →
      ReadsStrings env d1 ss d2 → ReadsStrings env d (s :: ss) d2

/-- The assumption under which the reference table is followed through a codec
whose source is not at hand: the codec may append to the table, and the entries
the table holds when it is called stay as they are. -/
def KeepsRefs (f : Decoder → Int → Except Err Value × Decoder) : Prop :=
  ∀ (d : Decoder) (flag : Int), d.refs <+: (f d flag).2.refs

/-- Every codec `Decode` is stated over keeps the entries of the reference
table, see `KeepsRefs`. -/
structure Codecs.KeepRefs (c : Codecs) : Prop where
  decRef : KeepsRefs c.decRef
  decInt64 : KeepsRefs c.decInt64
  decDate : KeepsRefs c.decDate
  decDouble : KeepsRefs c.decDouble
  decString : KeepsRefs c.decString
  decBinary : KeepsRefs c.decBinary
  decList : KeepsRefs c.decList
  decMap : KeepsRefs c.decMap
  decObject : KeepsRefs c.decObject

/-- The reference table of `d` holds the entries `base` and right after them,
at index `base.length`, the record of type `typ` with the content `slots`. -/
def Building (base : List Value) (typ : GoType) (slots : List Value) (d : Decoder) : Prop :=
  (base ++ [Value.record typ.name slots]) <+: d.refs

/-- The outcome of a round of the loop of `decInstance` that began with the
content `slots`: the reference table holds the record with the content the
round returns, or with `slots` when the round fails. -/
def Built (base : List Value) (typ : GoType) (slots : List Value)
    (r : Except Err (List Value) × Decoder) : Prop :=
  match r with
  | (Except.ok slots1, d) => Building base typ slots1 d
  | (Except.error _, d) => Building base typ slots d

/-- The assumption under which the class-def table is followed through an
encoder whose source is not at hand: when the encoder returns, the table it
leaves starts with the table it was given, and holds no Java class name twice
when the table it was given held none twice. -/
def KeepsClasses {α : Type} (f : Encoder → α → EncOutcome) : Prop :=
  ∀ (e : Encoder) (x : α) (err : Option Err) (e1 : Encoder),
    f e x = EncOutcome.returned err e1 →
    e.classInfoList <+: e1.classInfoList ∧
      ((e.classInfoList.map (fun ci => ci.javaName)).Nodup →
        (e1.classInfoList.map (fun ci => ci.javaName)).Nodup)

/-- Every encoder `Encode` is stated over that works on the whole encoder keeps
the class-def table, see `KeepsClasses`. -/
structure Encoders.KeepClasses (h : Encoders) : Prop where
  encUntypedMap : KeepsClasses h.encUntypedMap
  encUntypedList : KeepsClasses h.encUntypedList
  encMap : KeepsClasses h.encMap
  encObject : KeepsClasses h.encObject

/-- Modelled from the spec: what a codec whose source is not at hand does to
the decoder. The data model of the spec says of the reference table and of the
class-definition stream table that appending is the only mutation during
decode; so such a codec yields its result, the reader it leaves, and the
entries it has appended to the two tables when it returns. -/
structure Appended where
  result : Except Err Value
  reader : List Byte
  lastByte : Option Byte
  refs : List Value
  classes : List classInfo

/-- The decoder after a codec that has appended the given entries. -/
def Decoder.appended (d : Decoder) (a : Appended) : Except Err Value × Decoder :=
  (a.result,
    { reader := a.reader, lastByte := a.lastByte, refs := d.refs ++ a.refs
      classInfoList := d.classInfoList ++ a.classes })

/-- Modelled from the spec: the codecs the decoding of objects calls, whose
sources are not at hand and which work on the whole decoder (`decRef`,
`decDate`, `decDouble`, `decBinary`, `decList`, `decMap` and
`decMapByValue`), each with any result and any reading of the input, and with
the two tables changed by appending only, see `Appended`. -/
structure DecAbsent where
  decRef : Decoder → Int → Appended
  decDate : Decoder → Int → Appended
  decDouble : Decoder → Int → Appended
  decBinary : Decoder → Int → Appended
  decList : Decoder → Int → Appended
  decMap : Decoder → Int → Appended
  decMapByValue : Decoder → StructField → Appended

/-- The codecs of `DecAbsent` as `codecsAt` takes them. -/
def DecAbsent.composite (a : DecAbsent) : DecComposite :=
  { decRef := fun d flag => d.appended (a.decRef d flag)
    decDate := fun d flag => d.appended (a.decDate d flag)
    decDouble := fun d flag => d.appended (a.decDouble d flag)
    decBinary := fun d flag => d.appended (a.decBinary d flag)
    decList := fun d flag => d.appended (a.decList d flag)
    decMap := fun d flag => d.appended (a.decMap d flag) }

/-- An environment of the object decoder with the `decMapByValue` of
`DecAbsent`. -/
def DecEnv.over (env : DecEnv) (a : DecAbsent) : DecEnv :=
  { env with decMapByValue := fun d field => d.appended (a.decMapByValue d field) }

/-- Modelled from the spec: a step of an encoder of a list or of a map, whose
source is not at hand. By the wire table a list or map frame is made of bytes
of its own (tag, type, length, `END`) and of its elements, keys and values,
each written as `Encode` writes it; the step `fail` ends the frame with an
error. -/
inductive EncStep where
  | write (bytes : List Byte)
  | child (v : GoValue)
  | fail (err : Err)

/-- Modelled from the spec: what an encoder of a list or of a map does to the
encoder: it looks the value up in the reference map, which may record it, and
writes its frame step by step. The class-definition stream table, of which the
spec says that appending is the only mutation and that a definition precedes
the object form, is reached through the sub-values handed to `Encode` only. -/
structure EncPlan where
  refMap : List (Nat × _refElem)
  steps : List EncStep

/-- The steps of a frame run one after the other; `enc` is `Encode`. An error
of a sub-value ends the frame. -/
def runSteps (enc : Encoder → GoValue → EncOutcome) : List EncStep → Encoder → EncOutcome
  | [], e => EncOutcome.returned none e
  | EncStep.write bytes :: more, e => runSteps enc more { e with buffer := e.buffer ++ bytes }
  | EncStep.fail err :: _, e => EncOutcome.returned (some err) e
  | EncStep.child v :: more, e =>
    match enc e v with
    | EncOutcome.returned none e1 => runSteps enc more e1
    | EncOutcome.returned (some err) e1 => EncOutcome.returned (some err) e1
    | EncOutcome.panicked => EncOutcome.panicked

/-- A frame run on an encoder, see `EncPlan`. -/
def runPlan (enc : Encoder → GoValue → EncOutcome) (p : EncPlan) (e : Encoder) : EncOutcome :=
  runSteps enc p.steps { e with refMap := p.refMap }

/-- Modelled from the spec: the encoders `Encode` calls and whose sources are
not at hand. Those of the scalars write bytes, as in `Encoders`; those of lists
and maps give, for the encoder and the value, the frame they write, see
`EncPlan`. -/
structure EncAbsent where
  encDateInMs : List Byte → Int → List Byte
  encFloat : List Byte → Nat → List Byte
  float64OfFloat32 : Nat → Nat
  encString : List Byte → String → List Byte
  encBinary : List Byte → List Byte → List Byte
  encUntypedMap : Encoder → List (GoValue × GoValue) → EncPlan
  encUntypedList : Encoder → GoValue → EncPlan
  encMap : Encoder → GoValue → EncPlan

/-- The encoders of a run of the encoder that may nest composite values `n`
deep: `encObject` and the frames of lists and maps call `Encode` back with the
encoders one level down, and below the last level the run is out of fuel. -/
def encodersAt (env : EncEnv) (a : EncAbsent) : Nat → Encoders
  | 0 =>
    { encDateInMs := a.encDateInMs, encFloat := a.encFloat
      float64OfFloat32 := a.float64OfFloat32, encString := a.encString
      encBinary := a.encBinary
      encUntypedMap := fun e kvs =>
        runPlan (fun e1 _ => EncOutcome.returned (some Err.outOfFuel) e1) (a.encUntypedMap e kvs) e
      encUntypedList := fun e v =>
        runPlan (fun e1 _ => EncOutcome.returned (some Err.outOfFuel) e1) (a.encUntypedList e v) e
      encMap := fun e v =>
        runPlan (fun e1 _ => EncOutcome.returned (some Err.outOfFuel) e1) (a.encMap e v) e
      encObject := fun e _ => EncOutcome.returned (some Err.outOfFuel) e }
  | n + 1 =>
    { encDateInMs := a.encDateInMs, encFloat := a.encFloat
      float64OfFloat32 := a.float64OfFloat32, encString := a.encString
      encBinary := a.encBinary
      encUntypedMap := fun e kvs =>
        runPlan (Encode (encodersAt env a n)) (a.encUntypedMap e kvs) e
      encUntypedList := fun e v =>
        runPlan (Encode (encodersAt env a n)) (a.encUntypedList e v) e
      encMap := fun e v => runPlan (Encode (encodersAt env a n)) (a.encMap e v) e
      encObject := encObject env (encodersAt env a n) }

/-! ## Concrete stand-ins for the codecs taken as parameters -/

/-- Codecs that reject every input: a concrete choice for the codecs `Decode`
is stated over, used where a decoder is run on a concrete input. -/
def Codecs.rejecting : Codecs :=
  { decRef := fun d _ => (Except.error (Err.other "decRef"), d)
    decInt64 := fun d _ => (Except.error (Err.other "decInt64"), d)
    decDate := fun d _ => (Except.error (Err.other "decDate"), d)
    decDouble := fun d _ => (Except.error (Err.other "decDouble"), d)
    decString := fun d _ => (Except.error (Err.other "decString"), d)
    decBinary := fun d _ => (Except.error (Err.other "decBinary"), d)
    decList := fun d _ => (Except.error (Err.other "decList"), d)
    decMap := fun d _ => (Except.error (Err.other "decMap"), d)
    decObject := fun d _ => (Except.error (Err.other "decObject"), d) }

/-- Encoders that write nothing and reject every composite value: a concrete
choice for the encoders `Encode` is stated over, used where an encoder is run
on a concrete value. -/
def Encoders.rejecting : Encoders :=
  { encDateInMs := fun b _ => b
    encFloat := fun b _ => b
    float64OfFloat32 := fun x => x
    encString := fun b _ => b
    encBinary := fun b _ => b
    encUntypedMap := fun e _ => EncOutcome.returned (some (Err.other "encUntypedMap")) e
    encUntypedList := fun e _ => EncOutcome.returned (some (Err.other "encUntypedList")) e
    encMap := fun e _ => EncOutcome.returned (some (Err.other "encMap")) e
    encObject := fun e _ => EncOutcome.returned (some (Err.other "encObject")) e }

/-- Go `strings.ToLower` on ASCII letters; every other character is left as it
is. A concrete choice for `DecEnv.ToLower`, right for names in ASCII. -/
def lowerAscii (s : String) : String := String.mk (s.data.map Char.toLower)

/-- A decoder of the direct string form of the wire table, `0x00-0x1f` being
the length, for strings of ASCII characters: a concrete choice for
`DecEnv.decString`. -/
def shortAscii : ReaderCodec String := fun reader last flag =>
  let start : Option (Byte × List Byte × Option Byte) :=
    if flag ≠ TAG_READ then some (byte flag, reader, last)
    else
      match reader with
      | [] => none
      | t :: rest => some (t, rest, some t)
  match start with
  | none => (Except.error Err.eof, reader, last)
  | some (tag, rest, last1) =>
    if tag.val ≤ 0x1f ∧ tag.val ≤ rest.length then
      (Except.ok (String.mk ((rest.take tag.val).map (fun b => Char.ofNat b.val))),
        rest.drop tag.val, (rest.take tag.val).getLast? <|> last1)
    else (Except.error (Err.wrongTag tag), rest, last1)

/-- An environment of the object decoder over a given registry: ASCII
lowercasing, short ASCII strings, and helpers that reject or store the value
as it is. A concrete choice, used where the decoder is run on a concrete
input. -/
def DecEnv.basic (registry : String → Option structInfo) : DecEnv :=
  { ToLower := lowerAscii
    getStructInfo := registry
    decString := shortAscii
    decInt64 := fun reader last _ => (Except.error (Err.other "decInt64"), reader, last)
    decMapByValue := fun d _ => (Except.error (Err.other "decMapByValue"), d)
    SetSlice := fun _ v => Except.ok v
    SetValue := fun _ v => some v
    toFloat32 := fun x => x }

/-- Composite codecs that reject every input, see `Codecs.rejecting`. -/
def DecComposite.rejecting : DecComposite :=
  { decRef := fun d _ => (Except.error (Err.other "decRef"), d)
    decDate := fun d _ => (Except.error (Err.other "decDate"), d)
    decDouble := fun d _ => (Except.error (Err.other "decDouble"), d)
    decBinary := fun d _ => (Except.error (Err.other "decBinary"), d)
    decList := fun d _ => (Except.error (Err.other "decList"), d)
    decMap := fun d _ => (Except.error (Err.other "decMap"), d) }

/-- A host record `main.User` with one field `Sex` of an enum type of kind
`int32`. -/
def userType : GoType :=
  { kind := Kind.struct, name := "main.User", implementsEnum := false
    fields := [{ Name := "Sex", CanSet := true, kind := Kind.int32, typImplementsEnum := true
                 rawValid := true, rawTypeName := "main.Gender", rawImplementsEnum := true }] }

/-- A host record `main.Flag` with one field `Ok` of type `bool`. -/
def flagType : GoType :=
  { kind := Kind.struct, name := "main.Flag", implementsEnum := false
    fields := [{ Name := "Ok", CanSet := true, kind := Kind.bool, typImplementsEnum := false
                 rawValid := true, rawTypeName := "bool", rawImplementsEnum := false }] }

/-- A host record `main.Person` with the fields `FirstName` and `Age`. -/
def personType : GoType :=
  { kind := Kind.struct, name := "main.Person", implementsEnum := false
    fields := [{ Name := "FirstName", CanSet := true, kind := Kind.string
                 typImplementsEnum := false, rawValid := true, rawTypeName := "string"
                 rawImplementsEnum := false },
               { Name := "Age", CanSet := true, kind := Kind.int32
                 typImplementsEnum := false, rawValid := true, rawTypeName := "int32"
                 rawImplementsEnum := false }] }

/-- A host record with the fields `AB` and `ab`, in this order. -/
def abType : GoType :=
  { kind := Kind.struct, name := "main.Pair", implementsEnum := false
    fields := [{ Name := "AB", CanSet := true, kind := Kind.int32
                 typImplementsEnum := false, rawValid := true, rawTypeName := "int32"
                 rawImplementsEnum := false },
               { Name := "ab", CanSet := false, kind := Kind.int32
                 typImplementsEnum := false, rawValid := true, rawTypeName := "int32"
                 rawImplementsEnum := false }] }

/-- A registry with the classes `example.User`, `example.Flag` and
`example.Person`. -/
def exampleRegistry (javaName : String) : Option structInfo :=
  if javaName = "example.User" then some { typ := userType, EnumValue := none }
  else if javaName = "example.Flag" then some { typ := flagType, EnumValue := none }
  else if javaName = "example.Person" then some { typ := personType, EnumValue := none }
  else none

/-- The direct string form of the wire table for a string of up to 31 ASCII
characters, the length and then the characters: a concrete choice for
`Encoders.encString`. -/
def encShortAscii (b : List Byte) (s : String) : List Byte :=
  b ++ byte s.data.length :: s.data.map (fun ch => byte ch.toNat)

/-- The encoders of `Encoders.rejecting` with short ASCII strings. -/
def Encoders.ascii : Encoders :=
  { Encoders.rejecting with encString := encShortAscii }

/-- The class definition of `example.Car` with the fields `color`, `model`, and
its bytes on the wire: `C`, the name, the field count and the field names. -/
def carDef : classInfo :=
  { javaName := "example.Car", fieldNameList := ["color", "model"]
    buffer := encShortAscii (encInt32 (encShortAscii [0x43] "example.Car") 2) "color" ++
      encShortAscii [] "model" }

/-- An environment of `encObject` in which every value is the record
`Car{color: "green", model: "civic"}`, of a class the registry holds at index
0, and no value has been written before. -/
def carEnv : EncEnv :=
  { checkRefMap := fun m _ => (none, m)
    encRef := fun b n => encInt32 (b ++ [BC_REF]) n
    isNilPointer := fun _ => false
    JavaClassName := fun _ => "example.Car"
    typeof := fun _ => "main.Car"
    implementsEnum := fun _ => false
    enumString := fun _ => ""
    checkPOJORegistry := fun _ => some 0
    RegisterJavaEnum := fun _ => 0
    RegisterPOJO := fun _ => 0
    getStructDefByIndex := fun _ => carDef
    fields := fun _ =>
      some [("string", some (GoValue.string "green")), ("string", some (GoValue.string "civic"))] }

/-- A value of the class `example.Car`. -/
def car : GoValue :=
  GoValue.other { kind := Kind.struct, typeName := "main.Car", isPOJO := true, isPOJOEnum := false }

/-- The class definition of `example.User` as a decoder holds it. -/
def userCls : classInfo :=
  { javaName := "example.User", fieldNameList := ["Sex"], buffer := [] }

/-- The class definition of `example.Flag` as a decoder holds it. -/
def flagCls : classInfo :=
  { javaName := "example.Flag", fieldNameList := ["Ok"], buffer := [] }

/-- The class definition of `example.Other`, a class without fields. -/
def otherDef : classInfo :=
  { javaName := "example.Other", fieldNameList := [], buffer := [] }

/-- A class-def table of 257 entries: 256 times the definition of
`example.Other` and then, at index 256, that of `example.Car`. -/
def crowdedTable : List classInfo := List.replicate 256 otherDef ++ [carDef]

/-- A host record `main.Team` with the fields `Members`, a slice, and `Size`,
an int32. -/
def teamType : GoType :=
  { kind := Kind.struct, name := "main.Team", implementsEnum := false
    fields := [{ Name := "Members", CanSet := true, kind := Kind.slice
                 typImplementsEnum := false, rawValid := true, rawTypeName := "[]string"
                 rawImplementsEnum := false },
               { Name := "Size", CanSet := true, kind := Kind.int32
                 typImplementsEnum := false, rawValid := true, rawTypeName := "int32"
                 rawImplementsEnum := false }] }

/-- The class definition of `example.Team` as a decoder holds it. -/
def teamCls : classInfo :=
  { javaName := "example.Team", fieldNameList := ["Members", "Size"], buffer := [] }

/-- What a codec that rejects its input appends: nothing. -/
def Appended.rejected (d : Decoder) (msg : String) : Appended :=
  { result := Except.error (Err.other msg), reader := d.reader, lastByte := d.lastByte
    refs := [], classes := [] }

/-- Codecs of `DecAbsent` that reject every input but the empty untyped list:
`decList` reads the tag `0x78`, the direct form of an untyped list of length 0,
and appends the empty list to the reference table. A concrete choice, used
where the decoder is run on a concrete input. -/
def DecAbsent.emptyLists : DecAbsent :=
  { decRef := fun d _ => Appended.rejected d "decRef"
    decDate := fun d _ => Appended.rejected d "decDate"
    decDouble := fun d _ => Appended.rejected d "decDouble"
    decBinary := fun d _ => Appended.rejected d "decBinary"
    decMap := fun d _ => Appended.rejected d "decMap"
    decMapByValue := fun d _ => Appended.rejected d "decMapByValue"
    decList := fun d flag =>
      match (if flag ≠ TAG_READ then ((byte flag, none), d) else d.readByte) with
      | ((tag, _), d1) =>
        if tag = 0x78 then
          { result := Except.ok (Value.list []), reader := d1.reader, lastByte := d1.lastByte
            refs := [Value.list []], classes := [] }
        else Appended.rejected d1 "decList" }

/-- A value of the class `example.Garage`, a record with two fields that hold
a `Car` each. -/
def garage : GoValue :=
  GoValue.other
    { kind := Kind.struct, typeName := "main.Garage", isPOJO := true, isPOJOEnum := false }

/-- The class definition of `example.Garage` with the fields `first`,
`second`, and its bytes on the wire. -/
def garageDef : classInfo :=
  { javaName := "example.Garage", fieldNameList := ["first", "second"]
    buffer := encShortAscii (encInt32 (encShortAscii [0x43] "example.Garage") 2) "first" ++
      encShortAscii [] "second" }

/-- Whether a value is of the host type `main.Garage`. -/
def isGarage : GoValue → Bool
  | GoValue.other r => r.typeName = "main.Garage"
  | _ => false

/-- An environment of `encObject` with the two classes `example.Car`, at index
0 of the registry, and `example.Garage`, at index 1: every value of the host
type `main.Garage` holds two `Car{color: "green", model: "civic"}`, every other
value is such a `Car`, and no value has been written before. -/
def garageEnv : EncEnv :=
  { carEnv with
    JavaClassName := fun v => if isGarage v then "example.Garage" else "example.Car"
    typeof := fun v => if isGarage v then "main.Garage" else "main.Car"
    checkPOJORegistry := fun name => if name = "main.Garage" then some 1 else some 0
    getStructDefByIndex := fun i => if i = 1 then garageDef else carDef
    fields := fun v =>
      if isGarage v then some [("main.Car", some car), ("main.Car", some car)]
      else
        some [("string", some (GoValue.string "green")),
          ("string", some (GoValue.string "civic"))] }

/-- The encoders of `Encoders.ascii` as `EncAbsent`: short ASCII strings, and
list and map frames that fail at once. -/
def EncAbsent.ascii : EncAbsent :=
  { encDateInMs := fun b _ => b
    encFloat := fun b _ => b
    float64OfFloat32 := fun x => x
    encString := encShortAscii
    encBinary := fun b _ => b
    encUntypedMap := fun e _ =>
      { refMap := e.refMap, steps := [EncStep.fail (Err.other "encUntypedMap")] }
    encUntypedList := fun e _ =>
      { refMap := e.refMap, steps := [EncStep.fail (Err.other "encUntypedList")] }
    encMap := fun e _ => { refMap := e.refMap, steps := [EncStep.fail (Err.other "encMap")] } }

/-! ## Auxiliary facts about bytes and the reader -/

theorem sar_eq_div (v : Int) (k : Nat) : sar v k = v / (2 ^ k : Nat) := by
  unfold sar; exact Int.shiftRight_eq_div_pow v k

theorem byte_val (x : Int) : ((byte x).val : Int) = x % 256 := by
  unfold byte; simp; omega

theorem byte_cast (t : Byte) : byte (t.val : Int) = t := by
  apply Fin.ext; unfold byte; simp; omega

theorem byte_le_iff (a b : Byte) : a ≤ b ↔ a.val ≤ b.val := Iff.rfl

set_option maxRecDepth 100000 in
theorem land80 : ∀ x : Byte, (x &&& 0x80 ≠ 0) ↔ 128 ≤ x.val := by decide

theorem flag_ne_TAG_READ (t : Byte) : ((t.val : Int) ≠ TAG_READ) := by
  unfold TAG_READ; omega

theorem decInt32_flag_direct (d : Decoder) (t : Byte) (h1 : 0x80 ≤ t.val) (h2 : t.val ≤ 0xbf) :
    decInt32 d (t.val : Int) = (Except.ok ((t.val : Int) - 0x90), d) := by
  unfold decInt32
  simp only [flag_ne_TAG_READ, byte_cast, ne_eq, not_false_eq_true, if_true]
  have c1 : (0x80 : Byte) ≤ t ∧ t ≤ (0xbf : Byte) := by
    constructor <;> (rw [byte_le_iff]; simpa using ‹_›)
  simp only [c1, and_self, if_true]
  congr 2
  unfold int32 int8 BC_INT_ZERO
  omega

theorem readFull_ok (d : Decoder) (n : Nat) (h : n ≤ d.reader.length) :
    d.readFull n = ((d.reader.take n, none),
      { d with reader := d.reader.drop n,
               lastByte := (d.reader.take n).getLast? <|> d.lastByte }) := by
  unfold Decoder.readFull; simp [h]

theorem readFull_short (d : Decoder) (n : Nat) (h : d.reader.length < n) :
    d.readFull n = ((d.reader, some (if d.reader.isEmpty then Err.eof else Err.unexpectedEOF)),
      { d with reader := [], lastByte := d.reader.getLast? <|> d.lastByte }) := by
  unfold Decoder.readFull
  have : ¬ n ≤ d.reader.length := by omega
  simp [this]

theorem val_byte_form (t b0 : Byte) (h1 : 0xc0 ≤ t.val) (h2 : t.val ≤ 0xcf) :
    int32 (int16 (beUint16 (t - BC_INT_BYTE_ZERO) b0)) = ((t.val : Int) - 0xc8) * 256 + b0.val := by
  unfold int32 int16 beUint16 BC_INT_BYTE_ZERO
  have := b0.isLt
  omega

theorem val_short_form (t b1 b0 : Byte) (h1 : 0xd0 ≤ t.val) (h2 : t.val ≤ 0xd7) :
    int32 (beUint32 (if (t - BC_INT_SHORT_ZERO) &&& 0x80 ≠ 0 then 0xff else 0)
      (t - BC_INT_SHORT_ZERO) b1 b0) =
    ((t.val : Int) - 0xd4) * 65536 + (b1.val : Int) * 256 + b0.val := by
  have hl := land80 (t - BC_INT_SHORT_ZERO)
  have := b0.isLt
  have := b1.isLt
  by_cases hc : 0xd4 ≤ t.val
  · have hn : ¬ ((t - BC_INT_SHORT_ZERO) &&& 0x80 ≠ 0) := by
      rw [hl]; unfold BC_INT_SHORT_ZERO; omega
    rw [if_neg hn]
    unfold int32 beUint32 BC_INT_SHORT_ZERO
    simp only [Fin.val_zero]
    omega
  · have hp : ((t - BC_INT_SHORT_ZERO) &&& 0x80 ≠ 0) := by
      rw [hl]; unfold BC_INT_SHORT_ZERO; omega
    rw [if_pos hp]
    unfold int32 beUint32 BC_INT_SHORT_ZERO
    have : ((0xff : Byte).val : Int) = 255 := rfl
    omega

theorem val_full_form (b3 b2 b1 b0 : Byte) :
    int32 (beUint32 b3 b2 b1 b0) =
      (if b3.val < 128 then (0 : Int) else -4294967296) +
        ((b3.val : Int) * 16777216 + (b2.val : Int) * 65536 + (b1.val : Int) * 256 + b0.val) := by
  unfold int32 beUint32
  have := b0.isLt
  have := b1.isLt
  have := b2.isLt
  have := b3.isLt
  split <;> omega

theorem decInt32_flag_byte (d : Decoder) (t b0 : Byte) (rest : List Byte)
    (h1 : 0xc0 ≤ t.val) (h2 : t.val ≤ 0xcf) :
    decInt32 { d with reader := b0 :: rest } (t.val : Int) =
      (Except.ok (((t.val : Int) - 0xc8) * 256 + b0.val),
        { d with reader := rest, lastByte := some b0 }) := by
  unfold decInt32
  simp only [flag_ne_TAG_READ, byte_cast, ne_eq, not_false_eq_true, if_true]
  have c1 : ¬ ((0x80 : Byte) ≤ t ∧ t ≤ (0xbf : Byte)) := by
    rw [byte_le_iff, byte_le_iff]; simp; omega
  have c2 : (0xc0 : Byte) ≤ t ∧ t ≤ (0xcf : Byte) := by
    constructor <;> (rw [byte_le_iff]; simpa using ‹_›)
  simp only [c1, c2, and_self, if_true, if_false]
  rw [readFull_ok _ 1 (by simp)]
  simp only [List.take_succ_cons, List.take_zero, List.drop_succ_cons, List.drop_zero,
    List.getD_cons_zero, val_byte_form t b0 h1 h2]
  rfl

theorem decInt32_flag_short (d : Decoder) (t b1 b0 : Byte) (rest : List Byte)
    (h1 : 0xd0 ≤ t.val) (h2 : t.val ≤ 0xd7) :
    decInt32 { d with reader := b1 :: b0 :: rest } (t.val : Int) =
      (Except.ok (((t.val : Int) - 0xd4) * 65536 + (b1.val : Int) * 256 + b0.val),
        { d with reader := rest, lastByte := some b0 }) := by
  unfold decInt32
  simp only [flag_ne_TAG_READ, byte_cast, ne_eq, not_false_eq_true, if_true]
  have c1 : ¬ ((0x80 : Byte) ≤ t ∧ t ≤ (0xbf : Byte)) := by
    rw [byte_le_iff, byte_le_iff]; simp; omega
  have c2 : ¬ ((0xc0 : Byte) ≤ t ∧ t ≤ (0xcf : Byte)) := by
    rw [byte_le_iff, byte_le_iff]; simp; omega
  have c3 : (0xd0 : Byte) ≤ t ∧ t ≤ (0xd7 : Byte) := by
    constructor <;> (rw [byte_le_iff]; simpa using ‹_›)
  simp only [c1, c2, c3, and_self, if_true, if_false]
  rw [readFull_ok _ 2 (by simp)]
  have hv := val_short_form t b1 b0 h1 h2
  simp only [ne_eq] at hv
  simp only [List.take_succ_cons, List.take_zero, List.drop_succ_cons, List.drop_zero,
    List.getD_cons_zero, List.getD_cons_succ, hv]
  rfl

theorem decInt32_flag_full (d : Decoder) (b3 b2 b1 b0 : Byte) (rest : List Byte) :
    decInt32 { d with reader := b3 :: b2 :: b1 :: b0 :: rest } (BC_INT.val : Int) =
      (Except.ok (int32 (beUint32 b3 b2 b1 b0)),
        { d with reader := rest, lastByte := some b0 }) := by
  unfold decInt32
  simp only [flag_ne_TAG_READ, byte_cast, ne_eq, not_false_eq_true, if_true]
  have c1 : ¬ ((0x80 : Byte) ≤ BC_INT ∧ BC_INT ≤ (0xbf : Byte)) := by decide
  have c2 : ¬ ((0xc0 : Byte) ≤ BC_INT ∧ BC_INT ≤ (0xcf : Byte)) := by decide
  have c3 : ¬ ((0xd0 : Byte) ≤ BC_INT ∧ BC_INT ≤ (0xd7 : Byte)) := by decide
  simp only [c1, c2, c3, if_true, if_false]
  rw [readFull_ok _ 4 (by simp)]
  simp only [List.take_succ_cons, List.take_zero, List.drop_succ_cons, List.drop_zero,
    List.getD_cons_zero, List.getD_cons_succ]
  rfl

theorem decInt32_read (d : Decoder) (t : Byte) (rest : List Byte) :
    decInt32 { d with reader := t :: rest } TAG_READ =
      decInt32 { d with reader := rest, lastByte := some t } (t.val : Int) := by
  unfold decInt32
  simp only [flag_ne_TAG_READ, byte_cast, ne_eq, not_false_eq_true, if_true, not_true_eq_false,
    if_false, Decoder.readByte]

/-! ## Auxiliary facts about `encInt32` -/

theorem encInt32_direct (b : List Byte) (v : Int) (h1 : -16 ≤ v) (h2 : v ≤ 47) :
    encInt32 b v = b ++ [byte (v + 0x90)] ∧ ((byte (v + 0x90)).val : Int) = v + 0x90 := by
  unfold encInt32 encByte INT_DIRECT_MIN INT_DIRECT_MAX BC_INT_ZERO
  have hi : int32 (v + 144) = v + 144 := by unfold int32; omega
  have hc : (((144 : Byte) : Nat) : Int) = 144 := rfl
  constructor
  · simp only [h1, h2, hc, hi, and_self, if_true]
  · rw [byte_val]; omega

theorem encInt32_byte (b : List Byte) (v : Int) (h0 : ¬ (-16 ≤ v ∧ v ≤ 47))
    (h1 : -2048 ≤ v) (h2 : v ≤ 2047) :
    encInt32 b v = b ++ [byte (0xc8 + v / 256), byte v] ∧
      ((byte (0xc8 + v / 256)).val : Int) = 0xc8 + v / 256 := by
  unfold encInt32 encByte INT_DIRECT_MIN INT_DIRECT_MAX INT_BYTE_MIN INT_BYTE_MAX BC_INT_BYTE_ZERO
  have hs : sar v 8 = v / 256 := by rw [sar_eq_div]; norm_num
  have hi : int32 (200 + v / 256) = 200 + v / 256 := by unfold int32; omega
  have hc : (((200 : Byte) : Nat) : Int) = 200 := rfl
  constructor
  · simp only [h0, h1, h2, hs, hc, hi, and_self, if_true, if_false]
  · rw [byte_val]; omega

theorem encInt32_short (b : List Byte) (v : Int) (h0 : ¬ (-2048 ≤ v ∧ v ≤ 2047))
    (h1 : -262144 ≤ v) (h2 : v ≤ 262143) :
    encInt32 b v = b ++ [byte (v / 65536 + 0xd4), byte (v / 256), byte v] ∧
      ((byte (v / 65536 + 0xd4)).val : Int) = v / 65536 + 0xd4 := by
  unfold encInt32 encByte INT_DIRECT_MIN INT_DIRECT_MAX INT_BYTE_MIN INT_BYTE_MAX
    INT_SHORT_MIN INT_SHORT_MAX BC_INT_SHORT_ZERO
  have hs : sar v 8 = v / 256 := by rw [sar_eq_div]; norm_num
  have hs2 : sar v 16 = v / 65536 := by rw [sar_eq_div]; norm_num
  have hi : int32 (v / 65536 + 212) = v / 65536 + 212 := by unfold int32; omega
  have hc : (((212 : Byte) : Nat) : Int) = 212 := rfl
  have h00 : ¬ (-16 ≤ v ∧ v ≤ 47) := by omega
  constructor
  · simp only [h0, h00, h1, h2, hs, hs2, hc, hi, and_self, if_true, if_false]
  · rw [byte_val]; omega

theorem encInt32_full (b : List Byte) (v : Int) (h0 : ¬ (-262144 ≤ v ∧ v ≤ 262143)) :
    encInt32 b v = b ++ [BC_INT, byte (v / 16777216), byte (v / 65536), byte (v / 256), byte v] := by
  unfold encInt32 encByte INT_DIRECT_MIN INT_DIRECT_MAX INT_BYTE_MIN INT_BYTE_MAX
    INT_SHORT_MIN INT_SHORT_MAX
  have hs : sar v 8 = v / 256 := by rw [sar_eq_div]; norm_num
  have hs2 : sar v 16 = v / 65536 := by rw [sar_eq_div]; norm_num
  have hs3 : sar v 24 = v / 16777216 := by rw [sar_eq_div]; norm_num
  have h00 : ¬ (-16 ≤ v ∧ v ≤ 47) := by omega
  have h01 : ¬ (-2048 ≤ v ∧ v ≤ 2047) := by omega
  simp only [h0, h00, h01, hs, hs2, hs3, if_false]

/-! ## Auxiliary facts about `Decode` -/

set_option maxRecDepth 100000 in
theorem dispatch_int32_iff :
    ∀ t : Byte, dispatch t = Branch.int32 ↔ ((0x80 ≤ t.val ∧ t.val ≤ 0xd7) ∨ t.val = 0x49) := by
  decide

theorem Decode_cons (c : Codecs) (d : Decoder) (t : Byte) (rest : List Byte) :
    Decode c { d with reader := t :: rest } =
      match dispatch t with
      | Branch.endOfStream =>
        (Except.error Err.eof, { d with reader := rest, lastByte := some t })
      | Branch.null =>
        (Except.ok Value.null, { d with reader := rest, lastByte := some t })
      | Branch.true =>
        (Except.ok (Value.bool Bool.true), { d with reader := rest, lastByte := some t })
      | Branch.false =>
        (Except.ok (Value.bool Bool.false), { d with reader := rest, lastByte := some t })
      | Branch.ref => c.decRef { d with reader := rest, lastByte := some t } t.val
      | Branch.int32 =>
        ((decInt32 { d with reader := rest, lastByte := some t } t.val).1.map Value.int32,
          (decInt32 { d with reader := rest, lastByte := some t } t.val).2)
      | Branch.int64 => c.decInt64 { d with reader := rest, lastByte := some t } t.val
      | Branch.date => c.decDate { d with reader := rest, lastByte := some t } t.val
      | Branch.double => c.decDouble { d with reader := rest, lastByte := some t } t.val
      | Branch.string => c.decString { d with reader := rest, lastByte := some t } t.val
      | Branch.binary => c.decBinary { d with reader := rest, lastByte := some t } t.val
      | Branch.list => c.decList { d with reader := rest, lastByte := some t } t.val
      | Branch.map => c.decMap { d with reader := rest, lastByte := some t } t.val
      | Branch.object => c.decObject { d with reader := rest, lastByte := some t } t.val
      | Branch.invalid =>
        (Except.error (Err.invalidType t), { d with reader := rest, lastByte := none }) := by
  unfold Decode
  simp only [Decoder.readByte, reduceCtorEq, if_false]

theorem Decode_int32 (c : Codecs) (d : Decoder) (t : Byte) (rest : List Byte) (v : Int)
    (d1 : Decoder) (ht : (0x80 ≤ t.val ∧ t.val ≤ 0xd7) ∨ t.val = 0x49)
    (hd : decInt32 { d with reader := rest, lastByte := some t } t.val = (Except.ok v, d1)) :
    Decode c { d with reader := t :: rest } = (Except.ok (Value.int32 v), d1) := by
  rw [Decode_cons, (dispatch_int32_iff t).mpr ht]
  simp only [hd, Except.map]

/-- Every int32 written by `encInt32` is read back by `decInt32` called with
the first byte as its tag, and the bytes after the encoding stay unread. -/
theorem decInt32_encInt32 (v : Int) (rest : List Byte) (hv : IsInt32 v) :
    ∃ (t : Byte) (p : List Byte), encInt32 [] v = t :: p ∧
      ((0x80 ≤ t.val ∧ t.val ≤ 0xd7) ∨ t.val = 0x49) ∧
      ∀ d : Decoder, decInt32 { d with reader := p ++ rest } t.val =
        (Except.ok v, { d with reader := rest, lastByte := p.getLast? <|> d.lastByte }) := by
  unfold IsInt32 at hv
  by_cases r1 : -16 ≤ v ∧ v ≤ 47
  · obtain ⟨he, hb⟩ := encInt32_direct [] v r1.1 r1.2
    refine ⟨byte (v + 0x90), [], by simpa using he, by omega, fun d => ?_⟩
    have := decInt32_flag_direct { d with reader := rest } (byte (v + 0x90)) (by omega) (by omega)
    simp only [List.nil_append]
    rw [this]
    refine Prod.ext ?_ rfl
    simp only [Except.ok.injEq]
    omega
  · by_cases r2 : -2048 ≤ v ∧ v ≤ 2047
    · obtain ⟨he, hb⟩ := encInt32_byte [] v r1 r2.1 r2.2
      refine ⟨byte (0xc8 + v / 256), [byte v], by simpa using he, by omega, fun d => ?_⟩
      have := decInt32_flag_byte d (byte (0xc8 + v / 256)) (byte v) rest (by omega) (by omega)
      simp only [List.cons_append, List.nil_append]
      rw [this]
      have hb0 := byte_val v
      refine Prod.ext ?_ rfl
      simp only [Except.ok.injEq]
      omega
    · by_cases r3 : -262144 ≤ v ∧ v ≤ 262143
      · obtain ⟨he, hb⟩ := encInt32_short [] v r2 r3.1 r3.2
        refine ⟨byte (v / 65536 + 0xd4), [byte (v / 256), byte v], by simpa using he, by omega, fun d => ?_⟩
        have := decInt32_flag_short d (byte (v / 65536 + 0xd4)) (byte (v / 256)) (byte v) rest
          (by omega) (by omega)
        simp only [List.cons_append, List.nil_append]
        rw [this]
        have hb0 := byte_val v
        have hb1 := byte_val (v / 256)
        refine Prod.ext ?_ rfl
        simp only [Except.ok.injEq]
        omega
      · have he := encInt32_full [] v r3
        refine ⟨BC_INT, [byte (v / 16777216), byte (v / 65536), byte (v / 256), byte v],
          by simpa using he, by decide, fun d => ?_⟩
        have := decInt32_flag_full d (byte (v / 16777216)) (byte (v / 65536)) (byte (v / 256))
          (byte v) rest
        simp only [List.cons_append, List.nil_append]
        rw [this]
        have hb0 := byte_val v
        have hb1 := byte_val (v / 256)
        have hb2 := byte_val (v / 65536)
        have hb3 := byte_val (v / 16777216)
        refine Prod.ext ?_ rfl
        simp only [Except.ok.injEq]
        unfold int32 beUint32
        omega

/-! ## A closed form of `decInt32` -/

theorem decInt32_flag (d : Decoder) (t : Byte) :
    decInt32 d (t.val : Int) =
      if 0x80 ≤ t.val ∧ t.val ≤ 0xbf then (Except.ok ((t.val : Int) - 0x90), d)
      else if 0xc0 ≤ t.val ∧ t.val ≤ 0xcf then
        if 1 ≤ d.reader.length then
          (Except.ok (((t.val : Int) - 0xc8) * 256 + (d.reader.getD 0 0).val),
            { d with reader := d.reader.drop 1,
                     lastByte := (d.reader.take 1).getLast? <|> d.lastByte })
        else
          (Except.error (Err.traced (if d.reader.isEmpty then Err.eof else Err.unexpectedEOF)),
            { d with reader := [], lastByte := d.reader.getLast? <|> d.lastByte })
      else if 0xd0 ≤ t.val ∧ t.val ≤ 0xd7 then
        if 2 ≤ d.reader.length then
          (Except.ok (((t.val : Int) - 0xd4) * 65536 + ((d.reader.getD 0 0).val : Int) * 256 +
              (d.reader.getD 1 0).val),
            { d with reader := d.reader.drop 2,
                     lastByte := (d.reader.take 2).getLast? <|> d.lastByte })
        else
          (Except.error (Err.traced (if d.reader.isEmpty then Err.eof else Err.unexpectedEOF)),
            { d with reader := [], lastByte := d.reader.getLast? <|> d.lastByte })
      else if t.val = 0x49 then
        if 4 ≤ d.reader.length then
          (Except.ok (int32 (beUint32 (d.reader.getD 0 0) (d.reader.getD 1 0) (d.reader.getD 2 0)
              (d.reader.getD 3 0))),
            { d with reader := d.reader.drop 4,
                     lastByte := (d.reader.take 4).getLast? <|> d.lastByte })
        else
          (Except.error (Err.traced (if d.reader.isEmpty then Err.eof else Err.unexpectedEOF)),
            { d with reader := [], lastByte := d.reader.getLast? <|> d.lastByte })
      else (Except.error (Err.wrongTag t), d) := by
  by_cases r1 : 0x80 ≤ t.val ∧ t.val ≤ 0xbf
  · rw [if_pos r1]; exact decInt32_flag_direct d t r1.1 r1.2
  rw [if_neg r1]
  have c1 : ¬ ((0x80 : Byte) ≤ t ∧ t ≤ (0xbf : Byte)) := by
    rw [byte_le_iff, byte_le_iff]; simpa using r1
  unfold decInt32
  simp only [flag_ne_TAG_READ, byte_cast, ne_eq, not_false_eq_true, if_true, c1, if_false]
  by_cases r2 : 0xc0 ≤ t.val ∧ t.val ≤ 0xcf
  · have c2 : (0xc0 : Byte) ≤ t ∧ t ≤ (0xcf : Byte) := by
      rw [byte_le_iff, byte_le_iff]; simpa using r2
    simp only [c2, r2, and_self, if_true]
    by_cases hl : 1 ≤ d.reader.length
    · rw [readFull_ok d 1 hl, if_pos hl]
      have hv := val_byte_form t ((List.take 1 d.reader).getD 0 0) r2.1 r2.2
      have hg : (List.take 1 d.reader).getD 0 0 = d.reader.getD 0 0 := by
        cases d.reader <;> simp
      rw [hg] at hv
      simp only [hg, hv]
    · rw [readFull_short d 1 (by omega), if_neg hl]
  have c2 : ¬ ((0xc0 : Byte) ≤ t ∧ t ≤ (0xcf : Byte)) := by
    rw [byte_le_iff, byte_le_iff]; simpa using r2
  simp only [c2, r2, if_false]
  by_cases r3 : 0xd0 ≤ t.val ∧ t.val ≤ 0xd7
  · have c3 : (0xd0 : Byte) ≤ t ∧ t ≤ (0xd7 : Byte) := by
      rw [byte_le_iff, byte_le_iff]; simpa using r3
    simp only [c3, r3, and_self, if_true]
    by_cases hl : 2 ≤ d.reader.length
    · rw [readFull_ok d 2 hl, if_pos hl]
      have hv := val_short_form t ((List.take 2 d.reader).getD 0 0)
        ((List.take 2 d.reader).getD 1 0) r3.1 r3.2
      have hg : (List.take 2 d.reader).getD 0 0 = d.reader.getD 0 0 ∧
          (List.take 2 d.reader).getD 1 0 = d.reader.getD 1 0 := by
        rcases hr : d.reader with _ | ⟨a, _ | ⟨b, l⟩⟩ <;> simp
      simp only [ne_eq, hg.1, hg.2] at hv
      simp only [hg.1, hg.2, hv]
    · rw [readFull_short d 2 (by omega), if_neg hl]
  have c3 : ¬ ((0xd0 : Byte) ≤ t ∧ t ≤ (0xd7 : Byte)) := by
    rw [byte_le_iff, byte_le_iff]; simpa using r3
  simp only [c3, r3, if_false]
  by_cases r4 : t.val = 0x49
  · have c4 : (t = BC_INT) = True := eq_true (Fin.ext r4)
    simp only [c4, r4, if_true]
    by_cases hl : 4 ≤ d.reader.length
    · rw [readFull_ok d 4 hl, if_pos hl]
      have hg : (List.take 4 d.reader).getD 0 0 = d.reader.getD 0 0 ∧
          (List.take 4 d.reader).getD 1 0 = d.reader.getD 1 0 ∧
          (List.take 4 d.reader).getD 2 0 = d.reader.getD 2 0 ∧
          (List.take 4 d.reader).getD 3 0 = d.reader.getD 3 0 := by
        rcases hr : d.reader with _ | ⟨a, _ | ⟨b, _ | ⟨c, _ | ⟨e, l⟩⟩⟩⟩ <;> simp
      simp only [hg.1, hg.2.1, hg.2.2.1, hg.2.2.2]
    · rw [readFull_short d 4 (by omega), if_neg hl]
  · have c4 : ¬ t = BC_INT := fun h => r4 (by rw [h]; rfl)
    simp only [c4, r4, if_false]

theorem decInt32_of_flag (d : Decoder) (flag : Int) (hf : flag ≠ TAG_READ) :
    decInt32 d flag = decInt32 d ((byte flag).val : Int) := by
  unfold decInt32
  simp only [flag_ne_TAG_READ, byte_cast, ne_eq, not_false_eq_true, if_true, hf]

theorem Decoder.eta (d : Decoder) (l : List Byte) (h : d.reader = l) :
    d = { d with reader := l } := by
  cases d; simp at h; subst h; rfl

theorem decInt32_read_nil (d : Decoder) (h : d.reader = []) :
    decInt32 d TAG_READ = (Except.error (Err.wrongTag 0), d) := by
  unfold decInt32
  simp only [ne_eq, not_true_eq_false, if_false, Decoder.readByte, h]
  rfl

theorem encInt32_length (v : Int) :
    (encInt32 [] v).length =
      if -16 ≤ v ∧ v ≤ 47 then 1
      else if -2048 ≤ v ∧ v ≤ 2047 then 2
      else if -262144 ≤ v ∧ v ≤ 262143 then 3
      else 5 := by
  by_cases r1 : -16 ≤ v ∧ v ≤ 47
  · rw [if_pos r1, (encInt32_direct [] v r1.1 r1.2).1]; rfl
  · by_cases r2 : -2048 ≤ v ∧ v ≤ 2047
    · rw [if_neg r1, if_pos r2, (encInt32_byte [] v r1 r2.1 r2.2).1]; rfl
    · by_cases r3 : -262144 ≤ v ∧ v ≤ 262143
      · rw [if_neg r1, if_neg r2, if_pos r3, (encInt32_short [] v r2 r3.1 r3.2).1]; rfl
      · rw [if_neg r1, if_neg r2, if_neg r3, encInt32_full [] v r3]; rfl

set_option maxRecDepth 100000 in
theorem dispatch_invalid_iff :
    ∀ t : Byte, dispatch t = Branch.invalid ↔
      (t.val = 0x40 ∨ t.val = 0x45 ∨ t.val = 0x47 ∨ t.val = 0x50) := by
  decide

/-! ## First bytes of the integer encodings -/

theorem encInt32_tag (b : List Byte) (v : Int) :
    ∃ (t : Byte) (p : List Byte), encInt32 b v = b ++ t :: p ∧
      ((0x80 ≤ t.val ∧ t.val ≤ 0xd7) ∨ t.val = 0x49) := by
  by_cases r1 : -16 ≤ v ∧ v ≤ 47
  · obtain ⟨he, hb⟩ := encInt32_direct b v r1.1 r1.2
    exact ⟨_, _, he, by omega⟩
  · by_cases r2 : -2048 ≤ v ∧ v ≤ 2047
    · obtain ⟨he, hb⟩ := encInt32_byte b v r1 r2.1 r2.2
      exact ⟨_, _, he, by omega⟩
    · by_cases r3 : -262144 ≤ v ∧ v ≤ 262143
      · obtain ⟨he, hb⟩ := encInt32_short b v r2 r3.1 r3.2
        exact ⟨_, _, he, by omega⟩
      · exact ⟨_, _, encInt32_full b v r3, by decide⟩

theorem encInt64_tag (b : List Byte) (v : Int) :
    ∃ (t : Byte) (p : List Byte), encInt64 b v = b ++ t :: p ∧
      ¬ ((0x80 ≤ t.val ∧ t.val ≤ 0xd7) ∨ t.val = 0x49) := by
  have hs2 : sar v 16 = v / 65536 := by rw [sar_eq_div]; norm_num
  have hs : sar v 8 = v / 256 := by rw [sar_eq_div]; norm_num
  have c1 : (((0xe0 : Byte) : Nat) : Int) = 224 := rfl
  have c2 : (((0xf8 : Byte) : Nat) : Int) = 248 := rfl
  have c3 : (((0x3c : Byte) : Nat) : Int) = 60 := rfl
  unfold encInt64 encByte LONG_DIRECT_MIN LONG_DIRECT_MAX LONG_BYTE_MIN LONG_BYTE_MAX
    LONG_SHORT_MIN LONG_SHORT_MAX BC_LONG_ZERO BC_LONG_BYTE_ZERO BC_LONG_SHORT_ZERO
  simp only [c1, c2, c3, hs, hs2]
  split
  · have := byte_val (v + 224)
    exact ⟨_, _, rfl, by omega⟩
  · split
    · have := byte_val (248 + v / 256)
      exact ⟨_, _, rfl, by omega⟩
    · split
      · have := byte_val (60 + v / 65536)
        exact ⟨_, _, rfl, by omega⟩
      · split
        · exact ⟨_, _, rfl, by decide⟩
        · exact ⟨_, _, rfl, by decide⟩

/-! ## The int32 codec -/

/-- C1: round trip of int32 through the public API. For every int32 `v` and
every byte sequence `rest`, `Encode(v)` on a fresh encoder returns no error and
leaves a buffer `B` such that `NewDecoder(B ++ rest).Decode()` returns `v` as
an int32 with no error and leaves exactly `rest` unread. -/
theorem int32_round_trip (h : Encoders) (c : Codecs) (v : Int) (rest : List Byte)
    (hv : IsInt32 v) :
    ∃ e : Encoder, Encode h NewEncoder (GoValue.int32 v) = EncOutcome.returned none e ∧
      (Decode c (NewDecoder (e.Buffer ++ rest))).1 = Except.ok (Value.int32 v) ∧
      (Decode c (NewDecoder (e.Buffer ++ rest))).2.reader = rest ∧
      (Decode c (NewDecoder (e.Buffer ++ rest))).2.refs = [] ∧
      (Decode c (NewDecoder (e.Buffer ++ rest))).2.classInfoList = [] := by
  refine ⟨{ NewEncoder with buffer := encInt32 [] v }, rfl, ?_⟩
  obtain ⟨t, p, he, ht, hd⟩ := decInt32_encInt32 v rest hv
  have := Decode_int32 c (NewDecoder rest) t (p ++ rest) v _ ht
    (hd { NewDecoder rest with lastByte := some t })
  have e : Decode c (NewDecoder (({ NewEncoder with buffer := encInt32 [] v } : Encoder).Buffer
      ++ rest)) = Decode c { NewDecoder rest with reader := t :: (p ++ rest) } := by
    simp [Encoder.Buffer, NewEncoder, NewDecoder, he]
  rw [e, this]
  exact ⟨rfl, rfl, rfl, rfl⟩

/-- Witness of C1 at `v = 300` followed by the unread byte `0x4e`. -/
theorem int32_round_trip_witness :
    IsInt32 300 ∧
    ∃ e : Encoder,
      Encode Encoders.rejecting NewEncoder (GoValue.int32 300) = EncOutcome.returned none e ∧
      (Decode Codecs.rejecting (NewDecoder (e.Buffer ++ [0x4e]))).1 =
        Except.ok (Value.int32 300) ∧
      (Decode Codecs.rejecting (NewDecoder (e.Buffer ++ [0x4e]))).2.reader = [0x4e] ∧
      (Decode Codecs.rejecting (NewDecoder (e.Buffer ++ [0x4e]))).2.refs = [] ∧
      (Decode Codecs.rejecting (NewDecoder (e.Buffer ++ [0x4e]))).2.classInfoList = [] :=
  ⟨by decide, int32_round_trip Encoders.rejecting Codecs.rejecting 300 [0x4e] (by decide)⟩

/-- C2: `encInt32(b, v)` is `b` followed by the wire form of the table: the
single byte `v + 0x90` for `-16 <= v <= 47`; otherwise the two bytes
`0xc8 + (v >> 8)`, `v & 0xff` for `-2048 <= v <= 2047`; otherwise the three
bytes `0xd4 + (v >> 16)`, `(v >> 8) & 0xff`, `v & 0xff` for
`-262144 <= v <= 262143`; otherwise `0x49` and the four big-endian bytes of
`v`. In particular `0` is written as `0x90` and `300` as `0xc9 0x2c`. The
numeric value of each byte is given as an integer, `v & 0xff` being `v % 256`. -/
theorem encInt32_wire_form (b : List Byte) (v : Int) :
    ∃ w : List Byte, encInt32 b v = b ++ w ∧
      (if -16 ≤ v ∧ v ≤ 47 then
        w.map (fun x => (x.val : Int)) = [v + 0x90]
      else if -2048 ≤ v ∧ v ≤ 2047 then
        w.map (fun x => (x.val : Int)) = [0xc8 + sar v 8, v % 256]
      else if -262144 ≤ v ∧ v ≤ 262143 then
        w.map (fun x => (x.val : Int)) = [0xd4 + sar v 16, sar v 8 % 256, v % 256]
      else
        w.map (fun x => (x.val : Int)) =
          [0x49, sar v 24 % 256, sar v 16 % 256, sar v 8 % 256, v % 256]) ∧
      encInt32 [] 0 = [0x90] ∧ encInt32 [] 300 = [0xc9, 0x2c] := by
  have hs : sar v 8 = v / 256 := by rw [sar_eq_div]; norm_num
  have hs2 : sar v 16 = v / 65536 := by rw [sar_eq_div]; norm_num
  have hs3 : sar v 24 = v / 16777216 := by rw [sar_eq_div]; norm_num
  by_cases r1 : -16 ≤ v ∧ v ≤ 47
  · obtain ⟨he, hb⟩ := encInt32_direct b v r1.1 r1.2
    refine ⟨_, he, ?_, by decide, by decide⟩
    simp only [r1, and_self, if_true, List.map_cons, List.map_nil, hb]
  · by_cases r2 : -2048 ≤ v ∧ v ≤ 2047
    · obtain ⟨he, hb⟩ := encInt32_byte b v r1 r2.1 r2.2
      refine ⟨_, he, ?_, by decide, by decide⟩
      simp only [r1, r2, and_self, if_true, if_false, List.map_cons, List.map_nil, hb, byte_val, hs]
    · by_cases r3 : -262144 ≤ v ∧ v ≤ 262143
      · obtain ⟨he, hb⟩ := encInt32_short b v r2 r3.1 r3.2
        refine ⟨_, he, ?_, by decide, by decide⟩
        have hb2 : ((byte (v / 65536 + 212)).val : Int) = 212 + v / 65536 := by omega
        simp only [r1, r2, r3, and_self, if_true, if_false, List.map_cons, List.map_nil, hb2,
          byte_val, hs, hs2]
      · have he := encInt32_full b v r3
        refine ⟨_, he, ?_, by decide, by decide⟩
        simp only [r1, r2, r3, if_false, List.map_cons, List.map_nil, byte_val, hs, hs2, hs3]
        rfl

/-- C4: decoder acceptance with sign extension. `decInt32` returns `t - 0x90`
for every tag `t` in `0x80..0xbf`; `(t - 0xc8) * 256 + b0` for every `t` in
`0xc0..0xcf` followed by `b0`; `(t - 0xd4) * 65536 + b1 * 256 + b0` for every
`t` in `0xd0..0xd7` followed by `b1 b0`, which is negative when `t < 0xd4`; and
the big-endian two's-complement value of the four bytes after `0x49`. Hence
every int32 is decoded from each wire form whose range covers it; in each case
only the form is consumed. -/
theorem decInt32_acceptance (d : Decoder) (rest : List Byte) :
    (∀ t : Byte, 0x80 ≤ t.val → t.val ≤ 0xbf →
      decInt32 { d with reader := t :: rest } TAG_READ =
        (Except.ok ((t.val : Int) - 0x90), { d with reader := rest, lastByte := some t })) ∧
    (∀ t b0 : Byte, 0xc0 ≤ t.val → t.val ≤ 0xcf →
      decInt32 { d with reader := t :: b0 :: rest } TAG_READ =
        (Except.ok (((t.val : Int) - 0xc8) * 256 + b0.val),
          { d with reader := rest, lastByte := some b0 })) ∧
    (∀ t b1 b0 : Byte, 0xd0 ≤ t.val → t.val ≤ 0xd7 →
      decInt32 { d with reader := t :: b1 :: b0 :: rest } TAG_READ =
        (Except.ok (((t.val : Int) - 0xd4) * 65536 + (b1.val : Int) * 256 + b0.val),
          { d with reader := rest, lastByte := some b0 }) ∧
      (t.val < 0xd4 → ((t.val : Int) - 0xd4) * 65536 + (b1.val : Int) * 256 + b0.val < 0)) ∧
    (∀ b3 b2 b1 b0 : Byte,
      decInt32 { d with reader := 0x49 :: b3 :: b2 :: b1 :: b0 :: rest } TAG_READ =
        (Except.ok ((if b3.val < 128 then (0 : Int) else -4294967296) +
            ((b3.val : Int) * 16777216 + (b2.val : Int) * 65536 + (b1.val : Int) * 256 + b0.val)),
          { d with reader := rest, lastByte := some b0 })) ∧
    (∀ v : Int, IsInt32 v →
      decInt32
          { d with
            reader := (0x49 :: byte (sar v 24) :: byte (sar v 16) :: byte (sar v 8) :: byte v ::
              rest) }
          TAG_READ = (Except.ok v, { d with reader := rest, lastByte := some (byte v) }) ∧
      (-262144 ≤ v ∧ v ≤ 262143 →
        decInt32 { d with reader := byte (0xd4 + sar v 16) :: byte (sar v 8) :: byte v :: rest }
          TAG_READ = (Except.ok v, { d with reader := rest, lastByte := some (byte v) })) ∧
      (-2048 ≤ v ∧ v ≤ 2047 →
        decInt32 { d with reader := byte (0xc8 + sar v 8) :: byte v :: rest } TAG_READ =
          (Except.ok v, { d with reader := rest, lastByte := some (byte v) })) ∧
      (-16 ≤ v ∧ v ≤ 47 →
        decInt32 { d with reader := byte (0x90 + v) :: rest } TAG_READ =
          (Except.ok v, { d with reader := rest, lastByte := some (byte (0x90 + v)) }))) := by
  refine ⟨?_, ?_, ?_, ?_, ?_⟩
  · intro t h1 h2
    rw [decInt32_read]
    exact decInt32_flag_direct _ t h1 h2
  · intro t b0 h1 h2
    rw [decInt32_read]
    exact decInt32_flag_byte { d with lastByte := some t } t b0 rest h1 h2
  · intro t b1 b0 h1 h2
    rw [decInt32_read]
    refine ⟨decInt32_flag_short { d with lastByte := some t } t b1 b0 rest h1 h2, ?_⟩
    intro h3
    have := b0.isLt
    have := b1.isLt
    omega
  · intro b3 b2 b1 b0
    rw [decInt32_read]
    have := decInt32_flag_full { d with lastByte := some 0x49 } b3 b2 b1 b0 rest
    rw [val_full_form] at this
    exact this
  · intro v hv
    unfold IsInt32 at hv
    have hs : sar v 8 = v / 256 := by rw [sar_eq_div]; norm_num
    have hs2 : sar v 16 = v / 65536 := by rw [sar_eq_div]; norm_num
    have hs3 : sar v 24 = v / 16777216 := by rw [sar_eq_div]; norm_num
    have hb0 := byte_val v
    have hb1 := byte_val (v / 256)
    have hb2 := byte_val (v / 65536)
    have hb3 := byte_val (v / 16777216)
    rw [hs, hs2, hs3]
    refine ⟨?_, ?_, ?_, ?_⟩
    · rw [decInt32_read]
      have := decInt32_flag_full { d with lastByte := some 0x49 } (byte (v / 16777216))
        (byte (v / 65536)) (byte (v / 256)) (byte v) rest
      refine this.trans ?_
      refine Prod.ext ?_ rfl
      simp only [Except.ok.injEq]
      unfold int32 beUint32
      omega
    · intro hr
      have hb := byte_val (0xd4 + v / 65536)
      rw [decInt32_read]
      refine (decInt32_flag_short { d with lastByte := some (byte (0xd4 + v / 65536)) }
        (byte (0xd4 + v / 65536)) (byte (v / 256)) (byte v) rest (by omega) (by omega)).trans ?_
      refine Prod.ext ?_ rfl
      simp only [Except.ok.injEq]
      omega
    · intro hr
      have hb := byte_val (0xc8 + v / 256)
      rw [decInt32_read]
      refine (decInt32_flag_byte { d with lastByte := some (byte (0xc8 + v / 256)) }
        (byte (0xc8 + v / 256)) (byte v) rest (by omega) (by omega)).trans ?_
      refine Prod.ext ?_ rfl
      simp only [Except.ok.injEq]
      omega
    · intro hr
      have hb := byte_val (0x90 + v)
      rw [decInt32_read, decInt32_flag_direct _ (byte (0x90 + v)) (by omega) (by omega)]
      refine Prod.ext ?_ rfl
      simp only [Except.ok.injEq]
      omega

/-- Instance of C4: the value `-3` is decoded from its one-byte, two-byte,
three-byte and five-byte forms, and the smallest three-byte value `-262144`
from `0xd0 0x00 0x00`. -/
theorem decInt32_acceptance_witness :
    decInt32 (NewDecoder [0x8d, 0x4e]) TAG_READ =
      (Except.ok (-3), { NewDecoder [0x4e] with lastByte := some 0x8d }) ∧
    decInt32 (NewDecoder [0xc7, 0xfd, 0x4e]) TAG_READ =
      (Except.ok (-3), { NewDecoder [0x4e] with lastByte := some 0xfd }) ∧
    decInt32 (NewDecoder [0xd3, 0xff, 0xfd, 0x4e]) TAG_READ =
      (Except.ok (-3), { NewDecoder [0x4e] with lastByte := some 0xfd }) ∧
    decInt32 (NewDecoder [0x49, 0xff, 0xff, 0xff, 0xfd, 0x4e]) TAG_READ =
      (Except.ok (-3), { NewDecoder [0x4e] with lastByte := some 0xfd }) ∧
    decInt32 (NewDecoder [0xd0, 0x00, 0x00, 0x4e]) TAG_READ =
      (Except.ok (-262144), { NewDecoder [0x4e] with lastByte := some 0x00 }) := by
  have h := decInt32_acceptance (NewDecoder []) [0x4e]
  refine ⟨?_, ?_, ?_, ?_, ?_⟩
  · exact h.1 0x8d (by decide) (by decide)
  · exact h.2.1 0xc7 0xfd (by decide) (by decide)
  · exact (h.2.2.1 0xd3 0xff 0xfd (by decide) (by decide)).1
  · exact h.2.2.2.1 0xff 0xff 0xff 0xfd
  · exact (h.2.2.1 0xd0 0x00 0x00 (by decide) (by decide)).1

/-- C3: minimal encoding of int32. The encoder emits 1 byte exactly for
`-16..47`, 2 bytes for the rest of `-2048..2047`, 3 bytes for the rest of
`-262144..262143` and 5 bytes otherwise; and every byte sequence that
`decInt32(TAG_READ)` decodes to `v` without error while consuming all of it is
at least as long as `encInt32([], v)`. -/
theorem encInt32_minimal (v : Int) :
    ((encInt32 [] v).length =
      if -16 ≤ v ∧ v ≤ 47 then 1
      else if -2048 ≤ v ∧ v ≤ 2047 then 2
      else if -262144 ≤ v ∧ v ≤ 262143 then 3
      else 5) ∧
    ∀ d d1 : Decoder, decInt32 d TAG_READ = (Except.ok v, d1) → d1.reader = [] →
      (encInt32 [] v).length ≤ d.reader.length := by
  refine ⟨encInt32_length v, ?_⟩
  intro d d1 hdec hnil
  rw [encInt32_length]
  rcases hr : d.reader with _ | ⟨t, rest⟩
  · rw [decInt32_read_nil d hr] at hdec
    simp at hdec
  · rw [Decoder.eta d _ hr, decInt32_read, decInt32_flag] at hdec
    simp only [List.length_cons]
    have := (rest.getD 0 0).isLt
    have := (rest.getD 1 0).isLt
    split at hdec
    · simp only [Prod.mk.injEq, Except.ok.injEq] at hdec
      split <;> omega
    · split at hdec
      · split at hdec
        · simp only [Prod.mk.injEq, Except.ok.injEq] at hdec
          rename_i h1 h2 h3
          simp only at h3
          split
          · omega
          · split
            · omega
            · omega
        · simp at hdec
      · split at hdec
        · split at hdec
          · simp only [Prod.mk.injEq, Except.ok.injEq] at hdec
            rename_i h1 h2 h3 h4
            simp only at h4
            split
            · omega
            · split
              · omega
              · split <;> omega
          · simp at hdec
        · split at hdec
          · split at hdec
            · rename_i h1 h2 h3 h4 h5
              simp only at h5
              split
              · omega
              · split
                · omega
                · split <;> omega
            · simp at hdec
          · simp at hdec

/-- Instance of C3: the three-byte form `0xd4 0x01 0x2c` decodes to 300 and is
consumed whole, and `encInt32` writes 300 in two bytes. -/
theorem encInt32_minimal_witness :
    decInt32 (NewDecoder [0xd4, 0x01, 0x2c]) TAG_READ =
      (Except.ok 300, { NewDecoder [] with lastByte := some 0x2c }) ∧
    (encInt32 [] 300).length ≤ (NewDecoder [0xd4, 0x01, 0x2c]).reader.length := by
  have h : decInt32 (NewDecoder [0xd4, 0x01, 0x2c]) TAG_READ =
      (Except.ok 300, { NewDecoder [] with lastByte := some 0x2c }) :=
    (decInt32_read (NewDecoder []) 0xd4 [0x01, 0x2c]).trans
      (decInt32_flag_short { NewDecoder [] with lastByte := some 0xd4 } 0xd4 0x01 0x2c []
        (by decide) (by decide))
  exact ⟨h, (encInt32_minimal 300).2 _ _ h rfl⟩

/-- C5: `decInt32` fails exactly on a bad tag or a short payload. The tag is
the low byte of `flag`, or the byte read from the input when `flag` is
`TAG_READ` (the zero byte at the end of the input), and the payload is the
input after the tag. `decInt32` returns an error if and only if the tag is
outside `0x80..0xd7` and is not `0x49`, or fewer payload bytes remain than the
form of the tag requires (1 for `0xc0..0xcf`, 2 for `0xd0..0xd7`, 4 for
`0x49`); in every other case it returns a value and no error. -/
theorem decInt32_error_iff (d : Decoder) (flag : Int) :
    ((∃ e, (decInt32 d flag).1 = Except.error e) ↔
      ((¬ (0x80 ≤ (if flag ≠ TAG_READ then byte flag else d.reader.headD 0).val ∧
            (if flag ≠ TAG_READ then byte flag else d.reader.headD 0).val ≤ 0xd7) ∧
          (if flag ≠ TAG_READ then byte flag else d.reader.headD 0).val ≠ 0x49) ∨
        (0xc0 ≤ (if flag ≠ TAG_READ then byte flag else d.reader.headD 0).val ∧
          (if flag ≠ TAG_READ then byte flag else d.reader.headD 0).val ≤ 0xcf ∧
          (if flag ≠ TAG_READ then d.reader else d.reader.tail).length < 1) ∨
        (0xd0 ≤ (if flag ≠ TAG_READ then byte flag else d.reader.headD 0).val ∧
          (if flag ≠ TAG_READ then byte flag else d.reader.headD 0).val ≤ 0xd7 ∧
          (if flag ≠ TAG_READ then d.reader else d.reader.tail).length < 2) ∨
        ((if flag ≠ TAG_READ then byte flag else d.reader.headD 0).val = 0x49 ∧
          (if flag ≠ TAG_READ then d.reader else d.reader.tail).length < 4))) ∧
    ((∃ e, (decInt32 d flag).1 = Except.error e) ∨ (∃ v, (decInt32 d flag).1 = Except.ok v)) ∧
    ¬ ((∃ e, (decInt32 d flag).1 = Except.error e) ∧ (∃ v, (decInt32 d flag).1 = Except.ok v)) := by
  have key : ∀ (d : Decoder) (t : Byte),
      (∃ e, (decInt32 d (t.val : Int)).1 = Except.error e) ↔
        ((¬ (0x80 ≤ t.val ∧ t.val ≤ 0xd7) ∧ t.val ≠ 0x49) ∨
          (0xc0 ≤ t.val ∧ t.val ≤ 0xcf ∧ d.reader.length < 1) ∨
          (0xd0 ≤ t.val ∧ t.val ≤ 0xd7 ∧ d.reader.length < 2) ∨
          (t.val = 0x49 ∧ d.reader.length < 4)) := by
    intro d t
    rw [decInt32_flag]
    split
    · simp only [reduceCtorEq, exists_false, false_iff]; omega
    · split
      · split
        · simp only [reduceCtorEq, exists_false, false_iff]; omega
        · simp only [Except.error.injEq, exists_eq', true_iff]; omega
      · split
        · split
          · simp only [reduceCtorEq, exists_false, false_iff]; omega
          · simp only [Except.error.injEq, exists_eq', true_iff]; omega
        · split
          · split
            · simp only [reduceCtorEq, exists_false, false_iff]; omega
            · simp only [Except.error.injEq, exists_eq', true_iff]; omega
          · simp only [Except.error.injEq, exists_eq', true_iff]; omega
  refine ⟨?_, ?_, ?_⟩
  · by_cases hf : flag ≠ TAG_READ
    · simp only [ne_eq, hf, not_false_eq_true, if_true]
      rw [decInt32_of_flag d flag hf]
      exact key d (byte flag)
    · have hf2 : flag = TAG_READ := by simpa using hf
      subst hf2
      simp only [ne_eq, not_true_eq_false, if_false]
      rcases hr : d.reader with _ | ⟨t, rest⟩
      · rw [decInt32_read_nil d hr]
        simp
      · rw [Decoder.eta d _ hr, decInt32_read]
        simpa using key { d with reader := rest, lastByte := some t } t
  · cases h : (decInt32 d flag).1 with
    | error e => exact Or.inl ⟨e, rfl⟩
    | ok v => exact Or.inr ⟨v, rfl⟩
  · rintro ⟨⟨e, he⟩, ⟨v, hv⟩⟩
    rw [he] at hv
    simp at hv

/-! ## Top-level dispatch of `Decode` -/

/-- C6: `Decode` rejects exactly the tags the wire table does not define. For
every non-empty input with first byte `t`, `Decode` takes the invalid-type
branch if and only if `t` is one of `0x40`, `0x45`, `0x47`, `0x50`, and then it
returns the invalid-type error having consumed the tag only; for every other
first byte it returns what a case of the dispatch table returns: end of
stream, null, true, false, or the result of the codec the tag is handed to. -/
theorem Decode_invalid_iff (c : Codecs) (d : Decoder) (t : Byte) (rest : List Byte) :
    (dispatch t = Branch.invalid ↔
      (t.val = 0x40 ∨ t.val = 0x45 ∨ t.val = 0x47 ∨ t.val = 0x50)) ∧
    (dispatch t = Branch.invalid →
      Decode c { d with reader := t :: rest } =
        (Except.error (Err.invalidType t), { d with reader := rest, lastByte := none })) ∧
    (dispatch t ≠ Branch.invalid →
      Decode c { d with reader := t :: rest } =
        (Except.error Err.eof, { d with reader := rest, lastByte := some t }) ∨
      Decode c { d with reader := t :: rest } =
        (Except.ok Value.null, { d with reader := rest, lastByte := some t }) ∨
      Decode c { d with reader := t :: rest } =
        (Except.ok (Value.bool Bool.true), { d with reader := rest, lastByte := some t }) ∨
      Decode c { d with reader := t :: rest } =
        (Except.ok (Value.bool Bool.false), { d with reader := rest, lastByte := some t }) ∨
      Decode c { d with reader := t :: rest } =
        c.decRef { d with reader := rest, lastByte := some t } t.val ∨
      Decode c { d with reader := t :: rest } =
        ((decInt32 { d with reader := rest, lastByte := some t } t.val).1.map Value.int32,
          (decInt32 { d with reader := rest, lastByte := some t } t.val).2) ∨
      Decode c { d with reader := t :: rest } =
        c.decInt64 { d with reader := rest, lastByte := some t } t.val ∨
      Decode c { d with reader := t :: rest } =
        c.decDate { d with reader := rest, lastByte := some t } t.val ∨
      Decode c { d with reader := t :: rest } =
        c.decDouble { d with reader := rest, lastByte := some t } t.val ∨
      Decode c { d with reader := t :: rest } =
        c.decString { d with reader := rest, lastByte := some t } t.val ∨
      Decode c { d with reader := t :: rest } =
        c.decBinary { d with reader := rest, lastByte := some t } t.val ∨
      Decode c { d with reader := t :: rest } =
        c.decList { d with reader := rest, lastByte := some t } t.val ∨
      Decode c { d with reader := t :: rest } =
        c.decMap { d with reader := rest, lastByte := some t } t.val ∨
      Decode c { d with reader := t :: rest } =
        c.decObject { d with reader := rest, lastByte := some t } t.val) := by
  refine ⟨dispatch_invalid_iff t, ?_, ?_⟩
  · intro h
    rw [Decode_cons, h]
  · intro h
    rw [Decode_cons]
    cases hb : dispatch t <;> simp [hb] at h ⊢

/-- Instance of C6: the tag `0x50` is rejected, and the tag `0x51` is handed to
the reference codec. -/
theorem Decode_invalid_iff_witness :
    Decode Codecs.rejecting (NewDecoder [0x50, 0x90]) =
      (Except.error (Err.invalidType 0x50), NewDecoder [0x90]) ∧
    dispatch 0x51 = Branch.ref :=
  ⟨(Decode_invalid_iff Codecs.rejecting (NewDecoder []) 0x50 [0x90]).2.1 (by decide),
    by decide⟩

/-- C7: payload-free tags. For every input whose first byte is `N` (`0x4e`),
`T` (`0x54`) or `F` (`0x46`), `Decode` returns null, true or false with no
error, and for first byte `Z` (`0x5a`) it returns no value and the
end-of-stream error; in each case exactly one byte is consumed and the
reference table and the class-def table are unchanged. -/
theorem Decode_payload_free (c : Codecs) (d : Decoder) (rest : List Byte) :
    (Decode c { d with reader := 0x4e :: rest }).1 = Except.ok Value.null ∧
    (Decode c { d with reader := 0x54 :: rest }).1 = Except.ok (Value.bool Bool.true) ∧
    (Decode c { d with reader := 0x46 :: rest }).1 = Except.ok (Value.bool Bool.false) ∧
    (Decode c { d with reader := 0x5a :: rest }).1 = Except.error Err.eof ∧
    (∀ t : Byte, t.val = 0x4e ∨ t.val = 0x54 ∨ t.val = 0x46 ∨ t.val = 0x5a →
      (Decode c { d with reader := t :: rest }).2.reader = rest ∧
      (Decode c { d with reader := t :: rest }).2.refs = d.refs ∧
      (Decode c { d with reader := t :: rest }).2.classInfoList = d.classInfoList) := by
  have hN : dispatch 0x4e = Branch.null := by decide
  have hT : dispatch 0x54 = Branch.true := by decide
  have hF : dispatch 0x46 = Branch.false := by decide
  have hZ : dispatch 0x5a = Branch.endOfStream := by decide
  refine ⟨?_, ?_, ?_, ?_, ?_⟩
  · rw [Decode_cons, hN]
  · rw [Decode_cons, hT]
  · rw [Decode_cons, hF]
  · rw [Decode_cons, hZ]
  · intro t ht
    rcases ht with h | h | h | h
    · have e : t = 0x4e := Fin.ext h
      subst e
      rw [Decode_cons, hN]
      exact ⟨rfl, rfl, rfl⟩
    · have e : t = 0x54 := Fin.ext h
      subst e
      rw [Decode_cons, hT]
      exact ⟨rfl, rfl, rfl⟩
    · have e : t = 0x46 := Fin.ext h
      subst e
      rw [Decode_cons, hF]
      exact ⟨rfl, rfl, rfl⟩
    · have e : t = 0x5a := Fin.ext h
      subst e
      rw [Decode_cons, hZ]
      exact ⟨rfl, rfl, rfl⟩

/-- Instance of C7: on the input `0x4e 0x90` of a fresh decoder `Decode`
consumes the tag and leaves both tables empty. -/
theorem Decode_payload_free_witness :
    (Decode Codecs.rejecting (NewDecoder [0x4e, 0x90])).2.reader = [0x90] ∧
    (Decode Codecs.rejecting (NewDecoder [0x4e, 0x90])).2.refs = [] ∧
    (Decode Codecs.rejecting (NewDecoder [0x4e, 0x90])).2.classInfoList = [] :=
  (Decode_payload_free Codecs.rejecting (NewDecoder []) [0x90]).2.2.2.2 0x4e (by decide)

/-! ## Top-level dispatch of `Encode` -/

/-- C8 (the code at the claim's inputs): for every int8 and every int16 value
`Encode` asserts `v.(int32)` on a value whose dynamic type is not `int32`, so
the call aborts with a run-time panic: it neither returns nil nor appends the
bytes of `encInt32`; so does `Encode(int8(1))` on a fresh encoder. -/
theorem Encode_small_int_panics (h : Encoders) (e : Encoder) (v : Int) :
    Encode h e (GoValue.int8 v) = EncOutcome.panicked ∧
    Encode h e (GoValue.int16 v) = EncOutcome.panicked ∧
    Encode Encoders.rejecting NewEncoder (GoValue.int8 1) = EncOutcome.panicked ∧
    Encode Encoders.rejecting NewEncoder (GoValue.int8 1) ≠
      EncOutcome.returned none { NewEncoder with buffer := encInt32 [] 1 } :=
  ⟨rfl, rfl, rfl, by simp [Encode, GoValue.assertInt32]⟩

/-- C9: `Encode` emits the host-native `int` as an int64. For every `v` of Go
type `int`, `Encode(v)` does what `Encode(int64(v))` does: it returns nil and
appends the `encInt64` form of `v` to the buffer, which is never a form that
`encInt32` produces; the int `0` is written as `0xe0`, not as `0x90`. -/
theorem Encode_int_as_int64 (h : Encoders) (e : Encoder) (v : Int) :
    Encode h e (GoValue.int v) = Encode h e (GoValue.int64 (int64 v)) ∧
    Encode h e (GoValue.int v) =
      EncOutcome.returned none { e with buffer := encInt64 e.buffer (int64 v) } ∧
    (∃ w : List Byte, encInt64 e.buffer (int64 v) = e.buffer ++ w) ∧
    (∀ w : Int, encInt64 e.buffer (int64 v) ≠ encInt32 e.buffer w) ∧
    Encode h NewEncoder (GoValue.int 0) =
      EncOutcome.returned none { NewEncoder with buffer := [0xe0] } ∧
    encInt32 [] 0 = [0x90] := by
  refine ⟨rfl, rfl, ?_, ?_, ?_, by decide⟩
  · obtain ⟨t, p, he, _⟩ := encInt64_tag e.buffer (int64 v)
    exact ⟨_, he⟩
  · intro w hw
    obtain ⟨t, p, he, ht⟩ := encInt64_tag e.buffer (int64 v)
    obtain ⟨t2, p2, he2, ht2⟩ := encInt32_tag e.buffer w
    rw [he, he2] at hw
    have := List.append_cancel_left hw
    simp only [List.cons.injEq] at this
    rw [this.1] at ht
    exact ht ht2
  · have : encInt64 [] (int64 0) = [0xe0] := by decide
    simp only [Encode, NewEncoder, this]

/-- C10: unsupported records are rejected without output. For every value
whose pointer-unpacked kind is struct, that does not implement POJO and is not
a `time.Time`, `Encode` returns a non-nil error and leaves the buffer, the
class-def table and the reference map of the encoder as they were. -/
theorem Encode_struct_not_POJO (h : Encoders) (e : Encoder) (r : Reflected)
    (hk : r.kind = Kind.struct) (hp : r.isPOJO = false) :
    ∃ err : Err, Encode h e (GoValue.other r) = EncOutcome.returned (some err) e := by
  refine ⟨Err.structNotSupported r.typeName, ?_⟩
  simp [Encode, hk, hp]

/-- Witness of C10: a plain struct `main.Point` offered to an encoder that
already holds two bytes. -/
theorem Encode_struct_not_POJO_witness :
    ∃ err : Err,
      Encode Encoders.rejecting { classInfoList := [], buffer := [0x90, 0x4e], refMap := [] }
        (GoValue.other
          { kind := Kind.struct, typeName := "main.Point", isPOJO := false, isPOJOEnum := false }) =
      EncOutcome.returned (some err)
        { classInfoList := [], buffer := [0x90, 0x4e], refMap := [] } :=
  Encode_struct_not_POJO Encoders.rejecting _ _ rfl rfl

/-! ## Auxiliary facts about `findField` -/

theorem findFieldFrom_some (env : DecEnv) (name : String) (fs : List StructField) (k i : Nat) :
    findFieldFrom env name fs k = some i ↔
      k ≤ i ∧
      (∃ f, fs.get? (i - k) = some f ∧ (f.Name = name ∨ env.ToLower f.Name = name)) ∧
      ∀ j, j < i - k → ∀ g, fs.get? j = some g →
        ¬ (g.Name = name ∨ env.ToLower g.Name = name) := by
  induction fs generalizing k with
  | nil => simp [findFieldFrom]
  | cons f fs ih =>
    unfold findFieldFrom
    by_cases h1 : f.Name = name
    · simp only [h1, if_true, Option.some.injEq]
      constructor
      · intro h
        subst h
        refine ⟨Nat.le_refl _, ⟨f, by simp, Or.inl h1⟩, ?_⟩
        intro j hj
        omega
      · rintro ⟨hk, -, hmin⟩
        by_contra hne
        have hpos : 0 < i - k := by omega
        exact hmin 0 hpos f (by simp) (Or.inl h1)
    · by_cases h2 : env.ToLower f.Name = name
      · simp only [h1, h2, if_true, if_false, Option.some.injEq]
        constructor
        · intro h
          subst h
          refine ⟨Nat.le_refl _, ⟨f, by simp, Or.inr h2⟩, ?_⟩
          intro j hj
          omega
        · rintro ⟨hk, -, hmin⟩
          by_contra hne
          have hpos : 0 < i - k := by omega
          exact hmin 0 hpos f (by simp) (Or.inr h2)
      · simp only [h1, h2, if_false]
        rw [ih (k + 1)]
        constructor
        · rintro ⟨hk, ⟨g, hg, hm⟩, hmin⟩
          refine ⟨by omega, ⟨g, ?_, hm⟩, ?_⟩
          · have e : i - k = (i - (k + 1)) + 1 := by omega
            rw [e, List.get?_cons_succ]
            exact hg
          · intro j hj g2 hg2
            cases j with
            | zero =>
              simp only [List.get?_cons_zero, Option.some.injEq] at hg2
              subst hg2
              exact fun h => h.elim h1 h2
            | succ j =>
              rw [List.get?_cons_succ] at hg2
              exact hmin j (by omega) g2 hg2
        · rintro ⟨hk, ⟨g, hg, hm⟩, hmin⟩
          have hik : k < i := by
            by_contra hle
            have e : i - k = 0 := by omega
            rw [e, List.get?_cons_zero, Option.some.injEq] at hg
            subst hg
            exact hm.elim h1 h2
          refine ⟨by omega, ⟨g, ?_, hm⟩, ?_⟩
          · have e : i - k = (i - (k + 1)) + 1 := by omega
            rw [e, List.get?_cons_succ] at hg
            exact hg
          · intro j hj g2 hg2
            exact hmin (j + 1) (by omega) g2 (by rw [List.get?_cons_succ]; exact hg2)

theorem findFieldFrom_none (env : DecEnv) (name : String) (fs : List StructField) (k : Nat) :
    findFieldFrom env name fs k = none ↔
      ∀ f, f ∈ fs → ¬ (f.Name = name ∨ env.ToLower f.Name = name) := by
  induction fs generalizing k with
  | nil => simp [findFieldFrom]
  | cons f fs ih =>
    unfold findFieldFrom
    by_cases h1 : f.Name = name
    · simp [h1]
    · by_cases h2 : env.ToLower f.Name = name
      · simp [h1, h2]
      · simp only [h1, h2, if_false, ih (k + 1), List.mem_cons, forall_eq_or_imp, or_self,
          not_false_eq_true, true_and]

/-! ## Field lookup -/

/-- C16, as amended: for every wire field name `w` and every host record type,
`findField(w, type)` returns the least index `i` such that the name of field
`i` is `w` or its lowercased name is `w`, and it returns an error if and only
if no field matches in either way. An exact match is preferred to a lowercase
match only within one field, not across the fields. -/
theorem findField_first_match (env : DecEnv) (name : String) (typ : GoType)
    (hk : typ.kind = Kind.struct) :
    (∀ i, findField env name typ = Except.ok i ↔
      (∃ f, typ.fields.get? i = some f ∧ (f.Name = name ∨ env.ToLower f.Name = name)) ∧
      ∀ j, j < i → ∀ g, typ.fields.get? j = some g →
        ¬ (g.Name = name ∨ env.ToLower g.Name = name)) ∧
    ((∃ e, findField env name typ = Except.error e) ↔
      ∀ f, f ∈ typ.fields → ¬ (f.Name = name ∨ env.ToLower f.Name = name)) := by
  unfold findField
  simp only [hk, ne_eq, not_true_eq_false, if_false]
  constructor
  · intro i
    have h := findFieldFrom_some env name typ.fields 0 i
    simp only [Nat.zero_le, Nat.sub_zero, true_and] at h
    rw [← h]
    cases findFieldFrom env name typ.fields 0 <;> simp
  · rw [← findFieldFrom_none env name typ.fields 0]
    cases findFieldFrom env name typ.fields 0 <;> simp

/-- Witness of the amended C16: in the record with the fields `AB`, `ab` the
wire name `ab` is found at index 0, by the lowercased name of `AB`. -/
theorem findField_first_match_witness :
    abType.kind = Kind.struct ∧
    findField (DecEnv.basic exampleRegistry) "ab" abType = Except.ok 0 :=
  ⟨rfl, ((findField_first_match (DecEnv.basic exampleRegistry) "ab" abType rfl).1 0).2
    ⟨⟨_, rfl, Or.inr (by decide)⟩, fun j hj => absurd hj (Nat.not_lt_zero j)⟩⟩

/-- Counterexample to C16 as stated: it is not so that `findField` returns the
index of a field named exactly `w` whenever such a field exists. In the record
with the fields `AB`, `ab` the field at index 1 is named `ab`, and
`findField("ab")` returns index 0, whose field is named `AB`. -/
theorem findField_exact_not_preferred :
    ¬ (∀ (env : DecEnv) (name : String) (typ : GoType) (i : Nat),
        typ.kind = Kind.struct → (∃ f, f ∈ typ.fields ∧ f.Name = name) →
        findField env name typ = Except.ok i →
        ∃ f, typ.fields.get? i = some f ∧ f.Name = name) := by
  intro h
  obtain ⟨f, hf, hn⟩ := h (DecEnv.basic exampleRegistry) "ab" abType 0 rfl
    ⟨_, List.mem_cons_of_mem _ (List.mem_singleton.mpr rfl), rfl⟩ rfl
  simp only [abType, List.get?_cons_zero, Option.some.injEq] at hf
  subst hf
  exact absurd hn (by decide)

/-- C17 (the code at the claim's input): the host record `main.Person` has the
exported field `FirstName`, and `findField` called with the wire name
`firstName`, which differs from it in the case of the first letter only,
returns an error: the host name is lowercased as a whole, to `firstname`. A
name with a single capital, as `Age`, is found. -/
theorem findField_camelCase_fails :
    findField (DecEnv.basic exampleRegistry) "firstName" personType =
      Except.error (Err.failedToFindField "firstName") ∧
    personType.fields.map (fun f => f.Name) = ["FirstName", "Age"] ∧
    (DecEnv.basic exampleRegistry).ToLower "FirstName" = "firstname" ∧
    findField (DecEnv.basic exampleRegistry) "age" personType = Except.ok 1 :=
  ⟨rfl, rfl, rfl, rfl⟩

/-! ## Auxiliary facts about `encObject` -/

theorem encObject_new (env : EncEnv) (h : Encoders) (e : Encoder) (v : GoValue)
    (hr : (env.checkRefMap e.refMap v).1 = none) (hn : env.isNilPointer v = false)
    (hc : classIndexFrom (env.JavaClassName v) e.classInfoList 0 = none) :
    encObject env h e v =
      encObjectValues env h
        { e with
          refMap := (env.checkRefMap e.refMap v).2
          classInfoList := e.classInfoList ++ [registryClsDef env v]
          buffer := encObjectHeader (e.buffer ++ (registryClsDef env v).buffer)
            e.classInfoList.length } v := by
  unfold encObject
  rcases hm : env.checkRefMap e.refMap v with ⟨n, m⟩
  rw [hm] at hr
  simp only at hr
  subst hr
  simp only [hn, hc, Bool.false_eq_true, if_false]

theorem encObject_known (env : EncEnv) (h : Encoders) (e : Encoder) (v : GoValue) (i : Nat)
    (hr : (env.checkRefMap e.refMap v).1 = none) (hn : env.isNilPointer v = false)
    (hc : classIndexFrom (env.JavaClassName v) e.classInfoList 0 = some i) :
    encObject env h e v =
      encObjectValues env h
        { e with
          refMap := (env.checkRefMap e.refMap v).2
          buffer := encObjectHeader e.buffer i } v := by
  unfold encObject
  rcases hm : env.checkRefMap e.refMap v with ⟨n, m⟩
  rw [hm] at hr
  simp only at hr
  subst hr
  simp only [hn, hc, Bool.false_eq_true, if_false]

theorem classIndexFrom_some (name : String) (l : List classInfo) (k i : Nat)
    (h : classIndexFrom name l k = some i) :
    k ≤ i ∧ (∃ ci, l.get? (i - k) = some ci ∧ ci.javaName = name) ∧
      ∀ j, j < i - k → ∀ cj, l.get? j = some cj → cj.javaName ≠ name := by
  induction l generalizing k with
  | nil => simp [classIndexFrom] at h
  | cons c l ih =>
    unfold classIndexFrom at h
    by_cases hc : name = c.javaName
    · simp only [hc, if_true, Option.some.injEq] at h
      subst h
      refine ⟨Nat.le_refl _, ⟨c, by simp, hc.symm⟩, ?_⟩
      intro j hj
      omega
    · simp only [hc, if_false] at h
      obtain ⟨hk, ⟨ci, hci, hn⟩, hmin⟩ := ih (k + 1) h
      refine ⟨by omega, ⟨ci, ?_, hn⟩, ?_⟩
      · have e : i - k = (i - (k + 1)) + 1 := by omega
        rw [e, List.get?_cons_succ]
        exact hci
      · intro j hj cj hcj
        cases j with
        | zero =>
          simp only [List.get?_cons_zero, Option.some.injEq] at hcj
          subst hcj
          exact fun h2 => hc h2.symm
        | succ j =>
          rw [List.get?_cons_succ] at hcj
          exact hmin j (by omega) cj hcj

theorem classIndexFrom_none (name : String) (l : List classInfo) (k : Nat) :
    classIndexFrom name l k = none ↔ ∀ ci, ci ∈ l → ci.javaName ≠ name := by
  induction l generalizing k with
  | nil => simp [classIndexFrom]
  | cons c l ih =>
    unfold classIndexFrom
    by_cases hc : name = c.javaName
    · simp [hc]
    · have hc2 : ¬ c.javaName = name := fun h => hc h.symm
      simp only [hc, if_false, ih (k + 1), List.mem_cons, forall_eq_or_imp, ne_eq, hc2,
        not_false_eq_true, true_and]

theorem encObjectHeader_short (b : List Byte) (idx : Int) (h1 : idx % 256 ≤ 15) :
    encObjectHeader b idx = b ++ [byte (0x60 + idx % 256)] := by
  unfold encObjectHeader encByte OBJECT_DIRECT_MAX BC_OBJECT_DIRECT
  have hb := byte_val idx
  have hle : byte idx ≤ (0x0f : Byte) := by
    rw [byte_le_iff]
    have : ((0x0f : Byte).val : Int) = 15 := rfl
    omega
  rw [if_pos hle]
  congr 2
  apply Fin.ext
  have hb2 := byte_val (0x60 + idx % 256)
  have h60 : ((0x60 : Byte).val : Nat) = 96 := rfl
  rw [Fin.val_add, h60]
  omega

theorem encObjectHeader_long (b : List Byte) (idx : Int) (h1 : 15 < idx % 256) :
    encObjectHeader b idx = encInt32 (b ++ [0x4f]) (int32 idx) := by
  unfold encObjectHeader encByte OBJECT_DIRECT_MAX BC_OBJECT
  have hb := byte_val idx
  have hle : ¬ byte idx ≤ (0x0f : Byte) := by
    rw [byte_le_iff]
    have : ((0x0f : Byte).val : Int) = 15 := rfl
    omega
  rw [if_neg hle]

/-! ## Object instances on the encoder side -/

/-- C11 (the code at the claim's input): the header `encObject` writes for the
class-def index 256 is the single byte `0x60`, the short form of index 0, and
not `O` followed by `encInt32(256)`: the test for the short form looks at the
low byte of the index. In general the header is the short form
`0x60 + idx mod 256` when `idx mod 256 <= 15` and the long form otherwise; and
`encObject` reaches index 256 when it meets a new class with 256 classes in its
table. -/
theorem encObjectHeader_wraps (b : List Byte) :
    encObjectHeader b 256 = b ++ [0x60] ∧
    encObjectHeader b 0 = b ++ [0x60] ∧
    encObjectHeader b 256 ≠ encInt32 (b ++ [0x4f]) 256 ∧
    (∀ idx : Int, idx % 256 ≤ 15 → encObjectHeader b idx = b ++ [byte (0x60 + idx % 256)]) ∧
    (∀ idx : Int, 15 < idx % 256 →
      encObjectHeader b idx = encInt32 (b ++ [0x4f]) (int32 idx)) ∧
    (∀ (env : EncEnv) (h : Encoders) (e : Encoder) (v : GoValue),
      (env.checkRefMap e.refMap v).1 = none → env.isNilPointer v = false →
      classIndexFrom (env.JavaClassName v) e.classInfoList 0 = none →
      e.classInfoList.length = 256 → e.buffer = b →
      encObject env h e v =
        encObjectValues env h
          { e with
            refMap := (env.checkRefMap e.refMap v).2
            classInfoList := e.classInfoList ++ [registryClsDef env v]
            buffer := b ++ (registryClsDef env v).buffer ++ [0x60] } v) := by
  have h256 : encObjectHeader b 256 = b ++ [0x60] :=
    (encObjectHeader_short b 256 (by decide)).trans rfl
  refine ⟨h256, (encObjectHeader_short b 0 (by decide)).trans rfl, ?_,
    fun idx h => encObjectHeader_short b idx h, fun idx h => encObjectHeader_long b idx h, ?_⟩
  · rw [h256]
    obtain ⟨t, p, he, ht⟩ := encInt32_tag (b ++ [0x4f]) 256
    rw [he]
    intro hc
    have hl := congrArg List.length hc
    simp only [List.length_append, List.length_cons, List.length_nil] at hl
    omega
  · intro env h e v hr hn hc hlen hb
    rw [encObject_new env h e v hr hn hc, hlen, hb]
    have : encObjectHeader (b ++ (registryClsDef env v).buffer) ((256 : Nat) : Int) =
        b ++ (registryClsDef env v).buffer ++ [0x60] :=
      (encObjectHeader_short _ 256 (by decide)).trans rfl
    rw [this]

theorem classIndexFrom_replicate (name : String) (c : classInfo) (l : List classInfo)
    (k j : Nat) (hne : name ≠ c.javaName) :
    classIndexFrom name (List.replicate k c ++ l) j = classIndexFrom name l (j + k) := by
  induction k generalizing j with
  | zero => rfl
  | succ k ih =>
    rw [List.replicate_succ, List.cons_append, classIndexFrom, if_neg hne, ih (j + 1)]
    congr 1
    omega

theorem crowdedTable_index :
    classIndexFrom (carEnv.JavaClassName car) crowdedTable 0 = some 256 :=
  (classIndexFrom_replicate "example.Car" otherDef [carDef] 256 0 (by decide)).trans rfl

/-- C12, refuted at large indices: class-def reuse on encode, for a value that
is not nil and not yet referenced and whose Java class name is in the
class-def table, first at index `i`. The table stays as it is and no class-def
bytes are written, but what `encObject` appends does not always start with the
instance header for `i`: when `i mod 256 <= 15` it starts with the single byte
`0x60 + i mod 256`, so for `i >= 256` it starts with the header of the class at
index `i mod 256`, which is another class, and not with `O` followed by
`encInt32(i)`. The values of the fields follow the header. -/
theorem encObject_reuse_header_wraps (env : EncEnv) (h : Encoders) (e : Encoder) (v : GoValue)
    (i : Nat) (hr : (env.checkRefMap e.refMap v).1 = none) (hn : env.isNilPointer v = false)
    (hc : classIndexFrom (env.JavaClassName v) e.classInfoList 0 = some i)
    (hi : 256 ≤ i) (hlow : i % 256 ≤ 15) :
    (∃ ci, e.classInfoList.get? i = some ci ∧ ci.javaName = env.JavaClassName v) ∧
    (∀ cj, e.classInfoList.get? (i % 256) = some cj → cj.javaName ≠ env.JavaClassName v) ∧
    encObject env h e v =
      encObjectValues env h
        { e with
          refMap := (env.checkRefMap e.refMap v).2
          buffer := e.buffer ++ [byte (0x60 + ((i % 256 : Nat) : Int))] } v ∧
    encObjectHeader e.buffer i = encObjectHeader e.buffer ((i % 256 : Nat) : Int) ∧
    encObjectHeader e.buffer i ≠ encInt32 (e.buffer ++ [0x4f]) (int32 i) := by
  obtain ⟨-, hex, hbefore⟩ := classIndexFrom_some _ _ 0 i hc
  have hm : ((i : Nat) : Int) % 256 = ((i % 256 : Nat) : Int) := by omega
  have hm2 : (((i % 256 : Nat) : Int)) % 256 = ((i % 256 : Nat) : Int) := by omega
  have hshort : encObjectHeader e.buffer i =
      e.buffer ++ [byte (0x60 + ((i % 256 : Nat) : Int))] := by
    have := encObjectHeader_short e.buffer (i : Int) (by omega)
    rw [hm] at this
    exact this
  refine ⟨by simpa using hex, ?_, ?_, ?_, ?_⟩
  · intro cj hcj
    exact hbefore (i % 256) (by omega) cj hcj
  · rw [encObject_known env h e v i hr hn hc, hshort]
  · have := encObjectHeader_short e.buffer ((i % 256 : Nat) : Int) (by omega)
    rw [hm2] at this
    rw [hshort, this]
  · rw [hshort]
    obtain ⟨t, p, he, -⟩ := encInt32_tag (e.buffer ++ [0x4f]) (int32 i)
    rw [he]
    intro hcontra
    have hl := congrArg List.length hcontra
    simp only [List.length_append, List.length_cons, List.length_nil] at hl
    omega

/-- Witness of C12, the failing input: the encoder holds 256 definitions of
other classes and then, at index 256, the definition of `example.Car`. A
`Car{color: "green", model: "civic"}` is written as
`0x60 0x05 "green" 0x05 "civic"`, an instance of the class at index 0. -/
theorem encObject_reuse_header_wraps_witness :
    classIndexFrom (carEnv.JavaClassName car) crowdedTable 0 = some 256 ∧
    crowdedTable.get? 0 = some otherDef ∧
    encObject carEnv Encoders.ascii
        { classInfoList := crowdedTable, buffer := [], refMap := [] } car =
      EncOutcome.returned none
        { classInfoList := crowdedTable
          buffer := [0x60, 0x05, 0x67, 0x72, 0x65, 0x65, 0x6e, 0x05, 0x63, 0x69, 0x76, 0x69, 0x63]
          refMap := [] } :=
  ⟨crowdedTable_index, rfl,
    (encObject_reuse_header_wraps carEnv Encoders.ascii
      { classInfoList := crowdedTable, buffer := [], refMap := [] } car 256 rfl rfl
      crowdedTable_index (by decide) (by decide)).2.2.1.trans rfl⟩

/-! ## Auxiliary facts about the decoding of objects -/

theorem readByte_tables (d : Decoder) :
    d.readByte.2.refs = d.refs ∧ d.readByte.2.classInfoList = d.classInfoList := by
  unfold Decoder.readByte
  cases d.reader <;> exact ⟨rfl, rfl⟩

theorem readFull_tables (d : Decoder) (n : Nat) :
    (d.readFull n).2.refs = d.refs ∧ (d.readFull n).2.classInfoList = d.classInfoList := by
  unfold Decoder.readFull
  split <;> exact ⟨rfl, rfl⟩

theorem decInt32_tables (d : Decoder) (flag : Int) :
    (decInt32 d flag).2.refs = d.refs ∧
      (decInt32 d flag).2.classInfoList = d.classInfoList := by
  have key : ∀ (d : Decoder) (t : Byte),
      (decInt32 d (t.val : Int)).2.refs = d.refs ∧
        (decInt32 d (t.val : Int)).2.classInfoList = d.classInfoList := by
    intro d t
    rw [decInt32_flag]
    repeat' split
    all_goals exact ⟨rfl, rfl⟩
  by_cases hf : flag ≠ TAG_READ
  · rw [decInt32_of_flag d flag hf]
    exact key d (byte flag)
  · have hf2 : flag = TAG_READ := by simpa using hf
    subst hf2
    rcases hr : d.reader with _ | ⟨t, rest⟩
    · rw [decInt32_read_nil d hr]
      exact ⟨rfl, rfl⟩
    · rw [Decoder.eta d _ hr, decInt32_read]
      exact key _ t

theorem onReader_tables {α : Type} (d : Decoder) (f : ReaderCodec α) (flag : Int) :
    (d.onReader f flag).2.refs = d.refs ∧
      (d.onReader f flag).2.classInfoList = d.classInfoList :=
  ⟨rfl, rfl⟩

theorem decObject_read (env : DecEnv) (c : Codecs) (d : Decoder) (t : Byte) (rest : List Byte) :
    decObject env c { d with reader := t :: rest } TAG_READ =
      decObject env c { d with reader := rest, lastByte := some t } (t.val : Int) := by
  unfold decObject
  simp only [flag_ne_TAG_READ, byte_cast, ne_eq, not_false_eq_true, if_true, not_true_eq_false,
    if_false, Decoder.readByte]

theorem decObject_direct (env : DecEnv) (c : Codecs) (d : Decoder) (t : Byte)
    (h1 : 0x60 ≤ t.val) (h2 : t.val ≤ 0x6f) :
    decObject env c d (t.val : Int) =
      match d.getStructDefByIndex env ((t.val : Int) - 0x60) with
      | Except.error e => (Except.error e, d)
      | Except.ok (typ, cls) =>
        if typ.implementsEnum then decEnum env d cls.javaName TAG_READ
        else decInstance env c typ cls d := by
  unfold decObject
  simp only [flag_ne_TAG_READ, byte_cast, ne_eq, not_false_eq_true, if_true]
  have n1 : ¬ t = BC_NULL := fun h => by rw [h] at h1; revert h1; decide
  have n2 : ¬ t = BC_REF := fun h => by rw [h] at h1; revert h1; decide
  have n3 : ¬ t = BC_OBJECT_DEF := fun h => by rw [h] at h1; revert h1; decide
  have n4 : ¬ t = BC_OBJECT := fun h => by rw [h] at h1; revert h1; decide
  have n5 : BC_OBJECT_DIRECT ≤ t ∧ t ≤ BC_OBJECT_DIRECT + OBJECT_DIRECT_MAX := by
    constructor
    · rw [byte_le_iff]; exact h1
    · rw [byte_le_iff]; exact h2
  have hv : (((t - BC_OBJECT_DIRECT : Byte).val : Nat) : Int) = (t.val : Int) - 0x60 := by
    unfold BC_OBJECT_DIRECT
    omega
  simp only [n1, n2, n3, n4, n5, and_self, if_true, if_false, hv]

theorem decObject_long (env : DecEnv) (c : Codecs) (d : Decoder) :
    decObject env c d (0x4f : Int) =
      match decInt32 d TAG_READ with
      | (Except.error e, d1) => (Except.error e, d1)
      | (Except.ok idx, d1) =>
        match d1.getStructDefByIndex env idx with
        | Except.error e => (Except.error e, d1)
        | Except.ok (typ, cls) =>
          if typ.implementsEnum then decEnum env d1 cls.javaName TAG_READ
          else decInstance env c typ cls d1 := by
  have e := flag_ne_TAG_READ (0x4f : Byte)
  have e2 : byte ((0x4f : Byte).val : Int) = 0x4f := byte_cast _
  unfold decObject
  have hf : ((0x4f : Int) ≠ TAG_READ) := e
  have hb : byte (0x4f : Int) = (0x4f : Byte) := e2
  simp only [hf, hb, ne_eq, not_false_eq_true, if_true]
  rfl

theorem decObject_def (env : DecEnv) (c : Codecs) (d : Decoder) :
    decObject env c d (0x43 : Int) =
      match decClassDef env d with
      | (Except.error e, d1) =>
        (Except.error (e.onReturn (Err.annotated "decObject->decClassDef byte double")), d1)
      | (Except.ok cls, d1) => Decode c (d1.appendClsDef cls) := by
  have hf : ((0x43 : Int) ≠ TAG_READ) := flag_ne_TAG_READ (0x43 : Byte)
  have hb : byte (0x43 : Int) = (0x43 : Byte) := byte_cast (0x43 : Byte)
  unfold decObject
  simp only [hf, hb, ne_eq, not_false_eq_true, if_true]
  rfl

theorem getStructDefByIndex_illegal (env : DecEnv) (d : Decoder) (idx : Int)
    (h : idx < 0 ∨ (d.classInfoList.length : Int) ≤ idx) :
    d.getStructDefByIndex env idx = Except.error (Err.illegalClassIndex idx) := by
  unfold Decoder.getStructDefByIndex
  have : (d.classInfoList.length : Int) ≤ idx ∨ idx < 0 := h.symm
  simp only [this, if_true]

theorem decInt32_read_direct (d : Decoder) (t : Byte) (rest : List Byte)
    (h1 : 0x80 ≤ t.val) (h2 : t.val ≤ 0xbf) :
    decInt32 { d with reader := t :: rest } TAG_READ =
      (Except.ok ((t.val : Int) - 0x90), { d with reader := rest, lastByte := some t }) :=
  (decInt32_read d t rest).trans (decInt32_flag_direct _ t h1 h2)

/-! ## Object instances on the decoder side -/

/-- C15: object instances must refer to an earlier class-def. For every
decoder whose class-def table has length `n`: the short tag `0x60 + i` with
`i >= n`, and `O` followed by an int32 `i` with `i < 0` or `i >= n`, make
`decObject` return an error and no value; the reference table and the
class-def table stay as they were, and of the input only the tag and the int32
are consumed. -/
theorem decObject_illegal_index (env : DecEnv) (c : Codecs) (d : Decoder) :
    (∀ t : Byte, 0x60 ≤ t.val → t.val ≤ 0x6f →
      (d.classInfoList.length : Int) ≤ (t.val : Int) - 0x60 →
      decObject env c d (t.val : Int) =
        (Except.error (Err.illegalClassIndex ((t.val : Int) - 0x60)), d)) ∧
    (∀ (i : Int) (d1 : Decoder), decInt32 d TAG_READ = (Except.ok i, d1) →
      i < 0 ∨ (d.classInfoList.length : Int) ≤ i →
      decObject env c d (0x4f : Int) = (Except.error (Err.illegalClassIndex i), d1) ∧
      d1.refs = d.refs ∧ d1.classInfoList = d.classInfoList) ∧
    (∀ (t : Byte) (rest : List Byte), 0x60 ≤ t.val → t.val ≤ 0x6f →
      (d.classInfoList.length : Int) ≤ (t.val : Int) - 0x60 →
      decObject env c { d with reader := t :: rest } TAG_READ =
        (Except.error (Err.illegalClassIndex ((t.val : Int) - 0x60)),
          { d with reader := rest, lastByte := some t })) := by
  refine ⟨?_, ?_, ?_⟩
  · intro t h1 h2 hn
    rw [decObject_direct env c d t h1 h2, getStructDefByIndex_illegal env d _ (Or.inr hn)]
  · intro i d1 hd hi
    have ht := decInt32_tables d TAG_READ
    rw [hd] at ht
    simp only at ht
    refine ⟨?_, ht.1, ht.2⟩
    rw [decObject_long, hd]
    simp only
    rw [getStructDefByIndex_illegal env d1 i (by rw [ht.2]; exact hi)]
  · intro t rest h1 h2 hn
    rw [decObject_read, decObject_direct env c _ t h1 h2,
      getStructDefByIndex_illegal env { d with reader := rest, lastByte := some t } _
        (Or.inr hn)]

/-- Instance of C15: a decoder that holds one class definition meets the short
form for index 1, and the long form for index -1. -/
theorem decObject_illegal_index_witness :
    decObject (DecEnv.basic exampleRegistry) Codecs.rejecting
        { NewDecoder [0x61, 0x4e] with classInfoList := [userCls] } TAG_READ =
      (Except.error (Err.illegalClassIndex 1),
        { NewDecoder [0x4e] with classInfoList := [userCls], lastByte := some 0x61 }) ∧
    decObject (DecEnv.basic exampleRegistry) Codecs.rejecting
        { NewDecoder [0x8f, 0x4e] with classInfoList := [userCls] } (0x4f : Int) =
      (Except.error (Err.illegalClassIndex (-1)),
        { NewDecoder [0x4e] with classInfoList := [userCls], lastByte := some 0x8f }) := by
  have h := decObject_illegal_index (DecEnv.basic exampleRegistry) Codecs.rejecting
  refine ⟨?_, ?_⟩
  · exact (h { NewDecoder [] with classInfoList := [userCls] }).2.2 0x61 [0x4e]
      (by decide) (by decide) (by decide)
  · have hd : decInt32 { NewDecoder [0x8f, 0x4e] with classInfoList := [userCls] } TAG_READ =
        (Except.ok (-1),
          { NewDecoder [0x4e] with classInfoList := [userCls], lastByte := some 0x8f }) :=
      (decInt32_read_direct { NewDecoder [] with classInfoList := [userCls] } 0x8f [0x4e]
        (by decide) (by decide)).trans (Prod.ext (by simp only [Except.ok.injEq]; decide) rfl)
    exact ((h { NewDecoder [0x8f, 0x4e] with classInfoList := [userCls] }).2.1 (-1) _ hd
      (Or.inl (by decide))).1

/-- C19 (the code at the claim's input): a decoder holds the registered
classes `example.User` at index 0 and `example.Flag` at index 1. On the input
`encInt32([], 0)` followed by `0x91`, `decType` does not return the type of
class 0 and leave `0x91` unread: it drops the byte `0x90` it has read as the
tag, reads the index anew from what follows, returns the type of class 1 and
leaves nothing unread. On `encInt32([], 0)` alone it returns an error. -/
theorem decType_drops_tag :
    encInt32 [] 0 = [0x90] ∧
    decType (DecEnv.basic exampleRegistry)
        { NewDecoder [0x90, 0x91] with classInfoList := [userCls, flagCls] } =
      (Except.ok "main.Flag",
        { NewDecoder [] with classInfoList := [userCls, flagCls], lastByte := some 0x91 }) ∧
    decType (DecEnv.basic exampleRegistry)
        { NewDecoder [0x90] with classInfoList := [userCls, flagCls] } =
      (Except.error (Err.traced (Err.wrongTag 0)),
        { NewDecoder [] with classInfoList := [userCls, flagCls], lastByte := some 0x90 }) ∧
    (Decoder.getStructDefByIndex (DecEnv.basic exampleRegistry)
        { NewDecoder [] with classInfoList := [userCls, flagCls] } 0).map (fun r => r.1.name) =
      Except.ok "main.User" := by
  refine ⟨by decide, rfl, rfl, rfl⟩

/-! ## Class definitions on the decoder side -/

theorem ReadsStrings_tables (env : DecEnv) (d d1 : Decoder) (ss : List String)
    (h : ReadsStrings env d ss d1) :
    d1.refs = d.refs ∧ d1.classInfoList = d.classInfoList := by
  induction h with
  | nil d => exact ⟨rfl, rfl⟩
  | cons d d1 d2 s ss h1 _ ih =>
    have ht := onReader_tables d env.decString TAG_READ
    rw [h1] at ht
    exact ⟨ih.1.trans ht.1, ih.2.trans ht.2⟩

theorem decFieldNames_reads (env : DecEnv) (d d1 : Decoder) (ss acc : List String)
    (h : ReadsStrings env d ss d1) :
    decFieldNames env ss.length acc d = (Except.ok (acc ++ ss), d1) := by
  induction h generalizing acc with
  | nil d => simp [decFieldNames]
  | cons d d1 d2 s ss h1 _ ih =>
    simp only [List.length_cons, decFieldNames, h1]
    rw [ih (acc ++ [s])]
    simp

theorem decClassDef_reads (env : DecEnv) (d d1 d2 d3 : Decoder) (name : String) (k : Int)
    (names : List String)
    (h1 : d.onReader env.decString TAG_READ = (Except.ok name, d1))
    (h2 : decInt32 d1 TAG_READ = (Except.ok k, d2))
    (h3 : ReadsStrings env d2 names d3) (hk : k = names.length) :
    decClassDef env d =
      (Except.ok { javaName := name, fieldNameList := names, buffer := [] }, d3) := by
  unfold decClassDef
  have hneg : ¬ k < 0 := by omega
  have hn : k.toNat = names.length := by omega
  simp only [h1, h2, hneg, if_false, hn, decFieldNames_reads env d2 d3 names [] h3,
    List.nil_append]

/-- C14: a class definition is a header, not a value. When `Decode` meets the
tag `C` followed by a well-formed class definition, that is a string name, an
int32 field count `k >= 0` and `k` string field names, then exactly one entry is
appended to the class-def table, holding that name and those `k` field names in
wire order, at the index that was the length of the table, and the result is
what `Decode` returns for the value that follows on the input. This is so for
`decObject` with the tag `C` under every behaviour of the other codecs, and for
`Decode` in a run that nests objects: the value that follows is decoded one
level down. -/
theorem Decode_class_def (env : DecEnv) (m : DecComposite) (d0 d1 d2 d3 : Decoder)
    (input : List Byte) (name : String) (k : Int) (names : List String)
    (h1 : Decoder.onReader { d0 with reader := input, lastByte := some 0x43 } env.decString
      TAG_READ = (Except.ok name, d1))
    (h2 : decInt32 d1 TAG_READ = (Except.ok k, d2))
    (h3 : ReadsStrings env d2 names d3) (hk : k = names.length) :
    (∀ c : Codecs,
      decObject env c { d0 with reader := input, lastByte := some 0x43 } (0x43 : Int) =
        Decode c (d3.appendClsDef { javaName := name, fieldNameList := names, buffer := [] })) ∧
    (∀ n : Nat,
      Decode (codecsAt env m (n + 1)) { d0 with reader := 0x43 :: input } =
        Decode (codecsAt env m n)
          (d3.appendClsDef { javaName := name, fieldNameList := names, buffer := [] })) ∧
    (d3.appendClsDef { javaName := name, fieldNameList := names, buffer := [] }).classInfoList =
      d0.classInfoList ++ [{ javaName := name, fieldNameList := names, buffer := [] }] ∧
    (d3.appendClsDef { javaName := name, fieldNameList := names, buffer := [] }).classInfoList.get?
      d0.classInfoList.length =
      some { javaName := name, fieldNameList := names, buffer := [] } ∧
    (d3.appendClsDef { javaName := name, fieldNameList := names, buffer := [] }).refs =
      d0.refs := by
  have hobj : ∀ c : Codecs,
      decObject env c { d0 with reader := input, lastByte := some 0x43 } (0x43 : Int) =
        Decode c (d3.appendClsDef { javaName := name, fieldNameList := names, buffer := [] }) := by
    intro c
    rw [decObject_def, decClassDef_reads env _ d1 d2 d3 name k names h1 h2 h3 hk]
  have t1 := onReader_tables { d0 with reader := input, lastByte := some 0x43 } env.decString
    TAG_READ
  rw [h1] at t1
  have t2 := decInt32_tables d1 TAG_READ
  rw [h2] at t2
  have t3 := ReadsStrings_tables env d2 d3 names h3
  have hcl : d3.classInfoList = d0.classInfoList := t3.2.trans (t2.2.trans t1.2)
  have hrf : d3.refs = d0.refs := t3.1.trans (t2.1.trans t1.1)
  refine ⟨hobj, ?_, ?_, ?_, ?_⟩
  · intro n
    rw [Decode_cons]
    have hd : dispatch 0x43 = Branch.object := by decide
    rw [hd]
    exact hobj (codecsAt env m n)
  · simp only [Decoder.appendClsDef, hcl]
  · simp only [Decoder.appendClsDef, hcl]
    simp
  · simp only [Decoder.appendClsDef, hrf]

/-- Witness of C14: the input holds `C`, the class name `T`, the count 1, the
field name `a`, and then the value null. `Decode` returns null, and the
class-def table of the fresh decoder holds the one class `T` with the field
`a`. -/
theorem Decode_class_def_witness :
    Decode (codecsAt (DecEnv.basic exampleRegistry) DecComposite.rejecting 1)
        (NewDecoder [0x43, 0x01, 0x54, 0x91, 0x01, 0x61, 0x4e]) =
      (Except.ok Value.null,
        { NewDecoder [] with
          lastByte := some 0x4e
          classInfoList := [{ javaName := "T", fieldNameList := ["a"], buffer := [] }] }) :=
  ((Decode_class_def (DecEnv.basic exampleRegistry) DecComposite.rejecting
      (NewDecoder []) { NewDecoder [0x91, 0x01, 0x61, 0x4e] with lastByte := some 0x54 }
      { NewDecoder [0x01, 0x61, 0x4e] with lastByte := some 0x91 }
      { NewDecoder [0x4e] with lastByte := some 0x61 }
      [0x01, 0x54, 0x91, 0x01, 0x61, 0x4e] "T" 1 ["a"] rfl
      (decInt32_read_direct { NewDecoder [] with lastByte := some 0x54 } 0x91 [0x01, 0x61, 0x4e]
        (by decide) (by decide))
      (ReadsStrings.cons _ _ _ "a" [] rfl (ReadsStrings.nil _)) rfl).2.1 0).trans rfl

/-! ## The fields of an instance -/

theorem decFields_append (env : DecEnv) (c : Codecs) (typ : GoType) (r : Nat)
    (pre post : List String) (slots : List Value) (d : Decoder) :
    decFields env c typ r (pre ++ post) slots d =
      match decFields env c typ r pre slots d with
      | (Except.error e, d1) => (Except.error e, d1)
      | (Except.ok slots1, d1) => decFields env c typ r post slots1 d1 := by
  induction pre generalizing slots d with
  | nil => simp [decFields]
  | cons f pre ih =>
    simp only [List.cons_append, decFields]
    rcases h : decField env c typ r f slots d with ⟨res, d1⟩
    cases res with
    | error e => rfl
    | ok slots1 => exact ih slots1 d1

theorem decField_bool_mismatch (env : DecEnv) (c : Codecs) (typ : GoType) (r : Nat)
    (fieldName : String) (slots : List Value) (d d1 : Decoder) (index : Nat)
    (field : StructField) (v : Value)
    (hf : findField env fieldName typ = Except.ok index)
    (hg : typ.fields.get? index = some field)
    (hs : field.CanSet = true) (hb : field.kind = Kind.bool)
    (hd : Decode c d = (Except.ok v, d1)) (hv : ∀ b : Bool, v ≠ Value.bool b) :
    decField env c typ r fieldName slots d =
      (Except.error (Err.panic "interface conversion: interface {} is not bool"), d1) := by
  unfold decField
  simp only [hf, hg, hs, hb, hd]
  cases v with
  | bool b => exact absurd rfl (hv b)
  | _ => simp

/-- C18, refuted: a value that is no boolean at the place of a bool field does
not make `decInstance` return an error, it makes it abort. For every record
type and every class definition, when the fields before the one at hand have
been decoded, the field at hand is found in the host type, can be set and is of
kind bool, and `Decode` returns for it a value `v` that is no boolean (an int32,
a string, null, ...), then the type assertion `b.(bool)` panics: the outcome of
`decInstance` is that panic, which is an abort and no error value. -/
theorem decInstance_bool_mismatch_aborts (env : DecEnv) (c : Codecs) (typ : GoType)
    (cls : classInfo) (d d1 d2 : Decoder) (pre post : List String) (fieldName : String)
    (slots : List Value) (index : Nat) (field : StructField) (v : Value)
    (hk : typ.kind = Kind.struct)
    (hcls : cls.fieldNameList = pre ++ fieldName :: post)
    (hpre : decFields env c typ d.refs.length pre (typ.fields.map (fun _ => Value.null))
      (d.appendRefs (Value.record typ.name (typ.fields.map (fun _ => Value.null)))) =
        (Except.ok slots, d1))
    (hf : findField env fieldName typ = Except.ok index)
    (hg : typ.fields.get? index = some field)
    (hs : field.CanSet = true) (hb : field.kind = Kind.bool)
    (hd : Decode c d1 = (Except.ok v, d2)) (hv : ∀ b : Bool, v ≠ Value.bool b) :
    decInstance env c typ cls d =
        (Except.error (Err.panic "interface conversion: interface {} is not bool"), d2) ∧
      (Err.panic "interface conversion: interface {} is not bool").isAbort = true := by
  refine ⟨?_, rfl⟩
  unfold decInstance
  simp only [hk, ne_eq, not_true_eq_false, if_false, hcls, decFields_append, hpre, decFields,
    decField_bool_mismatch env c typ d.refs.length fieldName slots d1 d2 index field v hf hg hs hb
      hd hv]

/-- Witness of C18, the failing input: the class `example.Flag` has the one
field `Ok` of kind bool, and the input holds the int32 0 (byte `0x90`) at its
place. `decInstance` aborts. -/
theorem decInstance_bool_mismatch_aborts_witness :
    Decode Codecs.rejecting
        ((NewDecoder [0x90]).appendRefs (Value.record "main.Flag" [Value.null])) =
      (Except.ok (Value.int32 0),
        { NewDecoder [] with
          lastByte := some 0x90, refs := [Value.record "main.Flag" [Value.null]] }) ∧
    decInstance (DecEnv.basic exampleRegistry) Codecs.rejecting flagType flagCls
        (NewDecoder [0x90]) =
      (Except.error (Err.panic "interface conversion: interface {} is not bool"),
        { NewDecoder [] with
          lastByte := some 0x90, refs := [Value.record "main.Flag" [Value.null]] }) :=
  ⟨rfl,
    (decInstance_bool_mismatch_aborts (DecEnv.basic exampleRegistry) Codecs.rejecting flagType
      flagCls (NewDecoder [0x90]) _ _ [] [] "Ok" [Value.null] 0
      { Name := "Ok", CanSet := true, kind := Kind.bool, typImplementsEnum := false
        rawValid := true, rawTypeName := "bool", rawImplementsEnum := false }
      (Value.int32 0) rfl rfl rfl rfl rfl rfl rfl rfl
      (fun _ h => Value.noConfusion h)).1⟩

/-! ## The two forms of an object instance -/

theorem decInstance_user_at_end (c : Codecs) (t : Byte) (refs : List Value) :
    decInstance (DecEnv.basic exampleRegistry) c userType userCls
        { reader := [], lastByte := some t, refs := refs, classInfoList := [userCls] } =
      match Decode c { reader := [t], lastByte := none
                       refs := refs ++ [Value.record "main.User" [Value.null]]
                       classInfoList := [userCls] } with
      | (Except.error e2, d2) =>
        (Except.error (e2.onReturn (Err.annotated "decInstance->decObject")), d2)
      | (Except.ok s, d2) =>
        (Except.ok (Value.record "main.User" [Value.int32 (int32 (asJavaEnum s))]),
          { d2 with refs := (d2.refs.set refs.length
              (Value.record "main.User" [Value.int32 (int32 (asJavaEnum s))])) }) := by
  unfold decInstance
  have hk : ¬ (userType.kind ≠ Kind.struct) := by decide
  simp only [hk, if_false]
  have hfields : userCls.fieldNameList = ["Sex"] := rfl
  rw [hfields]
  simp only [decFields]
  have hfield : decField (DecEnv.basic exampleRegistry) c userType refs.length "Sex"
      (userType.fields.map (fun _ => Value.null))
      (Decoder.appendRefs
        { reader := [], lastByte := some t, refs := refs, classInfoList := [userCls] }
        (Value.record userType.name (userType.fields.map (fun _ => Value.null)))) =
      match Decode c { reader := [t], lastByte := none
                       refs := refs ++ [Value.record "main.User" [Value.null]]
                       classInfoList := [userCls] } with
      | (Except.error e2, d2) =>
        (Except.error (e2.onReturn (Err.annotated "decInstance->decObject")), d2)
      | (Except.ok s, d2) =>
        (Except.ok [Value.int32 (int32 (asJavaEnum s))],
          { d2 with refs := (d2.refs.set refs.length
              (Value.record "main.User" [Value.int32 (int32 (asJavaEnum s))])) }) := rfl
  rw [hfield]
  rcases Decode c { reader := [t], lastByte := none
                    refs := refs ++ [Value.record "main.User" [Value.null]]
                    classInfoList := [userCls] } with ⟨res, d2⟩
  cases res <;> rfl

theorem decObject_short_user_out_of_fuel (m : DecComposite) (n : Nat) :
    ∀ refs : List Value,
      (decInstance (DecEnv.basic exampleRegistry)
        (codecsAt (DecEnv.basic exampleRegistry) m n) userType userCls
        { reader := [], lastByte := some 0x60, refs := refs, classInfoList := [userCls] }).1 =
        Except.error Err.outOfFuel := by
  induction n with
  | zero =>
    intro refs
    rw [decInstance_user_at_end]
    rfl
  | succ n ih =>
    intro refs
    rw [decInstance_user_at_end]
    have hD : Decode (codecsAt (DecEnv.basic exampleRegistry) m (n + 1))
        { reader := [0x60], lastByte := none
          refs := refs ++ [Value.record "main.User" [Value.null]]
          classInfoList := [userCls] } =
        decInstance (DecEnv.basic exampleRegistry)
          (codecsAt (DecEnv.basic exampleRegistry) m n) userType userCls
          { reader := [], lastByte := some 0x60
            refs := refs ++ [Value.record "main.User" [Value.null]]
            classInfoList := [userCls] } := by
      have h1 := Decode_cons (codecsAt (DecEnv.basic exampleRegistry) m (n + 1))
        { reader := [], lastByte := none
          refs := refs ++ [Value.record "main.User" [Value.null]]
          classInfoList := [userCls] } 0x60 []
      have hd : dispatch 0x60 = Branch.object := by decide
      rw [hd] at h1
      refine h1.trans ?_
      have h2 := decObject_direct (DecEnv.basic exampleRegistry)
        (codecsAt (DecEnv.basic exampleRegistry) m n)
        { reader := [], lastByte := some 0x60
          refs := refs ++ [Value.record "main.User" [Value.null]]
          classInfoList := [userCls] } 0x60 (by decide) (by decide)
      exact h2
    rw [hD]
    have h := ih (refs ++ [Value.record "main.User" [Value.null]])
    rcases hr : decInstance (DecEnv.basic exampleRegistry)
        (codecsAt (DecEnv.basic exampleRegistry) m n) userType userCls
        { reader := [], lastByte := some 0x60
          refs := refs ++ [Value.record "main.User" [Value.null]]
          classInfoList := [userCls] } with ⟨res, d2⟩
    rw [hr] at h
    simp only at h
    subst h
    rfl

/-- C13, refuted: the long and the short form of an object instance do not
always decode alike. The class at index 0 is `example.User`, whose host record
has one field of an enum type of kind int32, and the input ends after the
header. After the short form `0x60` the decoder does not return: the field is
no int32, the byte pushed back by `unreadByte` is the header `0x60` itself, and
`Decode` reads the same instance again, one level deeper each time, so a run
that may nest objects `n` deep is out of fuel for every `n`. After the long form
`O 0x90`, where `0x90` is `encInt32` of the index 0, the byte pushed back is
`0x90`, `Decode` reads the int32 0 and the record is returned with no error. -/
theorem decObject_forms_differ :
    (∀ (m : DecComposite) (n : Nat),
      (decObject (DecEnv.basic exampleRegistry)
        (codecsAt (DecEnv.basic exampleRegistry) m n)
        { NewDecoder [0x60] with classInfoList := [userCls] } TAG_READ).1 =
        Except.error Err.outOfFuel) ∧
    (∀ c : Codecs,
      decObject (DecEnv.basic exampleRegistry) c
        { NewDecoder [0x4f, 0x90] with classInfoList := [userCls] } TAG_READ =
        (Except.ok (Value.record "main.User" [Value.int32 0]),
          { NewDecoder [] with
            lastByte := some 0x90
            refs := [Value.record "main.User" [Value.int32 0]]
            classInfoList := [userCls] })) ∧
    encInt32 [] 0 = [0x90] := by
  refine ⟨?_, ?_, by decide⟩
  · intro m n
    have h : decObject (DecEnv.basic exampleRegistry)
        (codecsAt (DecEnv.basic exampleRegistry) m n)
        { NewDecoder [0x60] with classInfoList := [userCls] } TAG_READ =
        decInstance (DecEnv.basic exampleRegistry)
          (codecsAt (DecEnv.basic exampleRegistry) m n) userType userCls
          { reader := [], lastByte := some 0x60, refs := [], classInfoList := [userCls] } := rfl
    rw [h]
    exact decObject_short_user_out_of_fuel m n []
  · intro c
    rfl

/-! ## The reference table while an instance is decoded -/

theorem Building_facts (base : List Value) (typ : GoType) (slots : List Value) (d : Decoder)
    (h : Building base typ slots d) :
    base.length + 1 ≤ d.refs.length ∧
      d.refs.get? base.length = some (Value.record typ.name slots) ∧
      d.refs.take base.length = base := by
  obtain ⟨t, ht⟩ := h
  rw [← ht]
  refine ⟨?_, ?_, ?_⟩
  · simp only [List.length_append, List.length_singleton]
    omega
  · rw [List.append_assoc, List.get?_eq_getElem?, List.getElem?_append_right (le_refl _)]
    simp
  · simp [List.take_append_eq_append_take]

theorem Building_mono (base : List Value) (typ : GoType) (slots : List Value) (d d1 : Decoder)
    (h : d.refs <+: d1.refs) (hB : Building base typ slots d) : Building base typ slots d1 :=
  List.IsPrefix.trans hB h

theorem Building_set (base : List Value) (typ : GoType) (slots slots1 : List Value)
    (d : Decoder) (hB : Building base typ slots d) :
    Building base typ slots1
      { d with refs := d.refs.set base.length (Value.record typ.name slots1) } := by
  obtain ⟨t, ht⟩ := hB
  refine ⟨t, ?_⟩
  show _ = List.set d.refs base.length _
  rw [← ht]
  simp [List.set_append]

theorem Decode_keeps_refs (c : Codecs) (hc : c.KeepRefs) (d : Decoder) :
    d.refs <+: (Decode c d).2.refs := by
  have hr := (readByte_tables d).1
  have key : ∀ f : Decoder → Int → Except Err Value × Decoder, KeepsRefs f →
      ∀ x : Int, d.refs <+: (f d.readByte.2 x).2.refs := by
    intro f hf x
    have := hf d.readByte.2 x
    rwa [hr] at this
  unfold Decode
  simp only
  split
  · rw [hr]
  · split
    · rw [hr]
    · rw [hr]
    · rw [hr]
    · rw [hr]
    · exact key _ hc.decRef _
    · rw [(decInt32_tables _ _).1, hr]
    · exact key _ hc.decInt64 _
    · exact key _ hc.decDate _
    · exact key _ hc.decDouble _
    · exact key _ hc.decString _
    · exact key _ hc.decBinary _
    · exact key _ hc.decList _
    · exact key _ hc.decMap _
    · exact key _ hc.decObject _
    · show d.refs <+: d.readByte.2.refs
      rw [hr]

theorem Building_Decode (base : List Value) (typ : GoType) (slots : List Value)
    (c : Codecs) (d d1 : Decoder) (res : Except Err Value)
    (h : Decode c d = (res, d1)) (hc : c.KeepRefs) (hB : Building base typ slots d) :
    Building base typ slots d1 := by
  have := Decode_keeps_refs c hc d
  rw [h] at this
  exact Building_mono base typ slots d d1 this hB

theorem Building_codec (base : List Value) (typ : GoType) (slots : List Value)
    (f : Decoder → Int → Except Err Value × Decoder) (d d1 : Decoder) (x : Int)
    (res : Except Err Value)
    (h : f d x = (res, d1)) (hf : KeepsRefs f) (hB : Building base typ slots d) :
    Building base typ slots d1 := by
  have := hf d x
  rw [h] at this
  exact Building_mono base typ slots d d1 this hB

theorem Building_decMapByValue (base : List Value) (typ : GoType) (slots : List Value)
    (env : DecEnv) (d d1 : Decoder) (field : StructField) (res : Except Err Value)
    (h : env.decMapByValue d field = (res, d1))
    (hm : ∀ (d : Decoder) (f : StructField), d.refs <+: (env.decMapByValue d f).2.refs)
    (hB : Building base typ slots d) : Building base typ slots d1 := by
  have := hm d field
  rw [h] at this
  exact Building_mono base typ slots d d1 this hB

theorem Building_decInt32 (base : List Value) (typ : GoType) (slots : List Value)
    (d d1 : Decoder) (x : Int) (res : Except Err Int)
    (h : decInt32 d x = (res, d1)) (hB : Building base typ slots d) :
    Building base typ slots d1 := by
  have := (decInt32_tables d x).1
  rw [h] at this
  exact Building_mono base typ slots d d1 (by rw [this]) hB

theorem Building_onReader {α : Type} (base : List Value) (typ : GoType) (slots : List Value)
    (d d1 : Decoder) (f : ReaderCodec α) (x : Int) (res : Except Err α)
    (h : d.onReader f x = (res, d1)) (hB : Building base typ slots d) :
    Building base typ slots d1 := by
  have := (onReader_tables d f x).1
  rw [h] at this
  exact Building_mono base typ slots d d1 (by rw [this]) hB

theorem Building_unreadByte (base : List Value) (typ : GoType) (slots : List Value)
    (d : Decoder) (hB : Building base typ slots d) : Building base typ slots d.unreadByte := by
  unfold Decoder.unreadByte
  split <;> exact hB

theorem Built_error (base : List Value) (typ : GoType) (slots : List Value) (e : Err)
    (d : Decoder) (hB : Building base typ slots d) :
    Built base typ slots (Except.error e, d) := hB

theorem Built_ok (base : List Value) (typ : GoType) (slots : List Value)
    (d : Decoder) (hB : Building base typ slots d) :
    Built base typ slots (Except.ok slots, d) := hB

theorem Built_assignField (base : List Value) (typ : GoType) (slots : List Value)
    (index : Nat) (v : Value) (d : Decoder) (hB : Building base typ slots d) :
    Built base typ slots (assignField typ base.length index v slots d) :=
  Building_set base typ slots (slots.set index v) d hB

theorem Built_setRaw (base : List Value) (typ : GoType) (slots : List Value)
    (field : StructField) (index : Nat) (v : Value) (d : Decoder)
    (hB : Building base typ slots d) :
    Built base typ slots (setRaw field typ base.length index v slots d) := by
  unfold setRaw
  split
  · exact Built_assignField base typ slots index v d hB
  · exact hB

theorem decField_Built (env : DecEnv) (c : Codecs) (typ : GoType) (base : List Value)
    (fieldName : String) (slots : List Value) (d : Decoder) (hc : c.KeepRefs)
    (hm : ∀ (d : Decoder) (f : StructField), d.refs <+: (env.decMapByValue d f).2.refs)
    (hB : Building base typ slots d) :
    Built base typ slots (decField env c typ base.length fieldName slots d) := by
  unfold decField
  repeat' split
  all_goals
    first
    | refine Built_error base typ slots _ _ ?_
    | refine Built_ok base typ slots _ ?_
    | refine Built_setRaw base typ slots _ _ _ _ ?_
    | refine Built_assignField base typ slots _ _ _ ?_
  all_goals
    repeat
      first
      | exact hB
      | refine Building_unreadByte base typ slots _ ?_
      | refine Building_Decode base typ slots c _ _ _ (by assumption) hc ?_
      | refine Building_decInt32 base typ slots _ _ _ _ (by assumption) ?_
      | refine Building_onReader base typ slots _ _ _ _ _ (by assumption) ?_
      | refine Building_decMapByValue base typ slots env _ _ _ _ (by assumption) hm ?_
      | refine Building_codec base typ slots _ _ _ _ _ (by assumption) hc.decDouble ?_
      | refine Building_codec base typ slots _ _ _ _ _ (by assumption) hc.decList ?_
      | refine Building_codec base typ slots _ _ _ _ _ (by assumption) hc.decDate ?_
      | refine Building_codec base typ slots _ _ _ _ _ (by assumption) hc.decObject ?_

theorem decFields_Building (env : DecEnv) (c : Codecs) (typ : GoType) (base : List Value)
    (hc : c.KeepRefs)
    (hm : ∀ (d : Decoder) (f : StructField), d.refs <+: (env.decMapByValue d f).2.refs)
    (names : List String) (slots : List Value) (d : Decoder)
    (hB : Building base typ slots d) :
    ∃ slots1 : List Value,
      Building base typ slots1 (decFields env c typ base.length names slots d).2 ∧
      ∀ s : List Value,
        (decFields env c typ base.length names slots d).1 = Except.ok s → s = slots1 := by
  induction names generalizing slots d with
  | nil =>
    refine ⟨slots, hB, ?_⟩
    intro s hs
    simp only [decFields, Except.ok.injEq] at hs
    exact hs.symm
  | cons f more ih =>
    have h2 := decField_Built env c typ base f slots d hc hm hB
    simp only [decFields]
    rcases hr : decField env c typ base.length f slots d with ⟨res, d1⟩
    rw [hr] at h2
    cases res with
    | error e =>
      refine ⟨slots, h2, ?_⟩
      intro s hs
      simp only at hs
      exact absurd hs (by simp)
    | ok slots1 => exact ih slots1 d1 h2

theorem decInstance_Building (env : DecEnv) (c : Codecs) (typ : GoType) (cls : classInfo)
    (d : Decoder) (hk : typ.kind = Kind.struct) (hc : c.KeepRefs)
    (hm : ∀ (d : Decoder) (f : StructField), d.refs <+: (env.decMapByValue d f).2.refs) :
    ∃ slots : List Value,
      Building d.refs typ slots (decInstance env c typ cls d).2 ∧
      ∀ v : Value, (decInstance env c typ cls d).1 = Except.ok v →
        v = Value.record typ.name slots := by
  have h0 : Building d.refs typ (typ.fields.map (fun _ => Value.null))
      (d.appendRefs (Value.record typ.name (typ.fields.map (fun _ => Value.null)))) :=
    List.prefix_refl _
  obtain ⟨slots, hB, hs⟩ := decFields_Building env c typ d.refs hc hm cls.fieldNameList _ _ h0
  refine ⟨slots, ?_, ?_⟩
  · unfold decInstance
    simp only [hk, ne_eq, not_true_eq_false, if_false]
    rcases hr : decFields env c typ d.refs.length cls.fieldNameList
      (typ.fields.map (fun _ => Value.null))
      (d.appendRefs (Value.record typ.name (typ.fields.map (fun _ => Value.null))))
      with ⟨res, d1⟩
    rw [hr] at hB
    cases res <;> exact hB
  · intro v
    unfold decInstance
    simp only [hk, ne_eq, not_true_eq_false, if_false]
    rcases hr : decFields env c typ d.refs.length cls.fieldNameList
      (typ.fields.map (fun _ => Value.null))
      (d.appendRefs (Value.record typ.name (typ.fields.map (fun _ => Value.null))))
      with ⟨res, d1⟩
    rw [hr] at hs
    cases res with
    | error e => intro h; exact absurd h (by simp)
    | ok s =>
      intro h
      simp only [Except.ok.injEq] at h
      rw [← h, hs s rfl]

theorem decInstance_keeps_refs (env : DecEnv) (c : Codecs) (typ : GoType) (cls : classInfo)
    (d : Decoder) (hc : c.KeepRefs)
    (hm : ∀ (d : Decoder) (f : StructField), d.refs <+: (env.decMapByValue d f).2.refs) :
    d.refs <+: (decInstance env c typ cls d).2.refs := by
  by_cases hk : typ.kind = Kind.struct
  · obtain ⟨slots, hB, _⟩ := decInstance_Building env c typ cls d hk hc hm
    exact List.IsPrefix.trans (List.prefix_append _ _) hB
  · unfold decInstance
    simp only [ne_eq, hk, not_false_eq_true, if_true]
    exact List.prefix_refl _

theorem decFieldNames_tables (env : DecEnv) (n : Nat) (acc : List String) (d : Decoder) :
    (decFieldNames env n acc d).2.refs = d.refs := by
  induction n generalizing acc d with
  | zero => rfl
  | succ n ih =>
    simp only [decFieldNames]
    rcases hr : d.onReader env.decString TAG_READ with ⟨res, d1⟩
    have ht := (onReader_tables d env.decString TAG_READ).1
    rw [hr] at ht
    cases res with
    | error e => exact ht
    | ok s => exact (ih _ d1).trans ht

theorem decClassDef_tables (env : DecEnv) (d : Decoder) :
    (decClassDef env d).2.refs = d.refs := by
  unfold decClassDef
  rcases hr : d.onReader env.decString TAG_READ with ⟨res, d1⟩
  have ht := (onReader_tables d env.decString TAG_READ).1
  rw [hr] at ht
  cases res with
  | error e => exact ht
  | ok s =>
    simp only
    rcases hr2 : decInt32 d1 TAG_READ with ⟨res2, d2⟩
    have ht2 := (decInt32_tables d1 TAG_READ).1
    rw [hr2] at ht2
    cases res2 with
    | error e => exact ht2.trans ht
    | ok k =>
      simp only
      split
      · exact ht2.trans ht
      · rcases hr3 : decFieldNames env k.toNat [] d2 with ⟨res3, d3⟩
        have ht3 := decFieldNames_tables env k.toNat [] d2
        rw [hr3] at ht3
        cases res3 with
        | error e => exact ht3.trans (ht2.trans ht)
        | ok l => exact ht3.trans (ht2.trans ht)

theorem decEnum_keeps_refs (env : DecEnv) (d : Decoder) (javaName : String) (flag : Int) :
    d.refs <+: (decEnum env d javaName flag).2.refs := by
  unfold decEnum
  rcases hr : d.onReader env.decString TAG_READ with ⟨res, d1⟩
  have ht := (onReader_tables d env.decString TAG_READ).1
  rw [hr] at ht
  cases res with
  | error e => rw [show d1.refs = _ from ht]
  | ok s =>
    simp only
    split
    · rw [show d1.refs = _ from ht]
    · split
      · rw [show d1.refs = _ from ht]
      · show d.refs <+: d1.refs ++ _
        rw [show d1.refs = _ from ht]
        exact List.prefix_append _ _

theorem decObject_keeps_refs (env : DecEnv) (c : Codecs) (hc : c.KeepRefs)
    (hm : ∀ (d : Decoder) (f : StructField), d.refs <+: (env.decMapByValue d f).2.refs) :
    KeepsRefs (decObject env c) := by
  intro d flag
  have key : ∀ (t : Byte) (d0 : Decoder), d0.refs = d.refs →
      d.refs <+: (decObject env c d0 (t.val : Int)).2.refs := by
    intro t d0 h0
    rw [← h0]
    unfold decObject
    simp only [flag_ne_TAG_READ, byte_cast, ne_eq, not_false_eq_true, if_true]
    split
    · exact List.prefix_refl _
    · split
      · exact hc.decRef d0 _
      · split
        · rcases hr : decClassDef env d0 with ⟨res, d1⟩
          have ht := decClassDef_tables env d0
          rw [hr] at ht
          cases res with
          | error e => rw [show d1.refs = _ from ht]
          | ok cls =>
            simp only
            have := Decode_keeps_refs c hc (d1.appendClsDef cls)
            rw [show (d1.appendClsDef cls).refs = d0.refs from ht] at this
            exact this
        · split
          · rcases hr : decInt32 d0 TAG_READ with ⟨res, d1⟩
            have ht := (decInt32_tables d0 TAG_READ).1
            rw [hr] at ht
            cases res with
            | error e => rw [show d1.refs = _ from ht]
            | ok idx =>
              simp only
              rw [← show d1.refs = d0.refs from ht]
              split
              · exact List.prefix_refl _
              · split
                · exact decEnum_keeps_refs env d1 _ _
                · exact decInstance_keeps_refs env c _ _ d1 hc hm
          · split
            · split
              · exact List.prefix_refl _
              · split
                · exact decEnum_keeps_refs env d0 _ _
                · exact decInstance_keeps_refs env c _ _ d0 hc hm
            · exact List.prefix_refl _
  by_cases hf : flag ≠ TAG_READ
  · have h1 : decObject env c d flag = decObject env c d ((byte flag).val : Int) := by
      unfold decObject
      simp only [hf, flag_ne_TAG_READ, byte_cast, ne_eq, not_false_eq_true, if_true]
    rw [h1]
    exact key (byte flag) d rfl
  · have hf2 : flag = TAG_READ := by simpa using hf
    subst hf2
    rcases hr : d.reader with _ | ⟨t, rest⟩
    · have h1 : decObject env c d TAG_READ = decObject env c d ((0 : Byte).val : Int) := by
        unfold decObject
        simp only [flag_ne_TAG_READ, byte_cast, ne_eq, not_false_eq_true, if_true,
          not_true_eq_false, if_false, Decoder.readByte, hr]
      rw [h1]
      exact key 0 d rfl
    · rw [Decoder.eta d _ hr, decObject_read]
      exact key t _ rfl

theorem codecsAt_KeepRefs (env : DecEnv) (m : DecComposite)
    (h0 : (codecsAt env m 0).KeepRefs)
    (hm : ∀ (d : Decoder) (f : StructField), d.refs <+: (env.decMapByValue d f).2.refs)
    (n : Nat) : (codecsAt env m n).KeepRefs := by
  induction n with
  | zero => exact h0
  | succ n ih =>
    exact
      { decRef := h0.decRef, decInt64 := h0.decInt64, decDate := h0.decDate
        decDouble := h0.decDouble, decString := h0.decString, decBinary := h0.decBinary
        decList := h0.decList, decMap := h0.decMap
        decObject := decObject_keeps_refs env (codecsAt env m n) ih hm }

theorem codecsAt_absent_KeepRefs (env : DecEnv) (a : DecAbsent) (n : Nat) :
    (codecsAt (env.over a) a.composite n).KeepRefs :=
  codecsAt_KeepRefs (env.over a) a.composite
    { decRef := fun _ _ => List.prefix_append _ _
      decInt64 := fun _ _ => List.prefix_refl _
      decDate := fun _ _ => List.prefix_append _ _
      decDouble := fun _ _ => List.prefix_append _ _
      decString := fun _ _ => List.prefix_refl _
      decBinary := fun _ _ => List.prefix_append _ _
      decList := fun _ _ => List.prefix_append _ _
      decMap := fun _ _ => List.prefix_append _ _
      decObject := fun _ _ => List.prefix_refl _ }
    (fun _ _ => List.prefix_append _ _) n

/-- C20: records enter the reference table before their fields. For every
decoder state and every struct type, `decInstance` appends the record, with
every field zero, at the index that is the length `r` of the reference table,
and only then runs the loop over the fields. At the start of each round of the
loop the table has at least `r + 1` entries, entry `r` is the record with the
fields assigned so far, and the entries `0..r-1` are those of the start; this
is also the table `decInstance` leaves at its end, whether it returns the
record or the error of a field. The run may nest objects `n` deep, for every
`n`; the codecs whose sources are not at hand are taken as the spec has them:
with any result, and appending to the table only. -/
theorem decInstance_record_enters_refs (env : DecEnv) (a : DecAbsent) (n : Nat)
    (typ : GoType) (cls : classInfo) (d : Decoder) (hk : typ.kind = Kind.struct) :
    (decInstance (env.over a) (codecsAt (env.over a) a.composite n) typ cls d =
      match decFields (env.over a) (codecsAt (env.over a) a.composite n) typ d.refs.length
          cls.fieldNameList (typ.fields.map (fun _ => Value.null))
          (d.appendRefs (Value.record typ.name (typ.fields.map (fun _ => Value.null)))) with
      | (Except.error e, d1) => (Except.error e, d1)
      | (Except.ok slots, d1) => (Except.ok (Value.record typ.name slots), d1)) ∧
    (d.appendRefs (Value.record typ.name (typ.fields.map (fun _ => Value.null)))).refs =
      d.refs ++ [Value.record typ.name (typ.fields.map (fun _ => Value.null))] ∧
    (∀ (pre : List String) (fieldName : String) (post : List String) (slots : List Value)
        (d1 : Decoder),
      cls.fieldNameList = pre ++ fieldName :: post →
      decFields (env.over a) (codecsAt (env.over a) a.composite n) typ d.refs.length pre
          (typ.fields.map (fun _ => Value.null))
          (d.appendRefs (Value.record typ.name (typ.fields.map (fun _ => Value.null)))) =
        (Except.ok slots, d1) →
      d.refs.length + 1 ≤ d1.refs.length ∧
        d1.refs.get? d.refs.length = some (Value.record typ.name slots) ∧
        d1.refs.take d.refs.length = d.refs) ∧
    (∃ slots : List Value,
      d.refs.length + 1 ≤
        (decInstance (env.over a) (codecsAt (env.over a) a.composite n) typ cls d).2.refs.length ∧
      (decInstance (env.over a) (codecsAt (env.over a) a.composite n) typ cls d).2.refs.get?
          d.refs.length = some (Value.record typ.name slots) ∧
      (decInstance (env.over a) (codecsAt (env.over a) a.composite n) typ cls d).2.refs.take
          d.refs.length = d.refs ∧
      ∀ v : Value,
        (decInstance (env.over a) (codecsAt (env.over a) a.composite n) typ cls d).1 =
          Except.ok v → v = Value.record typ.name slots) := by
  have hc := codecsAt_absent_KeepRefs env a n
  have hm : ∀ (d : Decoder) (f : StructField),
      d.refs <+: ((env.over a).decMapByValue d f).2.refs := fun _ _ => List.prefix_append _ _
  have h0 : Building d.refs typ (typ.fields.map (fun _ => Value.null))
      (d.appendRefs (Value.record typ.name (typ.fields.map (fun _ => Value.null)))) :=
    List.prefix_refl _
  refine ⟨?_, rfl, ?_, ?_⟩
  · unfold decInstance
    simp only [hk, ne_eq, not_true_eq_false, if_false]
  · intro pre _ _ slots d1 _ hpre
    obtain ⟨slots1, hB, hs⟩ := decFields_Building (env.over a) _ typ d.refs hc hm pre _ _ h0
    rw [hpre] at hB hs
    rw [hs slots rfl]
    exact Building_facts d.refs typ slots1 d1 hB
  · obtain ⟨slots, hB, hv⟩ := decInstance_Building (env.over a) _ typ cls d hk hc hm
    have hf := Building_facts d.refs typ slots _ hB
    exact ⟨slots, hf.1, hf.2.1, hf.2.2, hv⟩

/-- Witness of C20: the class `example.Team` has the fields `Members`, a
slice, and `Size`, an int32; the reference table holds one entry and the input
holds the empty list and then null. The record enters the table at index 1,
the list codec appends the empty list at index 2 and the field `Members` is
assigned; the field `Size` fails, and the table `decInstance` leaves holds the
entry of the start, the record with its one field assigned and the list. -/
theorem decInstance_record_enters_refs_witness :
    (decInstance ((DecEnv.basic exampleRegistry).over DecAbsent.emptyLists)
        (codecsAt ((DecEnv.basic exampleRegistry).over DecAbsent.emptyLists)
          DecAbsent.emptyLists.composite 1) teamType teamCls
        { NewDecoder [0x78, 0x4e] with refs := [Value.int32 7] }) =
      (Except.error (Err.annotated "decInstance->ParseInt" (Err.wrongTag 0x4e)),
        { NewDecoder [] with
          lastByte := some 0x4e
          refs := [Value.int32 7, Value.record "main.Team" [Value.list [], Value.null],
            Value.list []] }) ∧
    ∃ slots : List Value,
      1 + 1 ≤ (decInstance ((DecEnv.basic exampleRegistry).over DecAbsent.emptyLists)
        (codecsAt ((DecEnv.basic exampleRegistry).over DecAbsent.emptyLists)
          DecAbsent.emptyLists.composite 1) teamType teamCls
        { NewDecoder [0x78, 0x4e] with refs := [Value.int32 7] }).2.refs.length ∧
      (decInstance ((DecEnv.basic exampleRegistry).over DecAbsent.emptyLists)
        (codecsAt ((DecEnv.basic exampleRegistry).over DecAbsent.emptyLists)
          DecAbsent.emptyLists.composite 1) teamType teamCls
        { NewDecoder [0x78, 0x4e] with refs := [Value.int32 7] }).2.refs.get? 1 =
          some (Value.record "main.Team" slots) ∧
      (decInstance ((DecEnv.basic exampleRegistry).over DecAbsent.emptyLists)
        (codecsAt ((DecEnv.basic exampleRegistry).over DecAbsent.emptyLists)
          DecAbsent.emptyLists.composite 1) teamType teamCls
        { NewDecoder [0x78, 0x4e] with refs := [Value.int32 7] }).2.refs.take 1 =
          [Value.int32 7] ∧
      ∀ v : Value, (decInstance ((DecEnv.basic exampleRegistry).over DecAbsent.emptyLists)
        (codecsAt ((DecEnv.basic exampleRegistry).over DecAbsent.emptyLists)
          DecAbsent.emptyLists.composite 1) teamType teamCls
        { NewDecoder [0x78, 0x4e] with refs := [Value.int32 7] }).1 = Except.ok v →
          v = Value.record "main.Team" slots :=
  ⟨rfl,
    (decInstance_record_enters_refs (DecEnv.basic exampleRegistry) DecAbsent.emptyLists 1
      teamType teamCls { NewDecoder [0x78, 0x4e] with refs := [Value.int32 7] } rfl).2.2.2⟩

/-! ## The order of the cases of `Decode` -/

set_option maxRecDepth 100000 in
theorem dispatch_long_short :
    ∀ t : Byte, 0x38 ≤ t.val ∧ t.val ≤ 0x3f → dispatch t = Branch.int64 := by
  decide

set_option maxRecDepth 100000 in
theorem dispatch_binary_medium :
    ∀ t : Byte, 0x34 ≤ t.val ∧ t.val ≤ 0x37 → dispatch t = Branch.binary := by
  decide

set_option maxRecDepth 100000 in
theorem binary_condition_of_long_short :
    ∀ t : Byte, 0x38 ≤ t.val ∧ t.val ≤ 0x3f →
      (t = BC_BINARY ∨ t = BC_BINARY_CHUNK ∨ (t ≥ 0x20 ∧ t ≤ 0x2f) ∨
        (t ≥ BC_BINARY_SHORT ∧ t ≤ 0x3f)) := by
  decide

/-- C21: `Decode` hands the tags `0x38..0x3f` to the int64 codec and the tags
`0x34..0x37` to the binary codec. For every first byte `t` in `0x38..0x3f` the
case selected is that of int64 and `Decode` returns what `decInt64` returns for
the tag `t`, for every behaviour of the codecs, although the condition of the
binary case holds for these tags too: the int64 case comes first in the
`switch`. For every `t` in `0x34..0x37` the case selected is that of binary
and `Decode` returns what `decBinary` returns. With codecs that answer by
their name, the tag `0x38` gets the answer of `decInt64` and `0x34` that of
`decBinary`. -/
theorem Decode_long_before_binary (c : Codecs) (d : Decoder) (t : Byte) (rest : List Byte) :
    (0x38 ≤ t.val ∧ t.val ≤ 0x3f →
      dispatch t = Branch.int64 ∧ dispatch t ≠ Branch.binary ∧
      Decode c { d with reader := t :: rest } =
        c.decInt64 { d with reader := rest, lastByte := some t } t.val ∧
      (t = BC_BINARY ∨ t = BC_BINARY_CHUNK ∨ (t ≥ 0x20 ∧ t ≤ 0x2f) ∨
        (t ≥ BC_BINARY_SHORT ∧ t ≤ 0x3f))) ∧
    (0x34 ≤ t.val ∧ t.val ≤ 0x37 →
      dispatch t = Branch.binary ∧
      Decode c { d with reader := t :: rest } =
        c.decBinary { d with reader := rest, lastByte := some t } t.val) ∧
    (Decode Codecs.rejecting (NewDecoder [0x38])).1 = Except.error (Err.other "decInt64") ∧
    (Decode Codecs.rejecting (NewDecoder [0x34])).1 = Except.error (Err.other "decBinary") := by
  refine ⟨?_, ?_, rfl, rfl⟩
  · intro h
    have hd := dispatch_long_short t h
    refine ⟨hd, ?_, ?_, binary_condition_of_long_short t h⟩
    · rw [hd]; decide
    · rw [Decode_cons, hd]
  · intro h
    have hd := dispatch_binary_medium t h
    refine ⟨hd, ?_⟩
    rw [Decode_cons, hd]

/-! ## The two entry points of `decInt32` -/

theorem decInt32_lastByte (d : Decoder) (l : Option Byte) (t : Byte) :
    (decInt32 { d with lastByte := l } (t.val : Int)).1 = (decInt32 d (t.val : Int)).1 ∧
    (decInt32 { d with lastByte := l } (t.val : Int)).2.reader =
      (decInt32 d (t.val : Int)).2.reader := by
  rw [decInt32_flag, decInt32_flag]
  simp only
  repeat' split
  all_goals exact ⟨rfl, rfl⟩

/-- C22: the two entry points of the int32 codec agree. For every byte `t` and
every `rest`, `decInt32(TAG_READ)` on the input `t` followed by `rest` and
`decInt32(int32(t))` on the input `rest` return the same value or the same
error and leave the same unread input and the same tables; the first is the
second in the state in which `t` has just been read. No tag `int32(t)`, that of
`0xff` included, is the marker `TAG_READ`. -/
theorem decInt32_entry_points_agree (d : Decoder) (t : Byte) (rest : List Byte) :
    (decInt32 { d with reader := t :: rest } TAG_READ).1 =
      (decInt32 { d with reader := rest } (t.val : Int)).1 ∧
    (decInt32 { d with reader := t :: rest } TAG_READ).2.reader =
      (decInt32 { d with reader := rest } (t.val : Int)).2.reader ∧
    (decInt32 { d with reader := t :: rest } TAG_READ).2.refs =
      (decInt32 { d with reader := rest } (t.val : Int)).2.refs ∧
    (decInt32 { d with reader := t :: rest } TAG_READ).2.classInfoList =
      (decInt32 { d with reader := rest } (t.val : Int)).2.classInfoList ∧
    decInt32 { d with reader := t :: rest } TAG_READ =
      decInt32 { d with reader := rest, lastByte := some t } (t.val : Int) ∧
    (t.val : Int) ≠ TAG_READ ∧ (((0xff : Byte).val : Int) = 255 ∧ TAG_READ = -1) := by
  have h := decInt32_read d t rest
  have hl := decInt32_lastByte { d with reader := rest } (some t) t
  have t1 := decInt32_tables { d with reader := rest, lastByte := some t } (t.val : Int)
  have t2 := decInt32_tables { d with reader := rest } (t.val : Int)
  refine ⟨?_, ?_, ?_, ?_, h, flag_ne_TAG_READ t, rfl, rfl⟩
  · rw [h]; exact hl.1
  · rw [h]; exact hl.2
  · rw [h, t1.1, t2.1]
  · rw [h, t1.2, t2.2]

/-! ## The class-def table of the encoder -/

theorem KeepsClasses_of_same {α : Type} (f : Encoder → α → EncOutcome)
    (h : ∀ (e : Encoder) (x : α) (err : Option Err) (e1 : Encoder),
      f e x = EncOutcome.returned err e1 → e1.classInfoList = e.classInfoList) :
    KeepsClasses f := by
  intro e x err e1 hf
  rw [h e x err e1 hf]
  exact ⟨List.prefix_refl _, id⟩

theorem Encode_KeepsClasses (h : Encoders) (hh : h.KeepClasses) : KeepsClasses (Encode h) := by
  have same : ∀ (e : Encoder) (b : List Byte) (err err1 : Option Err) (e1 : Encoder),
      EncOutcome.returned err { e with buffer := b } = EncOutcome.returned err1 e1 →
      e.classInfoList <+: e1.classInfoList ∧
        ((e.classInfoList.map (fun ci => ci.javaName)).Nodup →
          (e1.classInfoList.map (fun ci => ci.javaName)).Nodup) := by
    intro e b err err1 e1 hf
    simp only [EncOutcome.returned.injEq] at hf
    rw [← hf.2]
    exact ⟨List.prefix_refl _, id⟩
  have same0 : ∀ (e : Encoder) (err err1 : Option Err) (e1 : Encoder),
      EncOutcome.returned err e = EncOutcome.returned err1 e1 →
      e.classInfoList <+: e1.classInfoList ∧
        ((e.classInfoList.map (fun ci => ci.javaName)).Nodup →
          (e1.classInfoList.map (fun ci => ci.javaName)).Nodup) := by
    intro e err err1 e1 hf
    simp only [EncOutcome.returned.injEq] at hf
    rw [← hf.2]
    exact ⟨List.prefix_refl _, id⟩
  intro e v err e1 hf
  unfold Encode at hf
  cases v with
  | int8 x => simp [GoValue.assertInt32] at hf
  | int16 x => simp [GoValue.assertInt32] at hf
  | ifaceMap kvs => exact hh.encUntypedMap e kvs err e1 hf
  | other t =>
    simp only at hf
    split at hf
    · split at hf
      · exact hh.encObject e _ err e1 hf
      · exact same0 e _ err e1 hf
    · exact hh.encUntypedList e _ err e1 hf
    · exact hh.encUntypedList e _ err e1 hf
    · exact hh.encMap e _ err e1 hf
    · split at hf
      · exact hh.encObject e _ err e1 hf
      · exact same0 e _ err e1 hf
  | _ => exact same e _ _ err e1 hf

theorem encFields_KeepsClasses (h : Encoders) (hh : h.KeepClasses) :
    KeepsClasses (fun e fs => encFields h fs e) := by
  intro e fs
  induction fs generalizing e with
  | nil =>
    intro err e1 hf
    simp only [encFields, EncOutcome.returned.injEq] at hf
    rw [← hf.2]
    exact ⟨List.prefix_refl _, id⟩
  | cons f more ih =>
    intro err e1 hf
    rcases f with ⟨n, _ | fv⟩
    · simp [encFields] at hf
    · simp only [encFields] at hf
      rcases hE : Encode h e fv with ⟨_ | err2, e2⟩ | _
      · rw [hE] at hf
        simp only at hf
        have h1 := Encode_KeepsClasses h hh e fv none e2 hE
        have h2 := ih e2 err e1 hf
        exact ⟨List.IsPrefix.trans h1.1 h2.1, fun hn => h2.2 (h1.2 hn)⟩
      · rw [hE] at hf
        simp only [EncOutcome.returned.injEq] at hf
        rw [← hf.2]
        exact Encode_KeepsClasses h hh e fv (some err2) e2 hE
      · rw [hE] at hf
        simp at hf

theorem encObjectValues_KeepsClasses (env : EncEnv) (h : Encoders) (hh : h.KeepClasses) :
    KeepsClasses (encObjectValues env h) := by
  intro e v err e1 hf
  unfold encObjectValues at hf
  split at hf
  · simp only [EncOutcome.returned.injEq] at hf
    rw [← hf.2]
    exact ⟨List.prefix_refl _, id⟩
  · split at hf
    · simp at hf
    · exact encFields_KeepsClasses h hh e _ err e1 hf

theorem encObject_keeps_classes (env : EncEnv) (h : Encoders) (e : Encoder) (v : GoValue)
    (hreg : (registryClsDef env v).javaName = env.JavaClassName v) (hh : h.KeepClasses)
    (err : Option Err) (e1 : Encoder) (hf : encObject env h e v = EncOutcome.returned err e1) :
    e.classInfoList <+: e1.classInfoList ∧
      ((e.classInfoList.map (fun ci => ci.javaName)).Nodup →
        (e1.classInfoList.map (fun ci => ci.javaName)).Nodup) := by
  rcases hr : (env.checkRefMap e.refMap v).1 with _ | n
  · cases hn : env.isNilPointer v with
    | true =>
      unfold encObject at hf
      rcases hm : env.checkRefMap e.refMap v with ⟨n, m⟩
      rw [hm] at hr hf
      simp only at hr
      subst hr
      simp only [hn, if_true, EncOutcome.returned.injEq] at hf
      rw [← hf.2]
      exact ⟨List.prefix_refl _, id⟩
    | false =>
      rcases hc : classIndexFrom (env.JavaClassName v) e.classInfoList 0 with _ | i
      · rw [encObject_new env h e v hr hn hc] at hf
        have h1 := encObjectValues_KeepsClasses env h hh _ v err e1 hf
        simp only at h1
        refine ⟨List.IsPrefix.trans (List.prefix_append _ _) h1.1, fun hnd => h1.2 ?_⟩
        rw [List.map_append, List.nodup_append]
        refine ⟨hnd, List.nodup_singleton _, ?_⟩
        intro a ha hb
        simp only [List.map_cons, List.map_nil, List.mem_singleton] at hb
        obtain ⟨ci, hci, hname⟩ := List.mem_map.mp ha
        have hne := (classIndexFrom_none _ _ 0).mp hc ci hci
        exact hne (by rw [hname, hb, hreg])
      · rw [encObject_known env h e v i hr hn hc] at hf
        exact encObjectValues_KeepsClasses env h hh
          { e with
            refMap := (env.checkRefMap e.refMap v).2
            buffer := encObjectHeader e.buffer i } v err e1 hf
  · unfold encObject at hf
    rcases hm : env.checkRefMap e.refMap v with ⟨n1, m⟩
    rw [hm] at hr hf
    simp only at hr
    subst hr
    simp only [EncOutcome.returned.injEq] at hf
    rw [← hf.2]
    exact ⟨List.prefix_refl _, id⟩

theorem encObject_KeepsClasses (env : EncEnv) (h : Encoders)
    (hreg : ∀ v : GoValue, (registryClsDef env v).javaName = env.JavaClassName v)
    (hh : h.KeepClasses) :
    Encoders.KeepClasses { h with encObject := encObject env h } :=
  { encUntypedMap := hh.encUntypedMap
    encUntypedList := hh.encUntypedList
    encMap := hh.encMap
    encObject := fun e v err e1 hf => encObject_keeps_classes env h e v (hreg v) hh err e1 hf }

theorem runSteps_KeepsClasses (enc : Encoder → GoValue → EncOutcome) (henc : KeepsClasses enc)
    (steps : List EncStep) (e : Encoder) (err : Option Err) (e1 : Encoder)
    (hf : runSteps enc steps e = EncOutcome.returned err e1) :
    e.classInfoList <+: e1.classInfoList ∧
      ((e.classInfoList.map (fun ci => ci.javaName)).Nodup →
        (e1.classInfoList.map (fun ci => ci.javaName)).Nodup) := by
  induction steps generalizing e with
  | nil =>
    simp only [runSteps, EncOutcome.returned.injEq] at hf
    rw [← hf.2]
    exact ⟨List.prefix_refl _, id⟩
  | cons s more ih =>
    cases s with
    | write bytes =>
      simp only [runSteps] at hf
      exact ih { e with buffer := e.buffer ++ bytes } hf
    | fail err0 =>
      simp only [runSteps, EncOutcome.returned.injEq] at hf
      rw [← hf.2]
      exact ⟨List.prefix_refl _, id⟩
    | child v =>
      simp only [runSteps] at hf
      rcases hE : enc e v with ⟨_ | err2, e2⟩ | _
      · rw [hE] at hf
        simp only at hf
        have h1 := henc e v none e2 hE
        have h2 := ih e2 hf
        exact ⟨List.IsPrefix.trans h1.1 h2.1, fun hn => h2.2 (h1.2 hn)⟩
      · rw [hE] at hf
        simp only [EncOutcome.returned.injEq] at hf
        rw [← hf.2]
        exact henc e v (some err2) e2 hE
      · rw [hE] at hf
        simp at hf

theorem runPlan_KeepsClasses (enc : Encoder → GoValue → EncOutcome) (henc : KeepsClasses enc)
    (p : EncPlan) (e : Encoder) (err : Option Err) (e1 : Encoder)
    (hf : runPlan enc p e = EncOutcome.returned err e1) :
    e.classInfoList <+: e1.classInfoList ∧
      ((e.classInfoList.map (fun ci => ci.javaName)).Nodup →
        (e1.classInfoList.map (fun ci => ci.javaName)).Nodup) :=
  runSteps_KeepsClasses enc henc p.steps { e with refMap := p.refMap } err e1 hf

theorem encodersAt_KeepClasses (env : EncEnv) (a : EncAbsent)
    (hreg : ∀ v : GoValue, (registryClsDef env v).javaName = env.JavaClassName v) (n : Nat) :
    (encodersAt env a n).KeepClasses := by
  have hout : KeepsClasses
      (fun (e1 : Encoder) (_ : GoValue) => EncOutcome.returned (some Err.outOfFuel) e1) :=
    KeepsClasses_of_same _ (fun _ _ _ _ hf => by
      simp only [EncOutcome.returned.injEq] at hf
      rw [← hf.2])
  induction n with
  | zero =>
    exact
      { encUntypedMap := fun e kvs err e1 hf => runPlan_KeepsClasses _ hout _ e err e1 hf
        encUntypedList := fun e v err e1 hf => runPlan_KeepsClasses _ hout _ e err e1 hf
        encMap := fun e v err e1 hf => runPlan_KeepsClasses _ hout _ e err e1 hf
        encObject := fun e v err e1 hf => hout e v err e1 hf }
  | succ n ih =>
    have hE := Encode_KeepsClasses (encodersAt env a n) ih
    exact
      { encUntypedMap := fun e kvs err e1 hf => runPlan_KeepsClasses _ hE _ e err e1 hf
        encUntypedList := fun e v err e1 hf => runPlan_KeepsClasses _ hE _ e err e1 hf
        encMap := fun e v err e1 hf => runPlan_KeepsClasses _ hE _ e err e1 hf
        encObject := fun e v err e1 hf =>
          encObject_keeps_classes env (encodersAt env a n) e v (hreg v) ih err e1 hf }

/-- C23: the class-def table of the encoder holds no Java class name twice.
When the definition the registry gives for a value carries the Java class name
`JavaClassName()` returns for it, then every call of `encObject` that returns
leaves a table that starts with the table it was given, so that every entry
keeps its index, and holds no Java class name twice when the table it was
given held none twice; a call that meets a new class appends one entry for it.
The run may nest composite values `n` deep, for every `n`; the encoders of
lists and maps, whose sources are not at hand, are taken as the spec has them:
frames of bytes and of sub-values handed to `Encode`. -/
theorem encObject_no_duplicate_classes (env : EncEnv) (a : EncAbsent) (n : Nat) (e : Encoder)
    (v : GoValue)
    (hreg : ∀ w : GoValue, (registryClsDef env w).javaName = env.JavaClassName w)
    (hnd : (e.classInfoList.map (fun ci => ci.javaName)).Nodup) :
    (∀ (err : Option Err) (e1 : Encoder),
      encObject env (encodersAt env a n) e v = EncOutcome.returned err e1 →
      e.classInfoList <+: e1.classInfoList ∧
        (e1.classInfoList.map (fun ci => ci.javaName)).Nodup) ∧
    ((env.checkRefMap e.refMap v).1 = none → env.isNilPointer v = false →
      classIndexFrom (env.JavaClassName v) e.classInfoList 0 = none →
      (∀ ci, ci ∈ e.classInfoList → ci.javaName ≠ env.JavaClassName v) ∧
      ((e.classInfoList ++ [registryClsDef env v]).map (fun ci => ci.javaName)).Nodup ∧
      ∀ (err : Option Err) (e1 : Encoder),
        encObject env (encodersAt env a n) e v = EncOutcome.returned err e1 →
        (e.classInfoList ++ [registryClsDef env v]) <+: e1.classInfoList) := by
  have hh := encodersAt_KeepClasses env a hreg n
  constructor
  · intro err e1 hf
    have := encObject_keeps_classes env _ e v (hreg v) hh err e1 hf
    exact ⟨this.1, this.2 hnd⟩
  · intro hr hn hc
    have hne := (classIndexFrom_none _ _ 0).mp hc
    refine ⟨hne, ?_, ?_⟩
    · rw [List.map_append, List.nodup_append]
      refine ⟨hnd, List.nodup_singleton _, ?_⟩
      intro x hx hb
      simp only [List.map_cons, List.map_nil, List.mem_singleton] at hb
      obtain ⟨ci, hci, hname⟩ := List.mem_map.mp hx
      exact hne ci hci (by rw [hname, hb, hreg v])
    · intro err e1 hf
      rw [encObject_new env _ e v hr hn hc] at hf
      exact (encObjectValues_KeepsClasses env _ hh _ v err e1 hf).1

theorem garageEnv_registry (w : GoValue) :
    (registryClsDef garageEnv w).javaName = garageEnv.JavaClassName w := by
  unfold registryClsDef garageEnv
  by_cases hg : isGarage w = true
  · simp only [hg, if_true]
    rfl
  · simp only [hg, if_false]
    rfl

/-- Witness of C23: the encoder holds the definition of `example.Car` and
meets a `Garage`, whose two fields hold a `Car` each. The definition of
`example.Garage` is appended at index 1, both cars are written with the
definition at index 0, and the table the call leaves holds the two classes
once each. -/
theorem encObject_no_duplicate_classes_witness :
    (∃ b : List Byte,
      encObject garageEnv (encodersAt garageEnv EncAbsent.ascii 1)
          { classInfoList := [carDef], buffer := [], refMap := [] } garage =
        EncOutcome.returned none
          { classInfoList := [carDef, garageDef], buffer := b, refMap := [] }) ∧
    ∀ (err : Option Err) (e1 : Encoder),
      encObject garageEnv (encodersAt garageEnv EncAbsent.ascii 1)
          { classInfoList := [carDef], buffer := [], refMap := [] } garage =
        EncOutcome.returned err e1 →
      [carDef] <+: e1.classInfoList ∧
        (e1.classInfoList.map (fun ci => ci.javaName)).Nodup :=
  ⟨⟨_, rfl⟩,
    (encObject_no_duplicate_classes garageEnv EncAbsent.ascii 1
      { classInfoList := [carDef], buffer := [], refMap := [] } garage garageEnv_registry
      (by decide)).1⟩

/-! ## The field count of a class definition -/

theorem decFieldNames_total (env : DecEnv) (n : Nat) (acc : List String) (d : Decoder) :
    (∃ (names : List String) (d1 : Decoder),
      decFieldNames env n acc d = (Except.ok names, d1) ∧ names.length = acc.length + n) ∨
    (∃ (e0 : Err) (d0 d1 : Decoder),
      d0.onReader env.decString TAG_READ = (Except.error e0, d1) ∧
      decFieldNames env n acc d =
        (Except.error (e0.onReturn (Err.annotated "decClassDef->decString")), d1)) := by
  induction n generalizing acc d with
  | zero => exact Or.inl ⟨acc, d, rfl, rfl⟩
  | succ n ih =>
    simp only [decFieldNames]
    rcases hr : d.onReader env.decString TAG_READ with ⟨res, d1⟩
    cases res with
    | error e0 => exact Or.inr ⟨e0, d, d1, hr, rfl⟩
    | ok s =>
      simp only
      rcases ih (acc ++ [s]) d1 with ⟨names, d2, h1, h2⟩ | h
      · refine Or.inl ⟨names, d2, h1, ?_⟩
        rw [h2, List.length_append, List.length_singleton]
        omega
      · exact Or.inr h

/-- C24, refuted for negative counts: `decClassDef` is not total on them. When
the class name decodes and the field count decodes to an int32 `n`, then for
`n < 0` the call `make([]string, n)` panics, so `decClassDef` aborts and
returns neither a class definition nor an error. For `n >= 0` the claim holds:
it returns a class definition with exactly `n` field names, or the error of a
field name that `decString` failed to read. -/
theorem decClassDef_negative_count_aborts (env : DecEnv) (d d1 d2 : Decoder) (name : String)
    (n : Int)
    (h1 : d.onReader env.decString TAG_READ = (Except.ok name, d1))
    (h2 : decInt32 d1 TAG_READ = (Except.ok n, d2)) :
    (n < 0 →
      decClassDef env d = (Except.error (Err.panic "makeslice: len out of range"), d2) ∧
      (Err.panic "makeslice: len out of range").isAbort = true) ∧
    (0 ≤ n →
      (∃ (names : List String) (d3 : Decoder),
        decClassDef env d =
          (Except.ok { javaName := name, fieldNameList := names, buffer := [] }, d3) ∧
        (names.length : Int) = n) ∨
      (∃ (e0 : Err) (d0 d3 : Decoder),
        d0.onReader env.decString TAG_READ = (Except.error e0, d3) ∧
        decClassDef env d =
          (Except.error (e0.onReturn (Err.annotated "decClassDef->decString")), d3))) := by
  constructor
  · intro hn
    refine ⟨?_, rfl⟩
    unfold decClassDef
    simp only [h1, h2, hn, if_true]
  · intro hn
    have hneg : ¬ n < 0 := by omega
    unfold decClassDef
    simp only [h1, h2, hneg, if_false]
    rcases decFieldNames_total env n.toNat [] d2 with ⟨names, d3, h3, h4⟩ | ⟨e0, d0, d3, h3, h4⟩
    · refine Or.inl ⟨names, d3, ?_, ?_⟩
      · rw [h3]
      · rw [h4]
        simp only [List.length_nil, Nat.zero_add]
        omega
    · refine Or.inr ⟨e0, d0, d3, h3, ?_⟩
      rw [h4]

/-- Witness of C24, the failing input: the class name `T` and the field count
`0x8f`, which is the int32 -1. `decClassDef` aborts, and so does `Decode` on
the tag `C` followed by this input. -/
theorem decClassDef_negative_count_aborts_witness :
    decClassDef (DecEnv.basic exampleRegistry) (NewDecoder [0x01, 0x54, 0x8f]) =
      (Except.error (Err.panic "makeslice: len out of range"),
        { NewDecoder [] with lastByte := some 0x8f }) ∧
    Decode (codecsAt (DecEnv.basic exampleRegistry) DecComposite.rejecting 1)
        (NewDecoder [0x43, 0x01, 0x54, 0x8f]) =
      (Except.error (Err.panic "makeslice: len out of range"),
        { NewDecoder [] with lastByte := some 0x8f }) :=
  ⟨((decClassDef_negative_count_aborts (DecEnv.basic exampleRegistry)
      (NewDecoder [0x01, 0x54, 0x8f]) { NewDecoder [0x8f] with lastByte := some 0x54 }
      { NewDecoder [] with lastByte := some 0x8f } "T" (-1) rfl
      ((decInt32_read_direct { NewDecoder [] with lastByte := some 0x54 } 0x8f []
        (by decide) (by decide)).trans
          (Prod.ext (by simp only [Except.ok.injEq]; decide) rfl))).1 (by decide)).1,
    rfl⟩

end Hessian
